import Mathlib

/-!
# vkrunner `vr-test.c`: a shallow embedding and its properties

The development follows `src/vr-test.c`.  The C type `float` is modelled as
IEEE-754 binary32 with round-to-nearest-even (`CFloat`, `round32`); finite
values are carried as exact rationals, the sign of zero is not tracked.
Device calls are modelled by an explicit `World` holding the outcome of every
fallible call and the trace of the calls that were issued.  The `int`
expressions of the probe offsets keep the low 32 bits (`int_wrap`).
-/

namespace VkRunner

unseal Rat.mul Rat.inv Rat.add Rat.sub

/-! ## The C `float` type -/

/-- A value of the C type `float`: a finite number (carried as its exact
rational value), an infinity, or a NaN. -/
inductive CFloat where
  | finite (q : ℚ)
  | inf (negative : Bool)
  | nan
  deriving DecidableEq

/-- Quotient `a / b` of two naturals rounded to the nearest integer, ties to
the even integer. -/
def roundNearestEven (a b : ℕ) : ℕ :=
  if 2 * (a % b) < b then a / b
  else if b < 2 * (a % b) then a / b + 1
  else if (a / b) % 2 = 0 then a / b
  else a / b + 1

/-- Position of the highest set bit, found by at most `fuel` halvings. -/
def log2Fuel : ℕ → ℕ → ℕ
  | 0, _ => 0
  | fuel + 1, n => if n < 2 then 0 else log2Fuel fuel (n / 2) + 1

/-- The binary logarithm `⌊log₂ n⌋` of a positive natural (`0` for `n = 0`). -/
def ilog2 (n : ℕ) : ℕ := log2Fuel n n

/-- The binary exponent `⌊log₂ (n / d)⌋` of a positive fraction. -/
def floorLog2 (n d : ℕ) : ℤ :=
  if d * 2 ^ ((ilog2 n : ℤ) - (ilog2 d : ℤ)).toNat
      ≤ n * 2 ^ ((ilog2 d : ℤ) - (ilog2 n : ℤ)).toNat
  then (ilog2 n : ℤ) - (ilog2 d : ℤ)
  else (ilog2 n : ℤ) - (ilog2 d : ℤ) - 1

/-- Exponent of the unit in the last place of the binary32 number nearest to
`n / d`: 24 significant bits, smallest exponent `-126` (subnormals below). -/
def ulpExp (n d : ℕ) : ℤ :=
  max (floorLog2 n d) (-126) - 23

/-- Integer significand of `n / d` rounded to binary32: the quotient by the
unit in the last place, rounded to nearest even. -/
def significand32 (n d : ℕ) : ℕ :=
  roundNearestEven (n * 2 ^ (-(ulpExp n d)).toNat) (d * 2 ^ (ulpExp n d).toNat)

/-- A positive fraction `n / d` rounded to binary32; `none` when it rounds
beyond the largest finite value (overflow to infinity). -/
def roundMag32 (n d : ℕ) : Option ℚ :=
  if 2 ^ 128 * 2 ^ (-(ulpExp n d)).toNat ≤ significand32 n d * 2 ^ (ulpExp n d).toNat then none
  else some (mkRat ((significand32 n d * 2 ^ (ulpExp n d).toNat : ℕ) : ℤ)
                   (2 ^ (-(ulpExp n d)).toNat))

/-- Round a rational to the nearest binary32 value, ties to even. -/
def round32 (q : ℚ) : CFloat :=
  if q = 0 then CFloat.finite 0
  else
    match roundMag32 q.num.natAbs q.den with
    | none => CFloat.inf (decide (q < 0))
    | some r => CFloat.finite (if q < 0 then -r else r)

namespace CFloat

/-- Conversion of an unsigned integer to `float`. -/
def ofNat (n : ℕ) : CFloat := round32 (n : ℚ)

/-- Conversion of a signed integer to `float`. -/
def ofInt (z : ℤ) : CFloat := round32 (z : ℚ)

/-- The constant `0.0f`. -/
def zero : CFloat := finite 0

/-- The constant `1.0f`. -/
def one : CFloat := finite 1

/-- Float division `a / b`.  A zero divisor is taken as `+0.0` (the divisors
of `vr-test.c` are conversions of integers). -/
def div : CFloat → CFloat → CFloat
  | nan, _ => nan
  | _, nan => nan
  | inf _, inf _ => nan
  | inf s, finite y => inf (xor s (decide (y < 0)))
  | finite _, inf _ => finite 0
  | finite x, finite y =>
    if y = 0 then (if x = 0 then nan else inf (decide (x < 0)))
    else round32 (x / y)

/-- Float subtraction `a - b`. -/
def sub : CFloat → CFloat → CFloat
  | nan, _ => nan
  | _, nan => nan
  | inf s, inf t => if s = t then nan else inf s
  | inf s, finite _ => inf s
  | finite _, inf t => inf (!t)
  | finite x, finite y => round32 (x - y)

/-- The C function `fabsf`. -/
def fabsf : CFloat → CFloat
  | nan => nan
  | inf _ => inf false
  | finite x => finite |x|

/-- The C comparison `a > b`: false whenever an operand is a NaN. -/
def gt : CFloat → CFloat → Bool
  | nan, _ => false
  | _, nan => false
  | inf s, inf t => !s && t
  | inf s, finite _ => !s
  | finite _, inf t => t
  | finite x, finite y => decide (y < x)

/-- The C comparison `a <= b`: false whenever an operand is a NaN. -/
def le : CFloat → CFloat → Bool
  | nan, _ => false
  | _, nan => false
  | inf s, inf t => s || !t
  | inf s, finite _ => s
  | finite _, inf t => !t
  | finite x, finite y => decide (x ≤ y)

/-- Whether the value is a NaN. -/
def isNaN : CFloat → Bool
  | nan => true
  | _ => false

end CFloat

/-- Reinterpretation of a 32-bit pattern as a `float` (`*(float *) fb`). -/
def float_of_bits (u : ℕ) : CFloat :=
  if u / 2 ^ 23 % 2 ^ 8 = 255 then
    (if u % 2 ^ 23 = 0 then CFloat.inf (decide (u / 2 ^ 31 % 2 = 1)) else CFloat.nan)
  else if u / 2 ^ 23 % 2 ^ 8 = 0 then
    CFloat.finite (mkRat (if u / 2 ^ 31 % 2 = 1 then -((u % 2 ^ 23 : ℕ) : ℤ) else (u % 2 ^ 23 : ℕ))
      (2 ^ 149))
  else
    CFloat.finite (mkRat
      (if u / 2 ^ 31 % 2 = 1 then -(((2 ^ 23 + u % 2 ^ 23) * 2 ^ (u / 2 ^ 23 % 2 ^ 8 - 150) : ℕ) : ℤ)
       else (((2 ^ 23 + u % 2 ^ 23) * 2 ^ (u / 2 ^ 23 % 2 ^ 8 - 150) : ℕ) : ℤ))
      (2 ^ (150 - u / 2 ^ 23 % 2 ^ 8)))

/-- Reinterpretation of a 64-bit pattern as a `double` converted to `float`
(`return *(double *) fb;` in a function returning `float`). -/
def float_of_double_bits (u : ℕ) : CFloat :=
  if u / 2 ^ 52 % 2 ^ 11 = 2047 then
    (if u % 2 ^ 52 = 0 then CFloat.inf (decide (u / 2 ^ 63 % 2 = 1)) else CFloat.nan)
  else if u / 2 ^ 52 % 2 ^ 11 = 0 then
    round32 (mkRat (if u / 2 ^ 63 % 2 = 1 then -((u % 2 ^ 52 : ℕ) : ℤ) else (u % 2 ^ 52 : ℕ))
      (2 ^ 1074))
  else
    round32 (mkRat
      (if u / 2 ^ 63 % 2 = 1
       then -(((2 ^ 52 + u % 2 ^ 52) * 2 ^ (u / 2 ^ 52 % 2 ^ 11 - 1075) : ℕ) : ℤ)
       else (((2 ^ 52 + u % 2 ^ 52) * 2 ^ (u / 2 ^ 52 % 2 ^ 11 - 1075) : ℕ) : ℤ))
      (2 ^ (1075 - u / 2 ^ 52 % 2 ^ 11)))

/-! ## Formats, host memory and small arrays -/

/-- The enumeration `enum vr_format_mode`. -/
inductive vr_format_mode where
  | UNORM | SNORM | USCALED | SSCALED | UINT | SINT | SRGB | UFLOAT | SFLOAT
  deriving DecidableEq

/-- The enumeration `enum vr_format_swizzle`. -/
inductive vr_format_swizzle where
  | RGBA | ARGB | BGRA | ABGR
  deriving DecidableEq

/-- One entry of `format->components`: the bit width of the component. -/
structure vr_format_component where
  bits : ℕ
  deriving DecidableEq

/-- The fields of `struct vr_format` read by `vr-test.c`.  The component
array and `n_components` are carried as one list. -/
structure vr_format where
  packed_size : ℕ
  swizzle : vr_format_swizzle
  mode : vr_format_mode
  components : List vr_format_component
  deriving DecidableEq

/-- The field `format->n_components`. -/
def vr_format.n_components (format : vr_format) : ℕ := format.components.length

/-- An array `float [4]` (`parts`, `pixel`, a colour). -/
structure Float4 where
  c0 : CFloat
  c1 : CFloat
  c2 : CFloat
  c3 : CFloat
  deriving DecidableEq

/-- Array read `a[i]`; only the indices `0..3` exist. -/
def Float4.get (a : Float4) (i : ℕ) : CFloat :=
  match i with
  | 0 => a.c0
  | 1 => a.c1
  | 2 => a.c2
  | _ => a.c3

/-- Array write `a[i] = v`; only the indices `0..3` exist. -/
def Float4.set (a : Float4) (i : ℕ) (v : CFloat) : Float4 :=
  match i with
  | 0 => { a with c0 := v }
  | 1 => { a with c1 := v }
  | 2 => { a with c2 := v }
  | 3 => { a with c3 := v }
  | _ => a

/-- What the host reads through a pointer into the mapped linear image: the
native-endian scalar of the given width stored at a byte offset. -/
structure HostMemory where
  scalar : (bits : ℕ) → (addr : ℤ) → ℕ

/-- Unsigned read `*(uintN_t *) fb`. -/
def read_uint (mem : HostMemory) (bits : ℕ) (fb : ℤ) : ℕ :=
  mem.scalar bits fb % 2 ^ bits

/-- Two's complement value of a `bits`-wide pattern. -/
def to_signed (bits : ℕ) (u : ℕ) : ℤ :=
  if u < 2 ^ (bits - 1) then (u : ℤ) else (u : ℤ) - 2 ^ bits

/-- Signed read `*(intN_t *) fb`. -/
def read_int (mem : HostMemory) (bits : ℕ) (fb : ℤ) : ℤ :=
  to_signed bits (read_uint mem bits fb)

/-- Ways in which the process stops instead of returning. -/
inductive Abort where
  | vr_fatal (message : String)
  | assert_failed
  deriving DecidableEq

deriving instance DecidableEq for Except

def UINT8_MAX : ℕ := 2 ^ 8 - 1
def UINT16_MAX : ℕ := 2 ^ 16 - 1
def UINT32_MAX : ℕ := 2 ^ 32 - 1
def UINT64_MAX : ℕ := 2 ^ 64 - 1
def INT8_MAX : ℤ := 2 ^ 7 - 1
def INT16_MAX : ℤ := 2 ^ 15 - 1
def INT32_MAX : ℤ := 2 ^ 31 - 1
def INT64_MAX : ℤ := 2 ^ 63 - 1

/-! ## The pixel decoder -/

/-- The function `sign_extend` (`uint32_t part`, result `int32_t`), for
`bits ≥ 1`. -/
def sign_extend (part : ℕ) (bits : ℕ) : ℤ :=
  if part &&& (1 <<< (bits - 1)) ≠ 0 then
    to_signed 32 (((UINT32_MAX <<< bits) % 2 ^ 32) ||| part)
  else
    to_signed 32 part

/-- The function `load_packed_part`. -/
def load_packed_part (part : ℕ) (bits : ℕ) (mode : vr_format_mode) : Except Abort CFloat :=
  if ¬ bits < 32 then Except.error Abort.assert_failed
  else
    match mode with
    | vr_format_mode.SRGB | vr_format_mode.UNORM =>
      Except.ok (CFloat.div (CFloat.ofNat part) (CFloat.ofInt (((1 <<< bits : ℕ) : ℤ) - 1)))
    | vr_format_mode.SNORM =>
      Except.ok (CFloat.div (CFloat.ofInt (sign_extend part bits))
        (CFloat.ofInt (((1 <<< (bits - 1) : ℕ) : ℤ) - 1)))
    | vr_format_mode.UINT | vr_format_mode.USCALED =>
      Except.ok (CFloat.ofNat part)
    | vr_format_mode.SSCALED | vr_format_mode.SINT =>
      Except.ok (CFloat.ofInt (sign_extend part bits))
    | vr_format_mode.UFLOAT =>
      Except.error (Abort.vr_fatal "FIXME: load from packed UFLOAT format")
    | vr_format_mode.SFLOAT =>
      Except.error (Abort.vr_fatal "Unexpected packed SFLOAT format")

/-- The loop of `load_packed_parts`: `n` is the number of components still
to extract, the C loop variable being `i = n - 1`. -/
def load_packed_loop (format : vr_format) : ℕ → ℕ → Float4 → Except Abort Float4
  | 0, _, parts => Except.ok parts
  | i + 1, packed_parts, parts =>
    match load_packed_part
        ((packed_parts &&& ((1 <<< (format.components.getD i ⟨0⟩).bits) - 1)) % 2 ^ 32)
        (format.components.getD i ⟨0⟩).bits format.mode with
    | Except.error e => Except.error e
    | Except.ok v =>
      load_packed_loop format i (packed_parts >>> (format.components.getD i ⟨0⟩).bits)
        (parts.set i v)

/-- The function `load_packed_parts`. -/
def load_packed_parts (mem : HostMemory) (format : vr_format) (fb : ℤ) (parts : Float4) :
    Except Abort Float4 :=
  if format.packed_size = 8 then
    load_packed_loop format format.n_components (read_uint mem 8 fb) parts
  else if format.packed_size = 16 then
    load_packed_loop format format.n_components (read_uint mem 16 fb) parts
  else if format.packed_size = 32 then
    load_packed_loop format format.n_components (read_uint mem 32 fb) parts
  else
    Except.error (Abort.vr_fatal "Unknown packed bit size: %i")

/-- The function `load_part`. -/
def load_part (mem : HostMemory) (format : vr_format) (bits : ℕ) (fb : ℤ) : Except Abort CFloat :=
  match format.mode with
  | vr_format_mode.SRGB | vr_format_mode.UNORM =>
    if bits = 8 then
      Except.ok (CFloat.div (CFloat.ofNat (read_uint mem 8 fb)) (CFloat.ofNat UINT8_MAX))
    else if bits = 16 then
      Except.ok (CFloat.div (CFloat.ofNat (read_uint mem 16 fb)) (CFloat.ofNat UINT16_MAX))
    else if bits = 32 then
      Except.ok (CFloat.div (CFloat.ofNat (read_uint mem 32 fb)) (CFloat.ofNat UINT32_MAX))
    else if bits = 64 then
      Except.ok (CFloat.div (CFloat.ofNat (read_uint mem 64 fb)) (CFloat.ofNat UINT64_MAX))
    else Except.error (Abort.vr_fatal "Unknown format bit size combination")
  | vr_format_mode.SNORM =>
    if bits = 8 then
      Except.ok (CFloat.div (CFloat.ofInt (read_int mem 8 fb)) (CFloat.ofInt INT8_MAX))
    else if bits = 16 then
      Except.ok (CFloat.div (CFloat.ofInt (read_int mem 16 fb)) (CFloat.ofInt INT16_MAX))
    else if bits = 32 then
      Except.ok (CFloat.div (CFloat.ofInt (read_int mem 32 fb)) (CFloat.ofInt INT32_MAX))
    else if bits = 64 then
      Except.ok (CFloat.div (CFloat.ofInt (read_int mem 64 fb)) (CFloat.ofInt INT64_MAX))
    else Except.error (Abort.vr_fatal "Unknown format bit size combination")
  | vr_format_mode.UINT | vr_format_mode.USCALED =>
    if bits = 8 then Except.ok (CFloat.ofNat (read_uint mem 8 fb))
    else if bits = 16 then Except.ok (CFloat.ofNat (read_uint mem 16 fb))
    else if bits = 32 then Except.ok (CFloat.ofNat (read_uint mem 32 fb))
    else if bits = 64 then Except.ok (CFloat.ofNat (read_uint mem 64 fb))
    else Except.error (Abort.vr_fatal "Unknown format bit size combination")
  | vr_format_mode.SINT | vr_format_mode.SSCALED =>
    if bits = 8 then Except.ok (CFloat.ofInt (read_int mem 8 fb))
    else if bits = 16 then Except.ok (CFloat.ofInt (read_int mem 16 fb))
    else if bits = 32 then Except.ok (CFloat.ofInt (read_int mem 32 fb))
    else if bits = 64 then Except.ok (CFloat.ofInt (read_int mem 64 fb))
    else Except.error (Abort.vr_fatal "Unknown format bit size combination")
  | vr_format_mode.UFLOAT =>
    Except.error (Abort.vr_fatal "Unknown format bit size combination")
  | vr_format_mode.SFLOAT =>
    if bits = 16 then Except.error (Abort.vr_fatal "FIXME: load pixel from half-float format")
    else if bits = 32 then Except.ok (float_of_bits (read_uint mem 32 fb))
    else if bits = 64 then Except.ok (float_of_double_bits (read_uint mem 64 fb))
    else Except.error (Abort.vr_fatal "Unknown format bit size combination")

/-- The unpacked loop of `load_pixel`: the components still to read, the
loop variable `i` and the moving pointer `fb`. -/
def load_unpacked_loop (mem : HostMemory) (format : vr_format) :
    List vr_format_component → ℕ → ℤ → Float4 → Except Abort Float4
  | [], _, _, parts => Except.ok parts
  | c :: rest, i, fb, parts =>
    match load_part mem format c.bits fb with
    | Except.error e => Except.error e
    | Except.ok v =>
      load_unpacked_loop mem format rest (i + 1) (fb + ((c.bits / 8 : ℕ) : ℤ)) (parts.set i v)

/-- The array `parts` of `load_pixel` after its initialisation and the first
`switch`: zeroes, with 1.0 where the swizzle places alpha. -/
def initial_parts (swizzle : vr_format_swizzle) : Float4 :=
  match swizzle with
  | vr_format_swizzle.BGRA | vr_format_swizzle.RGBA =>
    (Float4.mk CFloat.zero CFloat.zero CFloat.zero CFloat.zero).set 3 CFloat.one
  | vr_format_swizzle.ARGB | vr_format_swizzle.ABGR =>
    (Float4.mk CFloat.zero CFloat.zero CFloat.zero CFloat.zero).set 0 CFloat.one

/-- The raw components of a pixel in declared order: `parts` of `load_pixel`
before the final `switch`. -/
def load_parts (mem : HostMemory) (format : vr_format) (fb : ℤ) : Except Abort Float4 :=
  if format.packed_size ≠ 0 then
    load_packed_parts mem format fb (initial_parts format.swizzle)
  else
    load_unpacked_loop mem format format.components 0 fb (initial_parts format.swizzle)

/-- The final `switch` of `load_pixel`, writing into the caller's array
`pixel`. -/
def apply_swizzle (swizzle : vr_format_swizzle) (parts pixel : Float4) : Float4 :=
  match swizzle with
  | vr_format_swizzle.RGBA => parts
  | vr_format_swizzle.ARGB =>
    (((pixel.set 0 (parts.get 1)).set 1 (parts.get 2)).set 2 (parts.get 3)).set 2 (parts.get 0)
  | vr_format_swizzle.BGRA =>
    (((pixel.set 0 (parts.get 2)).set 1 (parts.get 1)).set 2 (parts.get 0)).set 3 (parts.get 3)
  | vr_format_swizzle.ABGR =>
    (((pixel.set 0 (parts.get 3)).set 1 (parts.get 2)).set 2 (parts.get 1)).set 3 (parts.get 0)

/-- The function `load_pixel`.  The last argument is the content of the
caller's array `pixel` on entry; the result is its content on return. -/
def load_pixel (mem : HostMemory) (format : vr_format) (fb : ℤ) (pixel : Float4) :
    Except Abort Float4 :=
  match load_parts mem format fb with
  | Except.error e => Except.error e
  | Except.ok parts => Except.ok (apply_swizzle format.swizzle parts pixel)

/-- The function `compare_pixels`. -/
def compare_pixels (color1 color2 tolerance : Float4) (n_components : ℕ) : Bool :=
  (List.range n_components).all fun p =>
    !(CFloat.gt (CFloat.fabsf (CFloat.sub (color1.get p) (color2.get p))) (tolerance.get p))

/-- The constant array `tolerance`. -/
def tolerance : Float4 :=
  Float4.mk (round32 (1 / 100)) (round32 (1 / 100)) (round32 (1 / 100)) (round32 (1 / 100))

/-- A host memory given by its bytes from offset 0, scalars being stored
little-endian; used to evaluate the decoder on concrete pixels. -/
def bytes_memory (bytes : List ℕ) : HostMemory where
  scalar bits addr :=
    ((List.range (bits / 8)).map fun k => bytes.getD (addr.toNat + k) 0 * 256 ^ k).sum

/-- An unpacked format `A8R8G8B8_UNORM`: four 8-bit components, swizzle ARGB. -/
def argb8_unorm : vr_format :=
  ⟨0, vr_format_swizzle.ARGB, vr_format_mode.UNORM, [⟨8⟩, ⟨8⟩, ⟨8⟩, ⟨8⟩]⟩

/-- An unpacked format `B8G8R8A8_UNORM`: four 8-bit components, swizzle BGRA. -/
def bgra8_unorm : vr_format :=
  ⟨0, vr_format_swizzle.BGRA, vr_format_mode.UNORM, [⟨8⟩, ⟨8⟩, ⟨8⟩, ⟨8⟩]⟩

/-- An unpacked format `R8G8B8_UNORM`: three 8-bit components, swizzle RGBA. -/
def rgb8_unorm : vr_format :=
  ⟨0, vr_format_swizzle.RGBA, vr_format_mode.UNORM, [⟨8⟩, ⟨8⟩, ⟨8⟩]⟩

/-- An unpacked format `R8_SNORM`. -/
def r8_snorm : vr_format :=
  ⟨0, vr_format_swizzle.RGBA, vr_format_mode.SNORM, [⟨8⟩]⟩

/-- A packed 32-bit UINT format with fields of 2, 10, 10 and 10 bits
(`A2R10G10B10_UINT_PACK32`). -/
def a2r10g10b10_uint : vr_format :=
  ⟨32, vr_format_swizzle.ARGB, vr_format_mode.UINT, [⟨2⟩, ⟨10⟩, ⟨10⟩, ⟨10⟩]⟩

/-- A packed 32-bit UINT format with a single field of 25 bits. -/
def wide_uint : vr_format :=
  ⟨32, vr_format_swizzle.RGBA, vr_format_mode.UINT, [⟨25⟩]⟩

/-- The colour with all four channels 0.0. -/
def black : Float4 := ⟨CFloat.zero, CFloat.zero, CFloat.zero, CFloat.zero⟩

/-! ## Bit-fields of a packed word -/

/-- Width of the component of index `l`. -/
def component_bits (format : vr_format) (l : ℕ) : ℕ := (format.components.getD l ⟨0⟩).bits

/-- The bit-field of index `i` in a packed word `w`, when the fields of
indices `i+1 .. n-1` lie below it. -/
def bit_field (format : vr_format) (n w i : ℕ) : ℕ :=
  w / 2 ^ (∑ l in Finset.Ico (i + 1) n, component_bits format l) % 2 ^ component_bits format i

/-- Fields `c 0 .. c (n-1)` packed most-significant-first. -/
def pack_fields (format : vr_format) (c : ℕ → ℕ) : ℕ → ℕ
  | 0 => 0
  | k + 1 => pack_fields format c k * 2 ^ component_bits format k + c k

/-! ## The device, the script and the run state -/

/-- Float addition `a + b`. -/
def CFloat.add : CFloat → CFloat → CFloat
  | CFloat.nan, _ => CFloat.nan
  | _, CFloat.nan => CFloat.nan
  | CFloat.inf s, CFloat.inf t => if s = t then CFloat.inf s else CFloat.nan
  | CFloat.inf s, CFloat.finite _ => CFloat.inf s
  | CFloat.finite _, CFloat.inf t => CFloat.inf t
  | CFloat.finite x, CFloat.finite y => round32 (x + y)

/-- The fields of `struct vr_window` read by `vr-test.c`.  `format_size` is
the value of `vr_format_get_size (framebuffer_format)`, an `int`;
`linear_memory_stride` is a `VkDeviceSize`, an unsigned 64-bit integer. -/
structure vr_window where
  framebuffer_format : vr_format
  format_size : ℤ
  linear_memory_stride : ℤ
  need_linear_memory_invalidate : Bool

/-- The fields of `struct vr_vbo` read by `draw_arrays`. -/
structure vr_vbo where
  stride : ℕ
  num_rows : ℕ
  deriving DecidableEq

/-- The tag `command->op` together with the member of the union that goes
with it. -/
inductive vr_script_op where
  | DRAW_RECT (x y w h : CFloat)
  | DRAW_ARRAYS (vertex_count instance_count first_vertex first_instance : ℕ)
  | PROBE_RECT (n_components : ℕ) (x y w h : ℤ) (color : Float4)
  | SET_PUSH_CONSTANT (offset size : ℕ)
  | CLEAR_COLOR (color : Float4)
  | CLEAR
  deriving DecidableEq

/-- A command of the script: `struct vr_script_command`. -/
structure vr_script_command where
  line_num : ℤ
  op : vr_script_op
  deriving DecidableEq

/-- The fields of `struct vr_script` read by `vr-test.c`. -/
structure vr_script where
  commands : List vr_script_command
  vertex_data : Option vr_vbo
  deriving DecidableEq

/-- What the program does to the outside: device calls (a fallible call is
logged with its outcome, `true` for `VK_SUCCESS`), host accesses to mapped
memory and printed lines.  Test buffers are named by their allocation
number. -/
inductive Event where
  | vr_calloc (buffer : ℕ)
  | vkCreateBuffer (buffer : ℕ) (size : ℕ) (ok : Bool)
  | vr_allocate_store_buffer (buffer : ℕ) (ok : Bool)
  | vkMapMemory (buffer : ℕ) (ok : Bool)
  | vkUnmapMemory (buffer : ℕ)
  | vkFreeMemory (buffer : ℕ)
  | vkDestroyBuffer (buffer : ℕ)
  | vr_free (buffer : ℕ)
  | vkBeginCommandBuffer (ok : Bool)
  | vkCmdBeginRenderPass
  | vkCmdBindPipeline
  | vkCmdEndRenderPass
  | vkCmdCopyImage
  | vkEndCommandBuffer (ok : Bool)
  | vkResetFences
  | vkQueueSubmit (ok : Bool)
  | vkWaitForFences (ok : Bool)
  | vkInvalidateMappedMemoryRanges
  | write_vertices (buffer : ℕ) (vertices : List (CFloat × CFloat × CFloat))
  | memcpy_vertex_data (buffer : ℕ) (size : ℕ)
  | vr_flush_memory (buffer : ℕ)
  | vkCmdBindVertexBuffers (buffer : ℕ)
  | vkCmdDraw (vertex_count instance_count first_vertex first_instance : ℕ)
  | vkCmdPushConstants (offset size : ℕ)
  | vkCmdClearAttachments (color : Float4)
  | load_pixel (fb : ℤ)
  | vr_error_message (message : String)
  | print_command_fail (line_num : ℤ)
  | print_bad_pixel (x y : ℤ) (n_components : ℕ) (expected observed : Float4)
  deriving DecidableEq

/-- The world around the program: the outcome of the k-th fallible device
call, the content of the mapped linear image as a function of the number of
device calls made, the indeterminate content of the k-th uninitialised
`float pixel[4]`, and what has happened so far. -/
structure World where
  outcome : ℕ → Bool
  linear_memory : ℕ → HostMemory
  stack : ℕ → Float4
  calls : ℕ
  loads : ℕ
  allocations : ℕ
  trace : List Event

/-- The world before the run. -/
def World.init (outcome : ℕ → Bool) (linear_memory : ℕ → HostMemory) (stack : ℕ → Float4) :
    World :=
  ⟨outcome, linear_memory, stack, 0, 0, 0, []⟩

/-- Log an event that cannot fail. -/
def World.emit (world : World) (e : Event) : World :=
  { world with trace := world.trace ++ [e] }

/-- A fallible device call: its outcome is the next one of the world. -/
def World.call (world : World) (e : Bool → Event) : Bool × World :=
  (world.outcome world.calls,
    { world with calls := world.calls + 1,
                 trace := world.trace ++ [e (world.outcome world.calls)] })

/-- The structure `struct test_buffer`: its allocation number and whether
each handle is non-NULL. -/
structure test_buffer where
  id : ℕ
  buffer : Bool
  memory : Bool
  memory_map : Bool
  deriving DecidableEq

/-- The structure `struct test_data` (the pipeline handle is left out). -/
structure test_data where
  window : vr_window
  buffers : List test_buffer
  script : vr_script
  clear_color : Float4
  vbo_buffer : Option test_buffer

/-! ## Buffers -/

/-- The function `allocate_test_buffer`.  The buffer is linked into
`data->buffers` on entry and filled through the pointer afterwards; the list
below receives it with the handles it has on return. -/
def allocate_test_buffer (data : test_data) (size : ℕ) (world : World) :
    Option test_buffer × test_data × World :=
  let id := world.allocations
  let w0 := { world.emit (Event.vr_calloc id) with allocations := world.allocations + 1 }
  let r1 := w0.call (Event.vkCreateBuffer id size)
  if r1.1 = false then
    (none, { data with buffers := data.buffers ++ [⟨id, false, false, false⟩] },
      r1.2.emit (Event.vr_error_message "Error creating buffer"))
  else
    let r2 := r1.2.call (Event.vr_allocate_store_buffer id)
    if r2.1 = false then
      (none, { data with buffers := data.buffers ++ [⟨id, true, false, false⟩] },
        r2.2.emit (Event.vr_error_message "Error allocating memory"))
    else
      let r3 := r2.2.call (Event.vkMapMemory id)
      if r3.1 = false then
        (none, { data with buffers := data.buffers ++ [⟨id, true, true, false⟩] },
          r3.2.emit (Event.vr_error_message "Error mapping memory"))
      else
        (some ⟨id, true, true, true⟩,
          { data with buffers := data.buffers ++ [⟨id, true, true, true⟩] }, r3.2)

/-- The device calls and the `vr_free` of `free_test_buffer`, in order. -/
def release_events (buffer : test_buffer) : List Event :=
  (if buffer.memory_map then [Event.vkUnmapMemory buffer.id] else [])
    ++ (if buffer.memory then [Event.vkFreeMemory buffer.id] else [])
    ++ (if buffer.buffer then [Event.vkDestroyBuffer buffer.id] else [])
    ++ [Event.vr_free buffer.id]

/-- The function `free_test_buffer`. -/
def free_test_buffer (data : test_data) (buffer : test_buffer) (world : World) :
    test_data × World :=
  let w1 := if buffer.memory_map then world.emit (Event.vkUnmapMemory buffer.id) else world
  let w2 := if buffer.memory then w1.emit (Event.vkFreeMemory buffer.id) else w1
  let w3 := if buffer.buffer then w2.emit (Event.vkDestroyBuffer buffer.id) else w2
  ({ data with buffers := data.buffers.erase buffer }, w3.emit (Event.vr_free buffer.id))

/-- The loop `vr_list_for_each_safe (buffer, tmp, &data.buffers, link)` at
the end of `vr_test_run`, over the buffers still to visit. -/
def free_all_buffers : List test_buffer → test_data → World → test_data × World
  | [], data, world => (data, world)
  | buffer :: rest, data, world =>
    free_all_buffers rest (free_test_buffer data buffer world).1
      (free_test_buffer data buffer world).2

/-! ## Frames -/

/-- The function `begin_paint`. -/
def begin_paint (_data : test_data) (world : World) : Bool × World :=
  let r := world.call Event.vkBeginCommandBuffer
  if r.1 = false then
    (false, r.2.emit (Event.vr_error_message "vkBeginCommandBuffer failed"))
  else
    (true, (r.2.emit Event.vkCmdBeginRenderPass).emit Event.vkCmdBindPipeline)

/-- The function `end_paint`. -/
def end_paint (data : test_data) (world : World) : Bool × World :=
  let w1 := (world.emit Event.vkCmdEndRenderPass).emit Event.vkCmdCopyImage
  let r1 := w1.call Event.vkEndCommandBuffer
  if r1.1 = false then
    (false, r1.2.emit (Event.vr_error_message "vkEndCommandBuffer failed"))
  else
    let r2 := (r1.2.emit Event.vkResetFences).call Event.vkQueueSubmit
    if r2.1 = false then
      (false, r2.2.emit (Event.vr_error_message "vkQueueSubmit failed"))
    else
      let r3 := r2.2.call Event.vkWaitForFences
      if r3.1 = false then
        (false, r3.2.emit (Event.vr_error_message "vkWaitForFences failed"))
      else if data.window.need_linear_memory_invalidate then
        (true, r3.2.emit Event.vkInvalidateMappedMemoryRanges)
      else
        (true, r3.2)

/-! ## Command handlers -/

/-- The six vertices `draw_rect` writes into the mapped buffer. -/
def rect_vertices (x y w h : CFloat) : List (CFloat × CFloat × CFloat) :=
  [(x, y, CFloat.zero), (CFloat.add x w, y, CFloat.zero), (x, CFloat.add y h, CFloat.zero),
   (x, CFloat.add y h, CFloat.zero), (CFloat.add x w, y, CFloat.zero),
   (CFloat.add x w, CFloat.add y h, CFloat.zero)]

/-- The size in bytes of `struct vr_pipeline_vertex` (three floats). -/
def sizeof_vr_pipeline_vertex : ℕ := 12

/-- The function `draw_rect`. -/
def draw_rect (data : test_data) (x y w h : CFloat) (world : World) :
    Bool × test_data × World :=
  let r := allocate_test_buffer data (sizeof_vr_pipeline_vertex * 6) world
  match r.1 with
  | none => (false, r.2.1, r.2.2)
  | some buffer =>
    (true, r.2.1,
      (((r.2.2.emit (Event.write_vertices buffer.id (rect_vertices x y w h))).emit
        (Event.vr_flush_memory buffer.id)).emit
        (Event.vkCmdBindVertexBuffers buffer.id)).emit (Event.vkCmdDraw 6 1 0 0))

/-- The function `draw_arrays`. -/
def draw_arrays (data : test_data) (command : vr_script_command)
    (vertex_count instance_count first_vertex first_instance : ℕ) (world : World) :
    Bool × test_data × World :=
  match data.script.vertex_data with
  | none =>
    (false, data,
      (world.emit (Event.print_command_fail command.line_num)).emit
        (Event.vr_error_message "draw arrays command used with no vertex data section"))
  | some vbo =>
    match data.vbo_buffer with
    | some buffer =>
      (true, data,
        (world.emit (Event.vkCmdBindVertexBuffers buffer.id)).emit
          (Event.vkCmdDraw vertex_count instance_count first_vertex first_instance))
    | none =>
      let r := allocate_test_buffer data (vbo.stride * vbo.num_rows) world
      match r.1 with
      | none => (false, { r.2.1 with vbo_buffer := none }, r.2.2)
      | some buffer =>
        (true, { r.2.1 with vbo_buffer := some buffer },
          (((r.2.2.emit (Event.memcpy_vertex_data buffer.id (vbo.stride * vbo.num_rows))).emit
            (Event.vr_flush_memory buffer.id)).emit
            (Event.vkCmdBindVertexBuffers buffer.id)).emit
            (Event.vkCmdDraw vertex_count instance_count first_vertex first_instance))

/-- The value of a C `int` expression whose exact value is `z`: arithmetic on
`int` keeps the low 32 bits, read in two's complement. -/
def int_wrap (z : ℤ) : ℤ := to_signed 32 (z % 2 ^ 32).toNat

/-- The offset of the first pixel of row `y` of a probe, the initial value
of `p` less the base `linear_memory_map`:
`(y + probe_rect.y) * linear_memory_stride + probe_rect.x * format_size`.
The sum `y + probe_rect.y` and the product `probe_rect.x * format_size` are
`int` expressions; the product with the 64-bit stride and the addition to
the pointer are exact. -/
def row_start (window : vr_window) (rx ry y : ℤ) : ℤ :=
  int_wrap (y + ry) * window.linear_memory_stride + int_wrap (rx * window.format_size)

/-- The inner loop of `probe_rect` over `x`, with `remaining` iterations to
go and `p` the moving pointer.  The result tells whether a pixel mismatched
(the `goto done`).  The coordinates printed are the `int` expressions
`x + probe_rect.x` and `y + probe_rect.y`. -/
def probe_row (data : test_data) (command : vr_script_command) (n_components : ℕ)
    (rx ry : ℤ) (color : Float4) (y : ℤ) : ℕ → ℤ → ℤ → World → Except Abort (Bool × World)
  | 0, _, _, world => Except.ok (false, world)
  | remaining + 1, x, p, world =>
    match load_pixel (world.linear_memory world.calls) data.window.framebuffer_format p
        (world.stack world.loads) with
    | Except.error e => Except.error e
    | Except.ok pixel =>
      if compare_pixels pixel color tolerance n_components = false then
        Except.ok (true,
          (({ world with loads := world.loads + 1 }.emit (Event.load_pixel p)).emit
            (Event.print_command_fail command.line_num)).emit
            (Event.print_bad_pixel (int_wrap (x + rx)) (int_wrap (y + ry)) n_components color
              pixel))
      else
        probe_row data command n_components rx ry color y remaining (x + 1)
          (p + data.window.format_size)
          ({ world with loads := world.loads + 1 }.emit (Event.load_pixel p))

/-- The outer loop of `probe_rect` over `y`, with `remaining` rows to go. -/
def probe_rows (data : test_data) (command : vr_script_command) (n_components : ℕ)
    (rx ry rw : ℤ) (color : Float4) : ℕ → ℤ → World → Except Abort (Bool × World)
  | 0, _, world => Except.ok (false, world)
  | remaining + 1, y, world =>
    match probe_row data command n_components rx ry color y rw.toNat 0
        (row_start data.window rx ry y) world with
    | Except.error e => Except.error e
    | Except.ok (true, w1) => Except.ok (true, w1)
    | Except.ok (false, w1) =>
      probe_rows data command n_components rx ry rw color remaining (y + 1) w1

/-- The function `probe_rect`. -/
def probe_rect (data : test_data) (command : vr_script_command) (n_components : ℕ)
    (rx ry rw rh : ℤ) (color : Float4) (world : World) :
    Except Abort (Bool × test_data × World) :=
  let r0 := end_paint data world
  match probe_rows data command n_components rx ry rw color rh.toNat 0 r0.2 with
  | Except.error e => Except.error e
  | Except.ok (mismatch, w1) =>
    let r1 := begin_paint data w1
    Except.ok (r0.1 && !mismatch && r1.1, data, r1.2)

/-- The function `set_push_constant`. -/
def set_push_constant (data : test_data) (offset size : ℕ) (world : World) :
    Bool × test_data × World :=
  (true, data, world.emit (Event.vkCmdPushConstants offset size))

/-- The function `clear_color`. -/
def clear_color (data : test_data) (color : Float4) (world : World) :
    Bool × test_data × World :=
  (true, { data with clear_color := color }, world)

/-- The function `clear`. -/
def clear (data : test_data) (world : World) : Bool × test_data × World :=
  (true, data, world.emit (Event.vkCmdClearAttachments data.clear_color))

/-! ## The run -/

/-- The `switch (command->op)` of `vr_test_run`: the handler of one command
and its result. -/
def run_command (command : vr_script_command) (data : test_data) (world : World) :
    Except Abort (Bool × test_data × World) :=
  match command.op with
  | vr_script_op.DRAW_RECT x y w h => Except.ok (draw_rect data x y w h world)
  | vr_script_op.DRAW_ARRAYS vc ic fv fi => Except.ok (draw_arrays data command vc ic fv fi world)
  | vr_script_op.PROBE_RECT n x y w h color => probe_rect data command n x y w h color world
  | vr_script_op.SET_PUSH_CONSTANT offset size =>
    Except.ok (set_push_constant data offset size world)
  | vr_script_op.CLEAR_COLOR color => Except.ok (clear_color data color world)
  | vr_script_op.CLEAR => Except.ok (clear data world)

/-- The loop of `vr_test_run` over the commands still to run, `ret` being
the flag accumulated so far. -/
def run_commands : List vr_script_command → Bool → test_data → World →
    Except Abort (Bool × test_data × World)
  | [], ret, data, world => Except.ok (ret, data, world)
  | command :: rest, ret, data, world =>
    match run_command command data world with
    | Except.error e => Except.error e
    | Except.ok r => run_commands rest (if r.1 = false then false else ret) r.2.1 r.2.2

/-- The initialised local `data` of `vr_test_run`: window and script as
given, every other member zero (no buffer, clear colour 0, no vertex
buffer). -/
def initial_data (window : vr_window) (script : vr_script) : test_data :=
  { window := window, buffers := [], script := script, clear_color := black,
    vbo_buffer := none }

/-- The function `vr_test_run`.  Besides the returned flag the result
carries the final `data` and world, for the statements about them. -/
def vr_test_run (window : vr_window) (script : vr_script) (world : World) :
    Except Abort (Bool × test_data × World) :=
  let data := initial_data window script
  let r0 := begin_paint data world
  match run_commands script.commands (if r0.1 = false then false else true) data r0.2 with
  | Except.error e => Except.error e
  | Except.ok r =>
    let r1 := end_paint r.2.1 r.2.2
    Except.ok (if r1.1 = false then false else r.1,
      (free_all_buffers r.2.1.buffers r.2.1 r1.2).1,
      (free_all_buffers r.2.1.buffers r.2.1 r1.2).2)

/-! ## Vocabulary for the statements about probes and runs -/

/-- Byte offset, from the start of the mapped linear image, at which the
scan decodes the pixel `i` of row `j` of a probe: `i` steps of `format_size`
from the start of the row. -/
def pixel_offset (window : vr_window) (rx ry : ℤ) (i j : ℕ) : ℤ :=
  row_start window rx ry j + i * window.format_size

/-- The integer is a value of the C type `int`. -/
def is_int (z : ℤ) : Prop := -2 ^ 31 ≤ z ∧ z < 2 ^ 31

instance (z : ℤ) : Decidable (is_int z) := by
  unfold is_int; infer_instance

/-- The integer expressions of a probe of the rectangle `(rx, ry, rw, rh)`
are evaluated without overflow: the four fields and `format_size` are `int`
values, and so are the product `rx * format_size`, the coordinates `rx + i`,
`ry + j` of the pixels of the rectangle and the offset of each of its
rows. -/
def no_overflow (window : vr_window) (rx ry rw rh : ℤ) : Prop :=
  is_int rx ∧ is_int ry ∧ is_int rw ∧ is_int rh ∧ is_int window.format_size
    ∧ is_int (rx * window.format_size) ∧ rx + rw ≤ 2 ^ 31 ∧ ry + rh ≤ 2 ^ 31
    ∧ ∀ j, j < rh.toNat →
        is_int ((ry + j) * window.linear_memory_stride)
          ∧ is_int ((ry + j) * window.linear_memory_stride + rx * window.format_size)

instance (window : vr_window) (rx ry rw rh : ℤ) : Decidable (no_overflow window rx ry rw rh) := by
  unfold no_overflow; infer_instance

/-- The world after the host has decoded the pixels at the given offsets
one after the other. -/
def World.after_loads (world : World) (offsets : List ℤ) : World :=
  { world with loads := world.loads + offsets.length,
               trace := world.trace ++ offsets.map Event.load_pixel }

/-- What `load_pixel` yields for the pixel `(rx + i, ry + j)` of a probed
rectangle of width `width` when the row-major scan reaches it, `width * j + i`
pixels having been decoded before it. -/
def probed_pixel (data : test_data) (world : World) (rx ry : ℤ) (width i j : ℕ) :
    Except Abort Float4 :=
  load_pixel (world.linear_memory world.calls) data.window.framebuffer_format
    (pixel_offset data.window rx ry i j) (world.stack (world.loads + (width * j + i)))

/-- The pixel decodes and `compare_pixels` accepts it. -/
def pixel_matches (data : test_data) (world : World) (n_components : ℕ) (rx ry : ℤ)
    (color : Float4) (width i j : ℕ) : Prop :=
  ∃ pixel, probed_pixel data world rx ry width i j = Except.ok pixel ∧
    compare_pixels pixel color tolerance n_components = true

/-- The pixel decodes to `pixel` and `compare_pixels` rejects it. -/
def pixel_mismatches (data : test_data) (world : World) (n_components : ℕ) (rx ry : ℤ)
    (color : Float4) (width i j : ℕ) (pixel : Float4) : Prop :=
  probed_pixel data world rx ry width i j = Except.ok pixel ∧
    compare_pixels pixel color tolerance n_components = false

/-- The offsets of the pixels of rows `0 .. j0 - 1` in full and of the first
`count` pixels of row `j0`, in row-major order. -/
def scanned_offsets (window : vr_window) (rx ry : ℤ) (width j0 count : ℕ) : List ℤ :=
  (List.range j0).flatMap (fun j => (List.range width).map (fun i => pixel_offset window rx ry i j))
    ++ (List.range count).map (fun i => pixel_offset window rx ry i j0)

/-- The events `begin_paint` and `end_paint` can issue. -/
def Event.is_frame : Event → Bool
  | Event.vkBeginCommandBuffer _ => true
  | Event.vkCmdBeginRenderPass => true
  | Event.vkCmdBindPipeline => true
  | Event.vkCmdEndRenderPass => true
  | Event.vkCmdCopyImage => true
  | Event.vkEndCommandBuffer _ => true
  | Event.vkResetFences => true
  | Event.vkQueueSubmit _ => true
  | Event.vkWaitForFences _ => true
  | Event.vkInvalidateMappedMemoryRanges => true
  | Event.vr_error_message _ => true
  | _ => false

/-- The probe diagnostic `Probe color at (x,y) ...`. -/
def Event.is_print_bad_pixel : Event → Bool
  | Event.print_bad_pixel _ _ _ _ _ => true
  | _ => false

/-- The offset of a decoded pixel. -/
def Event.loaded_offset : Event → Option ℤ
  | Event.load_pixel fb => some fb
  | _ => none

/-- The buffer an event of the buffer life cycle is about (registration,
creation steps and release steps); `none` for every other event. -/
def Event.lifecycle_id : Event → Option ℕ
  | Event.vr_calloc b => some b
  | Event.vkCreateBuffer b _ _ => some b
  | Event.vr_allocate_store_buffer b _ => some b
  | Event.vkMapMemory b _ => some b
  | Event.vkUnmapMemory b => some b
  | Event.vkFreeMemory b => some b
  | Event.vkDestroyBuffer b => some b
  | Event.vr_free b => some b
  | _ => none

/-- The four events `free_test_buffer` can issue. -/
def Event.is_release : Event → Bool
  | Event.vkUnmapMemory _ => true
  | Event.vkFreeMemory _ => true
  | Event.vkDestroyBuffer _ => true
  | Event.vr_free _ => true
  | _ => false

/-- The release events of one buffer. -/
def Event.is_release_of (id : ℕ) (e : Event) : Bool :=
  e.is_release && decide (e.lifecycle_id = some id)

/-- The buffer creation of `id` succeeded. -/
def Event.created_ok (id : ℕ) : Event → Bool
  | Event.vkCreateBuffer b _ ok => decide (b = id) && ok
  | _ => false

/-- The memory allocation of `id` succeeded. -/
def Event.allocated_ok (id : ℕ) : Event → Bool
  | Event.vr_allocate_store_buffer b ok => decide (b = id) && ok
  | _ => false

/-- The mapping of `id` succeeded. -/
def Event.mapped_ok (id : ℕ) : Event → Bool
  | Event.vkMapMemory b ok => decide (b = id) && ok
  | _ => false

/-- The release the specification asks for a buffer, given what the trace
says about its construction: unmap if the mapping succeeded, free if the
allocation succeeded, destroy if the creation succeeded, in this order, and
the buffer itself is freed. -/
def expected_release (id : ℕ) (trace : List Event) : List Event :=
  (if trace.any (Event.mapped_ok id) then [Event.vkUnmapMemory id] else [])
    ++ (if trace.any (Event.allocated_ok id) then [Event.vkFreeMemory id] else [])
    ++ (if trace.any (Event.created_ok id) then [Event.vkDestroyBuffer id] else [])
    ++ [Event.vr_free id]

/-- The world `w'` is `w` after events that do not belong to the life cycle
of any buffer. -/
def World.extends_neutral (w w' : World) : Prop :=
  w'.allocations = w.allocations
    ∧ ∃ evs, w'.trace = w.trace ++ evs ∧ ∀ e ∈ evs, e.lifecycle_id = none

/-- The link between the live-buffer list and the trace while commands run:
nothing is released yet, the buffers are the allocations `0, 1, ...` in
order, and each buffer holds exactly the handles whose acquisition the trace
reports as successful. -/
structure buffers_invariant (data : test_data) (world : World) : Prop where
  no_release : ∀ e ∈ world.trace, e.is_release = false
  ids : data.buffers.map test_buffer.id = List.range world.allocations
  known : ∀ e ∈ world.trace, ∀ id, e.lifecycle_id = some id → id < world.allocations
  handles : ∀ b ∈ data.buffers,
    b.buffer = world.trace.any (Event.created_ok b.id)
      ∧ b.memory = world.trace.any (Event.allocated_ok b.id)
      ∧ b.memory_map = world.trace.any (Event.mapped_ok b.id)
  map_failed : ∀ b ∈ data.buffers, Event.vkMapMemory b.id false ∈ world.trace →
    b.buffer = true ∧ b.memory = true ∧ b.memory_map = false

/-- The format decodes: `load_pixel` ends in no fatal error, whatever the
pixel. -/
def decodable (format : vr_format) : Prop :=
  ∀ (mem : HostMemory) (fb : ℤ) (pixel : Float4),
    ∃ px, load_pixel mem format fb pixel = Except.ok px

/-- The handlers of the commands run once each, in script order, each from
the state its predecessor left, with the list of their results. -/
def handler_results : List vr_script_command → test_data → World →
    Except Abort (List Bool × test_data × World)
  | [], data, world => Except.ok ([], data, world)
  | command :: rest, data, world =>
    match run_command command data world with
    | Except.error e => Except.error e
    | Except.ok r =>
      match handler_results rest r.2.1 r.2.2 with
      | Except.error e => Except.error e
      | Except.ok rs => Except.ok (r.1 :: rs.1, rs.2.1, rs.2.2)

/-- The command decodes no pixel: it is not a probe, or its rectangle is
empty. -/
def decodes_nothing (command : vr_script_command) : Prop :=
  match command.op with
  | vr_script_op.PROBE_RECT _ _ _ w h _ => w ≤ 0 ∨ h ≤ 0
  | _ => True

/-- An unpacked format `R16G16B16A16_SFLOAT` (half floats). -/
def rgba16_sfloat : vr_format :=
  ⟨0, vr_format_swizzle.RGBA, vr_format_mode.SFLOAT, [⟨16⟩, ⟨16⟩, ⟨16⟩, ⟨16⟩]⟩

/-- A device on which every call succeeds and whose linear image holds the
given bytes; uninitialised arrays hold zeroes. -/
def steady_world (bytes : List ℕ) : World :=
  World.init (fun _ => true) (fun _ => bytes_memory bytes) (fun _ => black)

/-- A device whose k-th fallible call fails exactly when `k` is in the list;
the linear image holds the given bytes. -/
def failing_world (failures : List ℕ) (bytes : List ℕ) : World :=
  World.init (fun k => !failures.contains k) (fun _ => bytes_memory bytes) (fun _ => black)

/-- Opaque red. -/
def red : Float4 := ⟨CFloat.one, CFloat.zero, CFloat.zero, CFloat.one⟩

/-- A window whose framebuffer is `B8G8R8A8_UNORM`, four bytes per pixel. -/
def bgra_window : vr_window := ⟨bgra8_unorm, 4, 1024, true⟩

/-- The script `clear color 1 0 0 1; clear; probe rect rgba (0, 0, 1, 1)
(1, 0, 0, 1)`. -/
def red_script : vr_script :=
  ⟨[⟨1, vr_script_op.CLEAR_COLOR red⟩, ⟨2, vr_script_op.CLEAR⟩,
    ⟨3, vr_script_op.PROBE_RECT 4 0 0 1 1 red⟩], none⟩

/-- The script `draw rect 0 0 1 1`. -/
def rect_script : vr_script :=
  ⟨[⟨1, vr_script_op.DRAW_RECT CFloat.zero CFloat.zero CFloat.one CFloat.one⟩], none⟩

/-! ## Vocabulary for the statements about frames and uploads -/

/-- The steps of `end_paint` when every device call succeeds: end of the
render pass, copy into the linear image, end of command recording, fence
reset, queue submit, fence wait, and the invalidate when the linear memory
needs one. -/
def end_paint_steps (invalidate : Bool) : List Event :=
  [Event.vkCmdEndRenderPass, Event.vkCmdCopyImage, Event.vkEndCommandBuffer true,
    Event.vkResetFences, Event.vkQueueSubmit true, Event.vkWaitForFences true]
    ++ (if invalidate then [Event.vkInvalidateMappedMemoryRanges] else [])

/-- The steps of `begin_paint` when its device call succeeds. -/
def begin_paint_steps : List Event :=
  [Event.vkBeginCommandBuffer true, Event.vkCmdBeginRenderPass, Event.vkCmdBindPipeline]

/-- A component of an unpacked format that the specification lists as fatal:
mode UFLOAT, or mode SFLOAT with a width other than 32 or 64, or any other
mode with a width outside 8, 16, 32 and 64. -/
def fatal_component (mode : vr_format_mode) (bits : ℕ) : Prop :=
  mode = vr_format_mode.UFLOAT
    ∨ (mode = vr_format_mode.SFLOAT ∧ bits ≠ 32 ∧ bits ≠ 64)
    ∨ (mode ≠ vr_format_mode.UFLOAT ∧ mode ≠ vr_format_mode.SFLOAT
        ∧ bits ≠ 8 ∧ bits ≠ 16 ∧ bits ≠ 32 ∧ bits ≠ 64)

/-- The formats that the specification lists as fatal for `load_pixel`: a
packed format whose packed size is not 8, 16 or 32; a packed format with at
least one component and mode UFLOAT or SFLOAT; an unpacked format with a
fatal component. -/
def fatal_format (format : vr_format) : Prop :=
  (format.packed_size ≠ 0 ∧ format.packed_size ≠ 8 ∧ format.packed_size ≠ 16
      ∧ format.packed_size ≠ 32)
    ∨ (format.packed_size ≠ 0 ∧ 1 ≤ format.n_components
        ∧ (format.mode = vr_format_mode.UFLOAT ∨ format.mode = vr_format_mode.SFLOAT))
    ∨ (format.packed_size = 0 ∧ ∃ c ∈ format.components, fatal_component format.mode c.bits)

instance (mode : vr_format_mode) (bits : ℕ) : Decidable (fatal_component mode bits) := by
  unfold fatal_component; infer_instance

instance (format : vr_format) : Decidable (fatal_format format) := by
  unfold fatal_format; infer_instance

/-- The precondition on formats: at most four components, and in a packed
format every component narrower than 32 bits. -/
def well_formed (format : vr_format) : Prop :=
  format.n_components ≤ 4
    ∧ (format.packed_size ≠ 0 → ∀ c ∈ format.components, c.bits < 32)

instance (format : vr_format) : Decidable (well_formed format) := by
  unfold well_formed; infer_instance

/-- The world `w'` is `w` after events that all satisfy `P`, the device
being the same. -/
def World.grows (P : Event → Prop) (w w' : World) : Prop :=
  w'.outcome = w.outcome ∧ ∃ evs, w'.trace = w.trace ++ evs ∧ ∀ e ∈ evs, P e

/-- The events logged since the world `w0`. -/
def World.since (w w0 : World) : List Event := w.trace.drop w0.trace.length

/-- The events `allocate_test_buffer` can issue. -/
def Event.is_allocation : Event → Bool
  | Event.vr_calloc _ => true
  | Event.vkCreateBuffer _ _ _ => true
  | Event.vr_allocate_store_buffer _ _ => true
  | Event.vkMapMemory _ _ => true
  | Event.vr_error_message _ => true
  | _ => false

/-- The events of the scan of a probe: the decoding of a pixel and the two
lines printed at a mismatch. -/
def Event.is_probe_read : Event → Bool
  | Event.load_pixel _ => true
  | Event.print_command_fail _ => true
  | Event.print_bad_pixel _ _ _ _ _ => true
  | _ => false

/-- The copy of the external vertex data into a test buffer. -/
def Event.is_upload : Event → Bool
  | Event.memcpy_vertex_data _ _ => true
  | _ => false

/-- The uploads of the vertex data since the world `w0`. -/
def uploads (w0 w : World) : List Event := (w.since w0).filter Event.is_upload

/-- The command is a draw-arrays command. -/
def vr_script_command.is_draw_arrays (c : vr_script_command) : Bool :=
  match c.op with
  | vr_script_op.DRAW_ARRAYS _ _ _ _ => true
  | _ => false

/-- The command is a probe-rect command. -/
def vr_script_command.is_probe_rect (c : vr_script_command) : Bool :=
  match c.op with
  | vr_script_op.PROBE_RECT _ _ _ _ _ _ => true
  | _ => false

/-- The size of the external vertex data, `vbo->stride * vbo->num_rows`. -/
def vbo_size (script : vr_script) : ℕ :=
  match script.vertex_data with
  | some vbo => vbo.stride * vbo.num_rows
  | none => 0

/-- The link between the cached vertex buffer and the trace: no upload while
`vbo_buffer` is NULL, and then the one upload into the cached buffer. -/
def upload_invariant (w0 : World) (d : test_data) (w : World) : Prop :=
  (∃ evs, w.trace = w0.trace ++ evs)
    ∧ uploads w0 w = match d.vbo_buffer with
        | none => []
        | some b => [Event.memcpy_vertex_data b.id (vbo_size d.script)]

/-- The run of `script` reaches the state `(d, w)` after the handlers of the
commands `pre`, the first commands of the script. -/
def reaches (window : vr_window) (script : vr_script) (world : World)
    (pre : List vr_script_command) (d : test_data) (w : World) : Prop :=
  (∃ post, script.commands = pre ++ post)
    ∧ ∃ rs, handler_results pre (initial_data window script)
        (begin_paint (initial_data window script) world).2 = Except.ok (rs, d, w)

/-- A vertex data section of three rows of sixteen bytes. -/
def triangle_vbo : vr_vbo := ⟨16, 3⟩

/-- The script `draw arrays 0 3; draw arrays 0 3` with the vertex data
`triangle_vbo`. -/
def arrays_script : vr_script :=
  ⟨[⟨1, vr_script_op.DRAW_ARRAYS 3 1 0 0⟩, ⟨2, vr_script_op.DRAW_ARRAYS 3 1 0 0⟩],
    some triangle_vbo⟩

/-! ## The frame state read off the trace -/

/-- The state of the frame: `Recording` from the return of `begin_paint` to
the call of `end_paint`, `Ended` from the fence wait of `end_paint` to the
next `begin_paint` (and before the first one); `Beginning` and `Ending` inside
the two functions. -/
inductive frame_state where
  | Ended | Beginning | Recording | Ending
  deriving DecidableEq

/-- The device commands of the draw, clear and push-constant handlers. -/
def Event.is_draw_command : Event → Bool
  | Event.vkCmdBindVertexBuffers _ => true
  | Event.vkCmdDraw _ _ _ _ => true
  | Event.vkCmdPushConstants _ _ => true
  | Event.vkCmdClearAttachments _ => true
  | _ => false

/-- The events that are neither part of a frame nor a draw command nor a
pixel read: the life cycle of the buffers, the writes to mapped memory and
the printed lines. -/
def Event.is_host : Event → Bool
  | Event.vr_calloc _ => true
  | Event.vkCreateBuffer _ _ _ => true
  | Event.vr_allocate_store_buffer _ _ => true
  | Event.vkMapMemory _ _ => true
  | Event.vkUnmapMemory _ => true
  | Event.vkFreeMemory _ => true
  | Event.vkDestroyBuffer _ => true
  | Event.vr_free _ => true
  | Event.write_vertices _ _ => true
  | Event.memcpy_vertex_data _ _ => true
  | Event.vr_flush_memory _ => true
  | Event.vr_error_message _ => true
  | Event.print_command_fail _ => true
  | Event.print_bad_pixel _ _ _ _ _ => true
  | _ => false

/-- The frame state after an event, `none` when the event is out of place:
a frame begins only from `Ended` and ends only from `Recording`, with
successful device calls; draw commands are accepted only in `Recording` and
pixel reads only in `Ended`.  The invalidate that closes `end_paint` comes
after the fence wait and is counted in `Ended`. -/
def frame_step : frame_state → Event → Option frame_state
  | frame_state.Ended, Event.vkBeginCommandBuffer ok =>
    if ok then some frame_state.Beginning else none
  | frame_state.Ended, Event.vkInvalidateMappedMemoryRanges => some frame_state.Ended
  | frame_state.Ended, Event.load_pixel _ => some frame_state.Ended
  | frame_state.Ended, e => if e.is_host then some frame_state.Ended else none
  | frame_state.Beginning, Event.vkCmdBeginRenderPass => some frame_state.Beginning
  | frame_state.Beginning, Event.vkCmdBindPipeline => some frame_state.Recording
  | frame_state.Beginning, _ => none
  | frame_state.Recording, Event.vkCmdEndRenderPass => some frame_state.Ending
  | frame_state.Recording, e =>
    if e.is_draw_command || e.is_host then some frame_state.Recording else none
  | frame_state.Ending, Event.vkCmdCopyImage => some frame_state.Ending
  | frame_state.Ending, Event.vkEndCommandBuffer ok =>
    if ok then some frame_state.Ending else none
  | frame_state.Ending, Event.vkResetFences => some frame_state.Ending
  | frame_state.Ending, Event.vkQueueSubmit ok => if ok then some frame_state.Ending else none
  | frame_state.Ending, Event.vkWaitForFences ok => if ok then some frame_state.Ended else none
  | frame_state.Ending, _ => none

/-- The state entered by a step, when the step completes a `begin_paint` or
an `end_paint`. -/
def entered (s s' : frame_state) : List frame_state :=
  if s' ≠ s ∧ (s' = frame_state.Recording ∨ s' = frame_state.Ended) then [s'] else []

/-- Run the frame automaton over a trace: the final state and the sequence
of states `Recording` and `Ended` entered on the way, or `none` when an
event is out of place. -/
def frame_run : frame_state → List Event → Option (frame_state × List frame_state)
  | s, [] => some (s, [])
  | s, e :: rest =>
    match frame_step s e with
    | none => none
    | some s' =>
      match frame_run s' rest with
      | none => none
      | some r => some (r.1, entered s s' ++ r.2)

/-- The sequence `(Ended Recording)^k`. -/
def ended_recording : ℕ → List frame_state
  | 0 => []
  | k + 1 => frame_state.Ended :: frame_state.Recording :: ended_recording k

/-- The frame states entered by the handler of a command: an end and a begin
for a probe, none for the other commands. -/
def command_states (c : vr_script_command) : List frame_state :=
  if c.is_probe_rect then [frame_state.Ended, frame_state.Recording] else []

/-- Every device call of the world succeeds. -/
def World.steady (w : World) : Prop := ∀ k, w.outcome k = true

/-- A window whose framebuffer format is packed in 24 bits, a size
`load_packed_parts` does not know. -/
def packed24_window : vr_window :=
  ⟨⟨24, vr_format_swizzle.RGBA, vr_format_mode.UNORM, [⟨8⟩, ⟨8⟩, ⟨8⟩]⟩, 3, 768, false⟩

/-- The script `clear; probe rect rgb (0, 0, 1, 1) (0, 0, 0); draw rect 0 0 1 1`. -/
def clear_probe_script : vr_script :=
  ⟨[⟨1, vr_script_op.CLEAR⟩, ⟨2, vr_script_op.PROBE_RECT 3 0 0 1 1 black⟩,
    ⟨3, vr_script_op.DRAW_RECT CFloat.zero CFloat.zero CFloat.one CFloat.one⟩], none⟩

/-- The world `w'` is `w` after events that take the frame from the state
`s` to the state `s'`, entering the states `l` on the way; the device is the
same. -/
def World.frames (s : frame_state) (l : List frame_state) (s' : frame_state) (w w' : World) :
    Prop :=
  w'.outcome = w.outcome ∧ ∃ evs, w'.trace = w.trace ++ evs ∧ frame_run s evs = some (s', l)

/-- An unpacked format with one 32-bit UNORM component. -/
def r32_unorm : vr_format :=
  ⟨0, vr_format_swizzle.RGBA, vr_format_mode.UNORM, [⟨32⟩]⟩

/-- An unpacked format `R32_SNORM`-like: one 32-bit SNORM component. -/
def r32_snorm : vr_format :=
  ⟨0, vr_format_swizzle.RGBA, vr_format_mode.SNORM, [⟨32⟩]⟩

/-! ## Properties of the float model -/

theorem log2Fuel_spec (fuel n : ℕ) (hle : n ≤ fuel) (hn : n ≠ 0) :
    2 ^ log2Fuel fuel n ≤ n ∧ n < 2 ^ (log2Fuel fuel n + 1) := by
  induction fuel generalizing n with
  | zero => omega
  | succ f ih =>
    unfold log2Fuel
    by_cases h2 : n < 2
    · simp only [h2, if_true]
      constructor <;> simp <;> omega
    · simp only [h2, if_false]
      have h := ih (n / 2) (by omega) (by omega)
      rw [pow_succ, pow_succ (2 : ℕ) (log2Fuel f (n / 2) + 1)]
      constructor <;> omega

theorem ilog2_le (n : ℕ) (hn : n ≠ 0) : 2 ^ ilog2 n ≤ n :=
  (log2Fuel_spec n n le_rfl hn).1

theorem ilog2_lt (n : ℕ) (hn : n ≠ 0) : n < 2 ^ (ilog2 n + 1) :=
  (log2Fuel_spec n n le_rfl hn).2

theorem roundNearestEven_le (a b t : ℕ) (hb : 0 < b) (h : a ≤ t * b) :
    roundNearestEven a b ≤ t := by
  have hq : a / b ≤ t := by
    calc a / b ≤ t * b / b := Nat.div_le_div_right h
      _ = t := Nat.mul_div_cancel t hb
  unfold roundNearestEven
  by_cases hr : a % b = 0
  · simp [hr, hb, hq]
  · have hlt : a / b < t := by
      by_contra hge
      have hge2 : t ≤ a / b := by omega
      have h1 : t * b ≤ a / b * b := Nat.mul_le_mul_right b hge2
      have h2 := Nat.div_add_mod a b
      have h3 : b * (a / b) = a / b * b := Nat.mul_comm _ _
      have h4 : 0 < a % b := Nat.pos_of_ne_zero hr
      omega
    split_ifs <;> omega

theorem floorLog2_le (n d k : ℕ) (hn : n ≠ 0) (hd : d ≠ 0) (h : n ≤ 2 ^ k * d) :
    floorLog2 n d ≤ (k : ℤ) := by
  have h1 := ilog2_le n hn
  have h2 := ilog2_lt d hd
  have h3 : 2 ^ ilog2 n < 2 ^ (k + (ilog2 d + 1)) := by
    calc 2 ^ ilog2 n ≤ n := h1
      _ ≤ 2 ^ k * d := h
      _ < 2 ^ k * 2 ^ (ilog2 d + 1) := by
          apply Nat.mul_lt_mul_of_pos_left h2; positivity
      _ = 2 ^ (k + (ilog2 d + 1)) := by ring
  have h4 : ilog2 n < k + (ilog2 d + 1) := (Nat.pow_lt_pow_iff_right (by norm_num)).1 h3
  unfold floorLog2
  split_ifs <;> omega

theorem significand32_le (n d k : ℕ) (hn : n ≠ 0) (hd : d ≠ 0) (h : n ≤ 2 ^ k * d) :
    significand32 n d * 2 ^ (ulpExp n d).toNat ≤ 2 ^ k * 2 ^ (-(ulpExp n d)).toNat := by
  have hs : ulpExp n d ≤ (k : ℤ) - 23 := by
    have := floorLog2_le n d k hn hd h
    unfold ulpExp
    have h126 : (-126 : ℤ) ≤ k := by omega
    have := max_le this h126
    omega
  unfold significand32
  generalize ulpExp n d = s at hs ⊢
  have hdpos : 0 < d := Nat.pos_of_ne_zero hd
  rcases le_or_lt 0 s with hpos | hneg
  · obtain ⟨b, rfl⟩ := Int.eq_ofNat_of_zero_le hpos
    have hbk : b ≤ k := by omega
    have hna : (-(b : ℤ)).toNat = 0 := by omega
    simp only [Int.toNat_ofNat, hna, pow_zero, mul_one]
    have hsplit : 2 ^ k = 2 ^ (k - b) * 2 ^ b := by
      rw [← pow_add, Nat.sub_add_cancel hbk]
    have hm : roundNearestEven n (d * 2 ^ b) ≤ 2 ^ (k - b) := by
      apply roundNearestEven_le _ _ _ (by positivity)
      calc n ≤ 2 ^ k * d := h
        _ = 2 ^ (k - b) * (d * 2 ^ b) := by rw [hsplit]; ring
    calc roundNearestEven n (d * 2 ^ b) * 2 ^ b ≤ 2 ^ (k - b) * 2 ^ b :=
          Nat.mul_le_mul_right _ hm
      _ = 2 ^ k := hsplit.symm
  · have hb : s.toNat = 0 := by omega
    simp only [hb, pow_zero, mul_one]
    apply roundNearestEven_le _ _ _ hdpos
    calc n * 2 ^ (-s).toNat ≤ 2 ^ k * d * 2 ^ (-s).toNat := Nat.mul_le_mul_right _ h
      _ = 2 ^ k * 2 ^ (-s).toNat * d := by ring

theorem roundMag32_le (n d k : ℕ) (hn : n ≠ 0) (hd : d ≠ 0) (hk : k ≤ 127)
    (h : n ≤ 2 ^ k * d) :
    ∃ r : ℚ, roundMag32 n d = some r ∧ 0 ≤ r ∧ r ≤ 2 ^ k := by
  have hm := significand32_le n d k hn hd h
  have hpow : (2 : ℕ) ^ k < 2 ^ 128 := Nat.pow_lt_pow_right (by norm_num) (by omega)
  have hapos : 0 < 2 ^ (-(ulpExp n d)).toNat := by positivity
  have hnot : ¬ 2 ^ 128 * 2 ^ (-(ulpExp n d)).toNat
      ≤ significand32 n d * 2 ^ (ulpExp n d).toNat := by
    have := Nat.mul_lt_mul_of_pos_right hpow hapos
    omega
  refine ⟨_, by unfold roundMag32; rw [if_neg hnot], ?_, ?_⟩
  · rw [Rat.mkRat_eq_div]
    positivity
  · rw [Rat.mkRat_eq_div, div_le_iff₀ (by positivity)]
    exact_mod_cast hm

/-- Rounding keeps a value of `[0, 2^k]` inside `[0, 2^k]`. -/
theorem round32_le_two_pow (q : ℚ) (k : ℕ) (hk : k ≤ 127) (h0 : 0 ≤ q) (h : q ≤ 2 ^ k) :
    ∃ r : ℚ, round32 q = CFloat.finite r ∧ 0 ≤ r ∧ r ≤ 2 ^ k := by
  unfold round32
  by_cases hq : q = 0
  · exact ⟨0, by simp [hq], le_rfl, by positivity⟩
  · have hpos : 0 < q := lt_of_le_of_ne h0 (Ne.symm hq)
    have hnum : 0 < q.num := Rat.num_pos.2 hpos
    have hn : q.num.natAbs ≠ 0 := by omega
    have hle : q.num.natAbs ≤ 2 ^ k * q.den := by
      have h1 : (q.num : ℚ) / (q.den : ℚ) ≤ 2 ^ k := by rw [Rat.num_div_den]; exact h
      rw [div_le_iff₀ (by exact_mod_cast q.den_pos)] at h1
      have h2 : (q.num.natAbs : ℤ) = q.num := Int.natAbs_of_nonneg hnum.le
      have h3 : ((q.num.natAbs : ℤ) : ℚ) ≤ 2 ^ k * (q.den : ℚ) := by rw [h2]; exact h1
      exact_mod_cast h3
    obtain ⟨r, hr, hr0, hrk⟩ := roundMag32_le _ _ k hn q.den_nz hk hle
    refine ⟨r, ?_, hr0, hrk⟩
    simp [hq, hr, not_lt.2 h0]

theorem roundNearestEven_one (a : ℕ) : roundNearestEven a 1 = a := by
  simp [roundNearestEven, Nat.mod_one]

theorem ulpExp_nat (n : ℕ) (hn : n ≠ 0) : ulpExp n 1 = (ilog2 n : ℤ) - 23 := by
  have h1 := ilog2_le n hn
  have h0 : ilog2 1 = 0 := by decide
  have hfl : floorLog2 n 1 = (ilog2 n : ℤ) := by
    unfold floorLog2
    have ha : ((ilog2 n : ℤ) - (ilog2 1 : ℤ)).toNat = ilog2 n := by rw [h0]; omega
    have hb : ((ilog2 1 : ℤ) - (ilog2 n : ℤ)).toNat = 0 := by rw [h0]; omega
    rw [ha, hb, if_pos (by simpa using h1), h0]
    simp
  unfold ulpExp
  rw [hfl]
  have : max (ilog2 n : ℤ) (-126) = ilog2 n := max_eq_left (by omega)
  rw [this]

/-- Integers below `2^24` convert to `float` without rounding. -/
theorem roundMag32_nat_exact (n : ℕ) (hn : n ≠ 0) (h : n < 2 ^ 24) :
    roundMag32 n 1 = some (n : ℚ) := by
  have h1 := ilog2_le n hn
  have hL : ilog2 n < 24 :=
    (Nat.pow_lt_pow_iff_right (by norm_num)).1 (lt_of_le_of_lt h1 h)
  have hs := ulpExp_nat n hn
  have ha : (-(ulpExp n 1)).toNat = 23 - ilog2 n := by omega
  have hb : (ulpExp n 1).toNat = 0 := by omega
  have hsig : significand32 n 1 = n * 2 ^ (23 - ilog2 n) := by
    unfold significand32
    rw [ha, hb]
    simp [roundNearestEven_one]
  have hlt : n < 2 ^ 128 := lt_trans h (Nat.pow_lt_pow_right (by norm_num) (by norm_num))
  have hnot : ¬ 2 ^ 128 * 2 ^ (23 - ilog2 n) ≤ n * 2 ^ (23 - ilog2 n) * 2 ^ 0 := by
    have hp : 0 < 2 ^ (23 - ilog2 n) := by positivity
    have := Nat.mul_lt_mul_of_pos_right hlt hp
    omega
  unfold roundMag32
  rw [hsig, ha, hb, if_neg hnot, Rat.mkRat_eq_div]
  congr 1
  push_cast
  field_simp

theorem ofNat_exact (n : ℕ) (h : n < 2 ^ 24) : CFloat.ofNat n = CFloat.finite (n : ℚ) := by
  unfold CFloat.ofNat round32
  by_cases hn : n = 0
  · simp [hn]
  · have hq : (n : ℚ) ≠ 0 := by exact_mod_cast hn
    have hnum : (n : ℚ).num.natAbs = n := by simp
    have hden : (n : ℚ).den = 1 := by simp
    rw [if_neg hq, hnum, hden, roundMag32_nat_exact n hn h]
    have : ¬ (n : ℚ) < 0 := not_lt.2 (by positivity)
    simp [this]

theorem ofNat_le_two_pow (n k : ℕ) (hk : k ≤ 127) (h : n ≤ 2 ^ k) :
    ∃ r : ℚ, CFloat.ofNat n = CFloat.finite r ∧ 0 ≤ r ∧ r ≤ 2 ^ k :=
  round32_le_two_pow (n : ℚ) k hk (by positivity) (by exact_mod_cast h)

theorem div_finite (x y : ℚ) (hy : y ≠ 0) :
    CFloat.div (CFloat.finite x) (CFloat.finite y) = round32 (x / y) := by
  simp [CFloat.div, hy]

/-- A float quotient of `0 ≤ x ≤ y`, `0 < y`, lies in `[0, 1]`. -/
theorem div_mem_unit (x y : ℚ) (hx : 0 ≤ x) (hxy : x ≤ y) (hy : 0 < y) :
    ∃ r : ℚ, CFloat.div (CFloat.finite x) (CFloat.finite y) = CFloat.finite r ∧ 0 ≤ r ∧ r ≤ 1 := by
  rw [div_finite x y hy.ne.symm]
  have h := round32_le_two_pow (x / y) 0 (by norm_num) (div_nonneg hx hy.le)
    (by rw [pow_zero]; exact (div_le_one hy).2 hxy)
  simpa using h

theorem read_uint_lt (mem : HostMemory) (bits : ℕ) (fb : ℤ) : read_uint mem bits fb < 2 ^ bits :=
  Nat.mod_lt _ (by positivity)

theorem unorm_small (v m : ℕ) (hm : m < 2 ^ 24) (hv : v ≤ m) (hpos : 0 < m) :
    ∃ r : ℚ, CFloat.div (CFloat.ofNat v) (CFloat.ofNat m) = CFloat.finite r ∧ 0 ≤ r ∧ r ≤ 1 := by
  rw [ofNat_exact v (by omega), ofNat_exact m hm]
  exact div_mem_unit _ _ (by positivity) (by exact_mod_cast hv) (by exact_mod_cast hpos)

theorem unorm_wide (v m k : ℕ) (hk : k ≤ 127) (hv : v ≤ 2 ^ k)
    (hm : CFloat.ofNat m = CFloat.finite (2 ^ k)) :
    ∃ r : ℚ, CFloat.div (CFloat.ofNat v) (CFloat.ofNat m) = CFloat.finite r ∧ 0 ≤ r ∧ r ≤ 1 := by
  obtain ⟨x, hx, hx0, hxk⟩ := ofNat_le_two_pow v k hk hv
  rw [hx, hm]
  exact div_mem_unit _ _ hx0 hxk (by positivity)

set_option maxRecDepth 4000 in
theorem ofNat_uint32_max : CFloat.ofNat (2 ^ 32 - 1) = CFloat.finite (2 ^ 32) := by decide

set_option maxRecDepth 4000 in
theorem ofNat_uint64_max : CFloat.ofNat (2 ^ 64 - 1) = CFloat.finite (2 ^ 64) := by decide

set_option maxRecDepth 4000 in
/-- C5 (amended): for an unpacked component of mode UNORM or SRGB and width
8, 16, 32 or 64, `load_part` returns the float quotient of the raw unsigned
value `v` by `2^bits - 1`, both converted to `float` first; the value 0
decodes to 0.0, the all-ones value decodes to exactly 1.0 and every decoded
value is a finite number of `[0, 1]`.  For the widths 8 and 16 the result is
the exact quotient `v / (2^bits - 1)` rounded once to `float`.  For the
widths 32 and 64 the divisor `2^bits - 1` is not a `float`: it converts to
`2^bits`, and the result is the float nearest to `v` divided by `2^bits`. -/
theorem load_part_unorm (mem : HostMemory) (format : vr_format) (bits : ℕ) (fb : ℤ)
    (hmode : format.mode = vr_format_mode.UNORM ∨ format.mode = vr_format_mode.SRGB)
    (hbits : bits = 8 ∨ bits = 16 ∨ bits = 32 ∨ bits = 64) :
    load_part mem format bits fb
        = Except.ok (CFloat.div (CFloat.ofNat (read_uint mem bits fb))
            (CFloat.ofNat (2 ^ bits - 1)))
      ∧ (read_uint mem bits fb = 0 → load_part mem format bits fb = Except.ok CFloat.zero)
      ∧ (read_uint mem bits fb = 2 ^ bits - 1 →
          load_part mem format bits fb = Except.ok CFloat.one)
      ∧ (∃ r : ℚ, load_part mem format bits fb = Except.ok (CFloat.finite r) ∧ 0 ≤ r ∧ r ≤ 1)
      ∧ (bits ≤ 16 → load_part mem format bits fb
          = Except.ok (round32 ((read_uint mem bits fb : ℚ) / (2 ^ bits - 1))))
      ∧ (bits = 32 ∨ bits = 64 →
          CFloat.ofNat (2 ^ bits - 1) = CFloat.finite (2 ^ bits)
            ∧ load_part mem format bits fb
              = Except.ok (CFloat.div (CFloat.ofNat (read_uint mem bits fb))
                  (CFloat.finite (2 ^ bits)))) := by
  have hv := read_uint_lt mem bits fb
  have hmain : load_part mem format bits fb
      = Except.ok (CFloat.div (CFloat.ofNat (read_uint mem bits fb))
          (CFloat.ofNat (2 ^ bits - 1))) := by
    rcases hmode with hm | hm <;> rcases hbits with rfl | rfl | rfl | rfl <;>
      simp [load_part, hm, UINT8_MAX, UINT16_MAX, UINT32_MAX, UINT64_MAX]
  refine ⟨hmain, ?_, ?_, ?_, ?_, ?_⟩
  · intro h0
    rw [hmain, h0]
    rcases hbits with rfl | rfl | rfl | rfl <;> decide
  · intro h1
    rw [hmain, h1]
    rcases hbits with rfl | rfl | rfl | rfl <;> decide
  · rw [hmain]
    rcases hbits with rfl | rfl | rfl | rfl
    · obtain ⟨r, hr, h0, h1⟩ := unorm_small (read_uint mem 8 fb) (2 ^ 8 - 1) (by norm_num)
        (by omega) (by norm_num)
      exact ⟨r, by rw [hr], h0, h1⟩
    · obtain ⟨r, hr, h0, h1⟩ := unorm_small (read_uint mem 16 fb) (2 ^ 16 - 1) (by norm_num)
        (by omega) (by norm_num)
      exact ⟨r, by rw [hr], h0, h1⟩
    · obtain ⟨r, hr, h0, h1⟩ := unorm_wide (read_uint mem 32 fb) (2 ^ 32 - 1) 32 (by norm_num)
        (by omega) ofNat_uint32_max
      exact ⟨r, by rw [hr], h0, h1⟩
    · obtain ⟨r, hr, h0, h1⟩ := unorm_wide (read_uint mem 64 fb) (2 ^ 64 - 1) 64 (by norm_num)
        (by omega) ofNat_uint64_max
      exact ⟨r, by rw [hr], h0, h1⟩
  · intro h16
    rw [hmain]
    rcases hbits with rfl | rfl | rfl | rfl
    · rw [ofNat_exact _ (by omega : read_uint mem 8 fb < 2 ^ 24),
        ofNat_exact (2 ^ 8 - 1) (by norm_num), div_finite _ _ (by norm_num)]
      norm_num
    · rw [ofNat_exact _ (by omega : read_uint mem 16 fb < 2 ^ 24),
        ofNat_exact (2 ^ 16 - 1) (by norm_num), div_finite _ _ (by norm_num)]
      norm_num
    · omega
    · omega
  · intro hwide
    rcases hwide with rfl | rfl
    · exact ⟨ofNat_uint32_max, by rw [hmain, ofNat_uint32_max]⟩
    · exact ⟨ofNat_uint64_max, by rw [hmain, ofNat_uint64_max]⟩

set_option maxRecDepth 4000 in
/-- C5 (counterexample): the 32-bit UNORM value `v = 2^24 + 1` decodes to
`1/256`: `v` converts to the float `2^24` and `2^32 - 1` to `2^32`.  The
quotient `v / (2^32 - 1)` is not `1/256`, and the float nearest to it is
`8388609/2^31`. -/
theorem load_part_unorm_wide :
    read_uint (bytes_memory [1, 0, 0, 1]) 32 0 = 2 ^ 24 + 1
      ∧ load_part (bytes_memory [1, 0, 0, 1]) r32_unorm 32 0
          = Except.ok (CFloat.finite (1 / 256))
      ∧ round32 ((2 ^ 24 + 1) / (2 ^ 32 - 1)) = CFloat.finite (8388609 / 2 ^ 31)
      ∧ CFloat.finite (1 / 256) ≠ CFloat.finite (8388609 / 2 ^ 31)
      ∧ ((2 ^ 24 + 1) / (2 ^ 32 - 1) : ℚ) ≠ 1 / 256 := by
  refine ⟨by decide, by decide, by decide, by decide, by norm_num⟩

theorem and_high_bit (part bits : ℕ) (h1 : 1 ≤ bits) (hp : part < 2 ^ bits) :
    part &&& (1 <<< (bits - 1)) ≠ 0 ↔ 2 ^ (bits - 1) ≤ part := by
  have hpow : 2 ^ bits = 2 * 2 ^ (bits - 1) := by
    rw [← pow_succ']; congr 1; omega
  have hpos : 0 < 2 ^ (bits - 1) := by positivity
  rw [Nat.one_shiftLeft, Nat.and_two_pow]
  by_cases hlt : part < 2 ^ (bits - 1)
  · simp [Nat.testBit_lt_two_pow hlt]; omega
  · obtain ⟨x, rfl⟩ : ∃ x, part = 2 ^ (bits - 1) + x := ⟨part - 2 ^ (bits - 1), by omega⟩
    have hx : x < 2 ^ (bits - 1) := by omega
    rw [Nat.testBit_two_pow_add_eq, Nat.testBit_lt_two_pow hx]
    simp

theorem uint32_max_shift (bits : ℕ) (h32 : bits < 32) :
    (UINT32_MAX <<< bits) % 2 ^ 32 = 2 ^ bits * (2 ^ (32 - bits) - 1) := by
  unfold UINT32_MAX
  interval_cases bits <;> decide

/-- The function `sign_extend` returns the two's complement value of the
`bits`-wide field. -/
theorem sign_extend_eq (part bits : ℕ) (h1 : 1 ≤ bits) (h32 : bits < 32) (hp : part < 2 ^ bits) :
    sign_extend part bits
      = if part < 2 ^ (bits - 1) then (part : ℤ) else (part : ℤ) - 2 ^ bits := by
  unfold sign_extend
  have hcond := and_high_bit part bits h1 hp
  have hor := Nat.mul_add_lt_is_or hp (2 ^ (32 - bits) - 1)
  rw [uint32_max_shift bits h32, ← hor]
  by_cases hlt : part < 2 ^ (bits - 1)
  · have hc : ¬ part &&& (1 <<< (bits - 1)) ≠ 0 := by rw [hcond]; omega
    rw [if_neg hc, if_pos hlt]
    unfold to_signed
    have : part < 2 ^ (32 - 1) := by
      refine lt_of_lt_of_le hlt (Nat.pow_le_pow_right (by norm_num) (by omega))
    rw [if_pos this]
  · have hc : part &&& (1 <<< (bits - 1)) ≠ 0 := by rw [hcond]; omega
    rw [if_pos hc, if_neg hlt]
    unfold to_signed
    interval_cases bits <;> simp at hlt hp ⊢ <;> (try split_ifs) <;> omega

theorem ofInt_exact (z : ℤ) (h1 : -2 ^ 24 < z) (h2 : z < 2 ^ 24) :
    CFloat.ofInt z = CFloat.finite (z : ℚ) := by
  unfold CFloat.ofInt round32
  by_cases hz : z = 0
  · simp [hz]
  · have hq : (z : ℚ) ≠ 0 := by exact_mod_cast hz
    have hnum : (z : ℚ).num = z := by simp
    have hden : (z : ℚ).den = 1 := by simp
    have hn : z.natAbs ≠ 0 := by omega
    have hlt : z.natAbs < 2 ^ 24 := by
      have e : (2 : ℤ) ^ 24 = 16777216 := by norm_num
      have e' : (2 : ℕ) ^ 24 = 16777216 := by norm_num
      rw [e] at h1 h2
      rw [e']
      omega
    rw [if_neg hq, hnum, hden, roundMag32_nat_exact z.natAbs hn hlt]
    have habs : ((z.natAbs : ℕ) : ℚ) = |(z : ℚ)| := by
      rw [Nat.cast_natAbs, Int.cast_abs]
    simp only []
    by_cases hneg : (z : ℚ) < 0
    · rw [if_pos hneg, habs, abs_of_neg hneg, neg_neg]
    · rw [if_neg hneg, habs, abs_of_nonneg (not_lt.1 hneg)]

/-- The quotient of two integers below `2^24` in magnitude is rounded
once. -/
theorem div_ofInt_exact (s d : ℤ) (hs1 : -2 ^ 24 < s) (hs2 : s < 2 ^ 24) (hd1 : 0 < d)
    (hd2 : d < 2 ^ 24) :
    CFloat.div (CFloat.ofInt s) (CFloat.ofInt d) = round32 ((s : ℚ) / (d : ℚ)) := by
  rw [ofInt_exact s hs1 hs2, ofInt_exact d (by omega) hd2,
    div_finite _ _ (by exact_mod_cast hd1.ne.symm)]

set_option maxRecDepth 4000 in
theorem ofInt_int32_max : CFloat.ofInt (2 ^ 31 - 1) = CFloat.finite (2 ^ 31) := by decide

set_option maxRecDepth 4000 in
theorem ofInt_int64_max : CFloat.ofInt (2 ^ 63 - 1) = CFloat.finite (2 ^ 63) := by decide

set_option maxRecDepth 4000 in
theorem ofInt_packed_max (bits : ℕ) (h1 : 26 ≤ bits) (h2 : bits < 32) :
    CFloat.ofInt (2 ^ (bits - 1) - 1) = CFloat.finite (2 ^ (bits - 1)) := by
  interval_cases bits <;> decide

/-- C6 (amended): an SNORM component decodes to the float quotient of `s` by
`2^(bits-1) - 1`, both converted to `float` first, where `s` is the two's
complement value of the raw bits, on the unpacked path (widths 8, 16, 32,
64) and on the packed path (widths `2 ≤ bits < 32`, where `sign_extend`
yields `part` below `2^(bits-1)` and `part - 2^bits` from there on).  Nothing
is clamped: the byte -128 decodes to `-128/127` rounded to `float`, which is
below -1, and the byte 127 decodes to exactly 1.0.  For the unpacked widths
8 and 16 and the packed widths up to 24 the result is the exact quotient
`s / (2^(bits-1) - 1)` rounded once to `float`.  For the unpacked widths 32
and 64 and the packed widths 26 to 31 the divisor is not a `float`: it
converts to `2^(bits-1)`. -/
theorem snorm_decode (mem : HostMemory) (format : vr_format) (fb : ℤ)
    (hmode : format.mode = vr_format_mode.SNORM) :
    (∀ bits : ℕ, bits = 8 ∨ bits = 16 ∨ bits = 32 ∨ bits = 64 →
        load_part mem format bits fb
          = Except.ok (CFloat.div
              (CFloat.ofInt (if read_uint mem bits fb < 2 ^ (bits - 1)
                then (read_uint mem bits fb : ℤ) else (read_uint mem bits fb : ℤ) - 2 ^ bits))
              (CFloat.ofInt (2 ^ (bits - 1) - 1))))
      ∧ (∀ part bits : ℕ, 2 ≤ bits → bits < 32 → part < 2 ^ bits →
          sign_extend part bits
              = (if part < 2 ^ (bits - 1) then (part : ℤ) else (part : ℤ) - 2 ^ bits)
            ∧ load_packed_part part bits format.mode
              = Except.ok (CFloat.div
                  (CFloat.ofInt (if part < 2 ^ (bits - 1) then (part : ℤ)
                    else (part : ℤ) - 2 ^ bits))
                  (CFloat.ofInt (2 ^ (bits - 1) - 1))))
      ∧ (read_uint mem 8 fb = 128 →
          load_part mem format 8 fb = Except.ok (round32 (-128 / 127))
            ∧ round32 (-128 / 127) = CFloat.finite (-(8454660 / 2 ^ 23))
            ∧ (-(8454660 / 2 ^ 23) : ℚ) < -1)
      ∧ (read_uint mem 8 fb = 127 → load_part mem format 8 fb = Except.ok CFloat.one)
      ∧ (∀ bits : ℕ, bits = 8 ∨ bits = 16 →
          load_part mem format bits fb
            = Except.ok (round32
                (((if read_uint mem bits fb < 2 ^ (bits - 1)
                    then (read_uint mem bits fb : ℤ)
                    else (read_uint mem bits fb : ℤ) - 2 ^ bits : ℤ) : ℚ)
                  / (2 ^ (bits - 1) - 1))))
      ∧ (∀ part bits : ℕ, 2 ≤ bits → bits ≤ 24 → part < 2 ^ bits →
          load_packed_part part bits format.mode
            = Except.ok (round32
                (((if part < 2 ^ (bits - 1) then (part : ℤ)
                    else (part : ℤ) - 2 ^ bits : ℤ) : ℚ)
                  / (2 ^ (bits - 1) - 1))))
      ∧ CFloat.ofInt (2 ^ 31 - 1) = CFloat.finite (2 ^ 31)
      ∧ CFloat.ofInt (2 ^ 63 - 1) = CFloat.finite (2 ^ 63)
      ∧ (∀ bits : ℕ, 26 ≤ bits → bits < 32 →
          CFloat.ofInt (2 ^ (bits - 1) - 1) = CFloat.finite (2 ^ (bits - 1))) := by
  have hunpacked : ∀ bits : ℕ, bits = 8 ∨ bits = 16 ∨ bits = 32 ∨ bits = 64 →
      load_part mem format bits fb
        = Except.ok (CFloat.div
            (CFloat.ofInt (if read_uint mem bits fb < 2 ^ (bits - 1)
              then (read_uint mem bits fb : ℤ) else (read_uint mem bits fb : ℤ) - 2 ^ bits))
            (CFloat.ofInt (2 ^ (bits - 1) - 1))) := by
    intro bits hbits
    rcases hbits with rfl | rfl | rfl | rfl <;>
      simp [load_part, hmode, read_int, to_signed, INT8_MAX, INT16_MAX, INT32_MAX, INT64_MAX]
  have hpacked : ∀ part bits : ℕ, 2 ≤ bits → bits < 32 → part < 2 ^ bits →
      load_packed_part part bits format.mode
        = Except.ok (CFloat.div
            (CFloat.ofInt (if part < 2 ^ (bits - 1) then (part : ℤ)
              else (part : ℤ) - 2 ^ bits))
            (CFloat.ofInt (2 ^ (bits - 1) - 1))) := by
    intro part bits h2 h32 hp
    have hse := sign_extend_eq part bits (by omega) h32 hp
    simp only [load_packed_part, hmode, h32, not_true_eq_false, if_false, hse,
      Nat.one_shiftLeft]
    push_cast
    rfl
  have hrange : ∀ part bits : ℕ, 2 ≤ bits → bits ≤ 24 → part < 2 ^ bits →
      (-2 ^ 24 < (if part < 2 ^ (bits - 1) then (part : ℤ) else (part : ℤ) - 2 ^ bits)
        ∧ (if part < 2 ^ (bits - 1) then (part : ℤ) else (part : ℤ) - 2 ^ bits) < 2 ^ 24)
        ∧ (0 : ℤ) < 2 ^ (bits - 1) - 1 ∧ (2 : ℤ) ^ (bits - 1) - 1 < 2 ^ 24 := by
    intro part bits h2 h24 hp
    have hpow : 2 ^ bits = 2 * 2 ^ (bits - 1) := by
      rw [← pow_succ']; congr 1; omega
    have hle : 2 ^ (bits - 1) ≤ 2 ^ 23 := Nat.pow_le_pow_right (by norm_num) (by omega)
    have hge : 2 ^ 1 ≤ 2 ^ (bits - 1) := Nat.pow_le_pow_right (by norm_num) (by omega)
    have e23 : (2 : ℕ) ^ 23 = 8388608 := by norm_num
    have e24 : (2 : ℤ) ^ 24 = 16777216 := by norm_num
    have hcast : ((2 ^ bits : ℕ) : ℤ) = 2 ^ bits := by push_cast; rfl
    have hcast' : ((2 ^ (bits - 1) : ℕ) : ℤ) = 2 ^ (bits - 1) := by push_cast; rfl
    rw [e23] at hle
    rw [e24]
    rw [← hcast, ← hcast']
    refine ⟨?_, by omega, by omega⟩
    split_ifs <;> constructor <;> omega
  refine ⟨hunpacked, ?_, ?_, ?_, ?_, ?_, ofInt_int32_max, ofInt_int64_max, ofInt_packed_max⟩
  · intro part bits h2 h32 hp
    exact ⟨sign_extend_eq part bits (by omega) h32 hp, hpacked part bits h2 h32 hp⟩
  · intro h
    refine ⟨?_, by decide, by norm_num⟩
    rw [hunpacked 8 (Or.inl rfl), h]
    decide
  · intro h
    rw [hunpacked 8 (Or.inl rfl), h]
    decide
  · intro bits hbits
    have hv := read_uint_lt mem bits fb
    have hr := hrange (read_uint mem bits fb) bits
    rw [hunpacked bits (by tauto)]
    rcases hbits with rfl | rfl
    · obtain ⟨⟨hs1, hs2⟩, hd1, hd2⟩ := hr (by norm_num) (by norm_num) hv
      rw [div_ofInt_exact _ _ hs1 hs2 hd1 hd2]
      push_cast
      rfl
    · obtain ⟨⟨hs1, hs2⟩, hd1, hd2⟩ := hr (by norm_num) (by norm_num) hv
      rw [div_ofInt_exact _ _ hs1 hs2 hd1 hd2]
      push_cast
      rfl
  · intro part bits h2 h24 hp
    obtain ⟨⟨hs1, hs2⟩, hd1, hd2⟩ := hrange part bits h2 h24 hp
    rw [hpacked part bits h2 (by omega) hp, div_ofInt_exact _ _ hs1 hs2 hd1 hd2]
    push_cast
    rfl

set_option maxRecDepth 4000 in
/-- C6 (counterexample): the 32-bit SNORM value `s = 2^24 + 1` decodes to
`1/128` on the unpacked path (`s` converts to the float `2^24` and
`2^31 - 1` to `2^31`), and the 31-bit packed part `2^24 + 1` decodes to
`1/64`.  Neither is the quotient `s / (2^(bits-1) - 1)`, nor the float
nearest to it (`8388609/2^30` and `8388609/2^29`). -/
theorem snorm_decode_wide :
    read_int (bytes_memory [1, 0, 0, 1]) 32 0 = 2 ^ 24 + 1
      ∧ load_part (bytes_memory [1, 0, 0, 1]) r32_snorm 32 0
          = Except.ok (CFloat.finite (1 / 128))
      ∧ round32 ((2 ^ 24 + 1) / (2 ^ (32 - 1) - 1)) = CFloat.finite (8388609 / 2 ^ 30)
      ∧ CFloat.finite (1 / 128) ≠ CFloat.finite (8388609 / 2 ^ 30)
      ∧ sign_extend (2 ^ 24 + 1) 31 = 2 ^ 24 + 1
      ∧ load_packed_part (2 ^ 24 + 1) 31 vr_format_mode.SNORM
          = Except.ok (CFloat.finite (1 / 64))
      ∧ round32 ((2 ^ 24 + 1) / (2 ^ (31 - 1) - 1)) = CFloat.finite (8388609 / 2 ^ 29)
      ∧ CFloat.finite (1 / 64) ≠ CFloat.finite (8388609 / 2 ^ 29) := by
  refine ⟨by decide, by decide, by decide, by decide, by decide, by decide, by decide,
    by decide⟩

/-! ## Properties of the decoder loops -/

theorem Float4.get_set_same (a : Float4) (i : ℕ) (v : CFloat) (hi : i < 4) :
    (a.set i v).get i = v := by
  interval_cases i <;> rfl

theorem Float4.get_set_ne (a : Float4) (i j : ℕ) (v : CFloat) (hj : j < 4) (hij : i ≠ j) :
    (a.set i v).get j = a.get j := by
  interval_cases j <;>
    (rcases i with _ | _ | _ | _ | i <;> first | rfl | exact absurd rfl hij)

theorem packed_part_mod (pp bits : ℕ) (h : bits < 32) :
    (pp &&& ((1 <<< bits) - 1)) % 2 ^ 32 = pp % 2 ^ bits := by
  rw [Nat.one_shiftLeft, Nat.and_pow_two_sub_one_eq_mod]
  apply Nat.mod_eq_of_lt
  calc pp % 2 ^ bits < 2 ^ bits := Nat.mod_lt _ (by positivity)
    _ ≤ 2 ^ 32 := Nat.pow_le_pow_right (by norm_num) (by omega)

/-- The packed loop leaves the entries of index `k` and above untouched. -/
theorem load_packed_loop_above (format : vr_format) (k : ℕ) :
    ∀ (pp : ℕ) (parts parts' : Float4),
      load_packed_loop format k pp parts = Except.ok parts' →
      ∀ j, k ≤ j → j < 4 → parts'.get j = parts.get j := by
  induction k with
  | zero =>
    intro pp parts parts' h j _ _
    simp only [load_packed_loop] at h
    cases h; rfl
  | succ k ih =>
    intro pp parts parts' h j hkj hj
    simp only [load_packed_loop] at h
    split at h
    · cases h
    · rw [ih _ _ _ h j (by omega) hj, Float4.get_set_ne _ _ _ _ hj (by omega)]

/-- The packed loop in mode UINT: every entry below `k` receives its
bit-field converted to `float`. -/
theorem load_packed_loop_uint (format : vr_format) (hmode : format.mode = vr_format_mode.UINT)
    (k : ℕ) (hk : k ≤ 4) (hb : ∀ l, l < k → component_bits format l < 32) :
    ∀ (pp : ℕ) (parts : Float4),
      ∃ parts', load_packed_loop format k pp parts = Except.ok parts' ∧
        (∀ j, j < k → parts'.get j = CFloat.ofNat (bit_field format k pp j)) := by
  induction k with
  | zero =>
    intro pp parts
    exact ⟨parts, rfl, fun j hj => absurd hj (by omega)⟩
  | succ k ih =>
    intro pp parts
    have hbk : component_bits format k < 32 := hb k (by omega)
    have hbk' : (format.components.getD k ⟨0⟩).bits < 32 := hbk
    obtain ⟨parts', hrun, hget⟩ := ih (by omega) (fun l hl => hb l (by omega))
      (pp >>> component_bits format k)
      (parts.set k (CFloat.ofNat (pp % 2 ^ component_bits format k)))
    refine ⟨parts', ?_, ?_⟩
    · simp only [load_packed_loop, load_packed_part, hmode, hbk', not_true_eq_false, if_false,
        packed_part_mod _ _ hbk']
      exact hrun
    · intro j hj
      rcases Nat.lt_succ_iff_lt_or_eq.1 hj with hlt | rfl
      · rw [hget j hlt]
        unfold bit_field
        rw [Nat.shiftRight_eq_div_pow, Nat.div_div_eq_div_mul, ← pow_add,
          Finset.sum_Ico_succ_top (by omega),
          Nat.add_comm (component_bits format k)]
      · rw [load_packed_loop_above format j _ _ _ hrun j le_rfl (by omega),
          Float4.get_set_same _ _ _ (by omega)]
        unfold bit_field
        simp

/-- Unpacking a word packed most-significant-first returns the fields. -/
theorem bit_field_pack (format : vr_format) (c : ℕ → ℕ) (k : ℕ)
    (hc : ∀ l, l < k → c l < 2 ^ component_bits format l) :
    ∀ j, j < k → bit_field format k (pack_fields format c k) j = c j := by
  induction k with
  | zero => intro j hj; omega
  | succ k ih =>
    intro j hj
    have hck := hc k (by omega)
    rcases Nat.lt_succ_iff_lt_or_eq.1 hj with hlt | rfl
    · have := ih (fun l hl => hc l (by omega)) j hlt
      unfold bit_field at this ⊢
      rw [Finset.sum_Ico_succ_top (by omega), pow_add,
        Nat.mul_comm (2 ^ (∑ l in Finset.Ico (j + 1) k, component_bits format l)),
        ← Nat.div_div_eq_div_mul]
      simp only [pack_fields]
      rw [show pack_fields format c k * 2 ^ component_bits format k + c k
            = c k + 2 ^ component_bits format k * pack_fields format c k by ring,
        Nat.add_mul_div_left _ _ (by positivity), Nat.div_eq_of_lt hck, zero_add]
      exact this
    · unfold bit_field
      simp only [pack_fields, Finset.Ico_self, Finset.sum_empty, pow_zero, Nat.div_one]
      rw [show pack_fields format c j * 2 ^ component_bits format j + c j
            = c j + 2 ^ component_bits format j * pack_fields format c j by ring,
        Nat.add_mul_mod_self_left, Nat.mod_eq_of_lt hck]

/-- C4 (amended): for a packed format of size 8, 16 or 32 and mode UINT with
at most four components, each narrower than 32 bits, `load_packed_parts`
returns, and the component of index `i` is the bit-field
`⌊w / 2^(b_(i+1)+...+b_(n-1))⌋ mod 2^(b_i)` of the packed word `w` converted to
`float`: the nearest binary32 value, which is the bit-field itself whenever
the field value is below `2^24` (so whenever `b_i ≤ 24`).  Packing fields
`c_i < 2^(b_i)` most-significant-first and decoding returns the `c_i`
converted to `float`.  In mode UNORM with widths [5,6,5] the word
`0b11111_000000_00000` decodes to 1.0, 0.0, 0.0. -/
theorem load_packed_parts_uint (mem : HostMemory) (format : vr_format) (fb : ℤ) (parts : Float4)
    (hsize : format.packed_size = 8 ∨ format.packed_size = 16 ∨ format.packed_size = 32)
    (hmode : format.mode = vr_format_mode.UINT)
    (hn : format.n_components ≤ 4)
    (hbits : ∀ l, l < format.n_components → component_bits format l < 32) :
    (∃ parts', load_packed_parts mem format fb parts = Except.ok parts' ∧
      (∀ i, i < format.n_components →
        parts'.get i = CFloat.ofNat
          (bit_field format format.n_components (read_uint mem format.packed_size fb) i)) ∧
      (∀ i, i < format.n_components →
        bit_field format format.n_components (read_uint mem format.packed_size fb) i < 2 ^ 24 →
        parts'.get i = CFloat.finite
          (bit_field format format.n_components (read_uint mem format.packed_size fb) i : ℚ)) ∧
      (∀ i, i < format.n_components → component_bits format i ≤ 24 →
        parts'.get i = CFloat.finite
          (bit_field format format.n_components (read_uint mem format.packed_size fb) i : ℚ)) ∧
      (∀ c : ℕ → ℕ, (∀ l, l < format.n_components → c l < 2 ^ component_bits format l) →
        read_uint mem format.packed_size fb = pack_fields format c format.n_components →
        ∀ i, i < format.n_components → parts'.get i = CFloat.ofNat (c i)))
    ∧ (∀ (mem' : HostMemory) (fb' : ℤ) (swizzle : vr_format_swizzle),
        read_uint mem' 16 fb' = 0b1111100000000000 →
        load_packed_parts mem' ⟨16, swizzle, vr_format_mode.UNORM, [⟨5⟩, ⟨6⟩, ⟨5⟩]⟩ fb' parts
          = Except.ok ⟨CFloat.one, CFloat.zero, CFloat.zero, parts.c3⟩) := by
  constructor
  · obtain ⟨parts', hrun, hget⟩ := load_packed_loop_uint format hmode format.n_components hn hbits
      (read_uint mem format.packed_size fb) parts
    have hrun' : load_packed_parts mem format fb parts = Except.ok parts' := by
      unfold load_packed_parts
      rcases hsize with h | h | h <;> rw [h] at hrun <;> simp [h, hrun]
    have hexact : ∀ i, i < format.n_components →
        bit_field format format.n_components (read_uint mem format.packed_size fb) i < 2 ^ 24 →
        parts'.get i = CFloat.finite
          (bit_field format format.n_components (read_uint mem format.packed_size fb) i : ℚ) :=
      fun i hi hlt => by rw [hget i hi, ofNat_exact _ hlt]
    refine ⟨parts', hrun', hget, hexact, ?_, ?_⟩
    · intro i hi h24
      apply hexact i hi
      calc bit_field format format.n_components (read_uint mem format.packed_size fb) i
            < 2 ^ component_bits format i := Nat.mod_lt _ (by positivity)
        _ ≤ 2 ^ 24 := Nat.pow_le_pow_right (by norm_num) h24
    · intro c hc hw i hi
      rw [hget i hi, hw, bit_field_pack format c _ hc i hi]
  · intro mem' fb' swizzle hw
    have h2 : load_packed_part ((63488 &&& ((1 <<< 5) - 1)) % 2 ^ 32) 5 vr_format_mode.UNORM
        = Except.ok CFloat.zero := by decide
    have h1 : load_packed_part (((63488 >>> 5) &&& ((1 <<< 6) - 1)) % 2 ^ 32) 6
        vr_format_mode.UNORM = Except.ok CFloat.zero := by decide
    have h0 : load_packed_part ((((63488 >>> 5) >>> 6) &&& ((1 <<< 5) - 1)) % 2 ^ 32) 5
        vr_format_mode.UNORM = Except.ok CFloat.one := by decide
    simp only [load_packed_parts, vr_format.n_components, List.length_cons, List.length_nil, hw,
      load_packed_loop, List.getD_cons_succ, List.getD_cons_zero, h0, h1, h2]
    rfl

/-- The unpacked loop writes the entries `i .. i + length - 1` only. -/
theorem load_unpacked_loop_outside (mem : HostMemory) (format : vr_format)
    (cs : List vr_format_component) :
    ∀ (i : ℕ) (fb : ℤ) (parts parts' : Float4),
      load_unpacked_loop mem format cs i fb parts = Except.ok parts' →
      ∀ j, (j < i ∨ i + cs.length ≤ j) → j < 4 → parts'.get j = parts.get j := by
  induction cs with
  | nil =>
    intro i fb parts parts' h j _ _
    simp only [load_unpacked_loop] at h
    cases h; rfl
  | cons c rest ih =>
    intro i fb parts parts' h j hj hj4
    simp only [load_unpacked_loop] at h
    split at h
    · cases h
    · rw [ih _ _ _ _ h j (by simp only [List.length_cons] at hj; omega) hj4,
        Float4.get_set_ne _ _ _ _ hj4 (by simp only [List.length_cons] at hj; omega)]

/-- The raw components of index `n_components` and above keep their initial
value. -/
theorem load_parts_above (mem : HostMemory) (format : vr_format) (fb : ℤ) (parts : Float4)
    (h : load_parts mem format fb = Except.ok parts) (j : ℕ) (hn : format.n_components ≤ j)
    (hj : j < 4) : parts.get j = (initial_parts format.swizzle).get j := by
  unfold load_parts at h
  split at h
  · unfold load_packed_parts at h
    split at h
    · exact load_packed_loop_above format _ _ _ _ h j hn hj
    · split at h
      · exact load_packed_loop_above format _ _ _ _ h j hn hj
      · split at h
        · exact load_packed_loop_above format _ _ _ _ h j hn hj
        · cases h
  · exact load_unpacked_loop_outside mem format _ _ _ _ _ h j
      (Or.inr (by simpa [vr_format.n_components] using hn)) hj

theorem load_pixel_eq (mem : HostMemory) (format : vr_format) (fb : ℤ) (pixel px : Float4) :
    load_pixel mem format fb pixel = Except.ok px ↔
      ∃ parts, load_parts mem format fb = Except.ok parts ∧
        px = apply_swizzle format.swizzle parts pixel := by
  unfold load_pixel
  cases h : load_parts mem format fb with
  | error e => simp
  | ok parts => simp [eq_comm]

/-- C3: with swizzle BGRA, whenever the raw components decode to
`(p0, p1, p2, p3)` (no fatal error), `load_pixel` returns `(p2, p1, p0, p3)`,
and it returns nothing else: the first and third raw components are
exchanged, the second and fourth keep their place.  For an unpacked format
with four components the raw components are `load_part` of each component in
declared order, read at consecutive offsets. -/
theorem load_pixel_bgra (mem : HostMemory) (format : vr_format) (fb : ℤ) (pixel : Float4)
    (hsw : format.swizzle = vr_format_swizzle.BGRA) :
    (∀ parts, load_parts mem format fb = Except.ok parts →
        load_pixel mem format fb pixel = Except.ok ⟨parts.c2, parts.c1, parts.c0, parts.c3⟩)
      ∧ (∀ px, load_pixel mem format fb pixel = Except.ok px →
          ∃ parts, load_parts mem format fb = Except.ok parts ∧
            px = ⟨parts.c2, parts.c1, parts.c0, parts.c3⟩)
      ∧ (∀ (k0 k1 k2 k3 : vr_format_component) (p0 p1 p2 p3 : CFloat),
          format.packed_size = 0 → format.components = [k0, k1, k2, k3] →
          load_part mem format k0.bits fb = Except.ok p0 →
          load_part mem format k1.bits (fb + (k0.bits / 8 : ℕ)) = Except.ok p1 →
          load_part mem format k2.bits (fb + (k0.bits / 8 : ℕ) + (k1.bits / 8 : ℕ))
            = Except.ok p2 →
          load_part mem format k3.bits
              (fb + (k0.bits / 8 : ℕ) + (k1.bits / 8 : ℕ) + (k2.bits / 8 : ℕ)) = Except.ok p3 →
          load_pixel mem format fb pixel = Except.ok ⟨p2, p1, p0, p3⟩) := by
  have hsz : ∀ parts : Float4, apply_swizzle format.swizzle parts pixel
      = ⟨parts.c2, parts.c1, parts.c0, parts.c3⟩ := by
    intro parts; rw [hsw]; rfl
  refine ⟨?_, ?_, ?_⟩
  · intro parts h
    rw [load_pixel_eq]
    exact ⟨parts, h, (hsz parts).symm⟩
  · intro px h
    obtain ⟨parts, hp, hpx⟩ := (load_pixel_eq _ _ _ _ _).1 h
    exact ⟨parts, hp, by rw [hpx, hsz]⟩
  · intro k0 k1 k2 k3 p0 p1 p2 p3 hps hcs h0 h1 h2 h3
    rw [load_pixel_eq]
    refine ⟨⟨p0, p1, p2, p3⟩, ?_, (hsz ⟨p0, p1, p2, p3⟩).symm⟩
    simp only [load_parts, hps, ne_eq, not_true_eq_false, if_false, hcs, load_unpacked_loop,
      h0, h1, h2, h3, zero_add, hsw, initial_parts]
    rfl

/-- C7: for a format of swizzle RGBA or BGRA declaring fewer than four
components, packed or not, every pixel that decodes has alpha exactly 1.0,
and every colour channel without a declared component is exactly 0.0 (with
RGBA channel `c` is fed by component `c`, with BGRA by component `2 - c`). -/
theorem load_pixel_missing_components (mem : HostMemory) (format : vr_format) (fb : ℤ)
    (pixel px : Float4)
    (hsw : format.swizzle = vr_format_swizzle.RGBA ∨ format.swizzle = vr_format_swizzle.BGRA)
    (hk : format.n_components < 4)
    (h : load_pixel mem format fb pixel = Except.ok px) :
    px.c3 = CFloat.one
      ∧ (format.swizzle = vr_format_swizzle.RGBA →
          ∀ c, c < 3 → format.n_components ≤ c → px.get c = CFloat.zero)
      ∧ (format.swizzle = vr_format_swizzle.BGRA →
          ∀ c, c < 3 → format.n_components ≤ 2 - c → px.get c = CFloat.zero) := by
  obtain ⟨parts, hp, hpx⟩ := (load_pixel_eq _ _ _ _ _).1 h
  have habove := load_parts_above mem format fb parts hp
  have h3 : parts.c3 = CFloat.one := by
    have := habove 3 (by omega) (by norm_num)
    rcases hsw with hs | hs <;> rw [hs] at this <;> exact this
  have hzero : ∀ j, j < 3 → format.n_components ≤ j → parts.get j = CFloat.zero := by
    intro j hj hn
    have := habove j hn (by omega)
    rw [this]
    rcases hsw with hs | hs <;> rw [hs] <;> interval_cases j <;> rfl
  refine ⟨?_, ?_, ?_⟩
  · rcases hsw with hs | hs <;> rw [hpx, hs] <;> exact h3
  · intro hs c hc hn
    rw [hpx, hs]
    exact hzero c hc hn
  · intro hs c hc hn
    rw [hpx, hs]
    interval_cases c
    · exact hzero 2 (by norm_num) hn
    · exact hzero 1 (by norm_num) hn
    · exact hzero 0 (by norm_num) hn

theorem load_pixel_argb_general (mem : HostMemory) (format : vr_format) (fb : ℤ)
    (pixel px : Float4) (hsw : format.swizzle = vr_format_swizzle.ARGB) :
    load_pixel mem format fb pixel = Except.ok px ↔
      ∃ parts, load_parts mem format fb = Except.ok parts ∧
        px = ⟨parts.c1, parts.c2, parts.c0, pixel.c3⟩ := by
  rw [load_pixel_eq, hsw]
  rfl

/-- C2 (the code at the failing input): for the ARGB format of four 8-bit
UNORM components and the pixel bytes `ff 00 00 00` the raw components are
`(a, r, g, b) = (1, 0, 0, 0)`, and `load_pixel` returns `(0, 0, 1, x)` where `x`
is whatever the caller's array held in entry 3: alpha lands in channel 2 and
channel 3 is never written, so the result is not `(r, g, b, a) = (0, 0, 0, 1)`. -/
theorem load_pixel_argb_opaque_black :
    load_parts (bytes_memory [255, 0, 0, 0]) argb8_unorm 0
        = Except.ok ⟨CFloat.one, CFloat.zero, CFloat.zero, CFloat.zero⟩
      ∧ (∀ pixel : Float4, load_pixel (bytes_memory [255, 0, 0, 0]) argb8_unorm 0 pixel
          = Except.ok ⟨CFloat.zero, CFloat.zero, CFloat.one, pixel.c3⟩)
      ∧ (∀ pixel : Float4, load_pixel (bytes_memory [255, 0, 0, 0]) argb8_unorm 0 pixel
          ≠ Except.ok ⟨CFloat.zero, CFloat.zero, CFloat.zero, CFloat.one⟩) := by
  have hparts : load_parts (bytes_memory [255, 0, 0, 0]) argb8_unorm 0
      = Except.ok ⟨CFloat.one, CFloat.zero, CFloat.zero, CFloat.zero⟩ := by decide
  have hpx : ∀ pixel : Float4, load_pixel (bytes_memory [255, 0, 0, 0]) argb8_unorm 0 pixel
      = Except.ok ⟨CFloat.zero, CFloat.zero, CFloat.one, pixel.c3⟩ := by
    intro pixel
    rw [load_pixel_argb_general _ _ _ _ _ rfl]
    exact ⟨_, hparts, rfl⟩
  refine ⟨hparts, hpx, ?_⟩
  intro pixel h
  rw [hpx pixel] at h
  injection h with h
  have h2 : CFloat.one = CFloat.zero := congrArg Float4.c2 h
  exact absurd h2 (by decide)

/-! ## The comparator -/

theorem not_gt_eq_le (a t : CFloat) (ha : a.isNaN = false) (ht : t.isNaN = false) :
    (!(CFloat.gt a t)) = CFloat.le a t := by
  cases a <;> cases t <;> simp_all [CFloat.gt, CFloat.le, CFloat.isNaN]
  rename_i x y
  by_cases h : x ≤ y
  · simp [h, not_lt.2 h]
  · simp [h, not_le.1 h]

theorem fabsf_isNaN (a : CFloat) : (CFloat.fabsf a).isNaN = a.isNaN := by
  cases a <;> rfl

theorem compare_pixels_true_iff (c1 c2 tol : Float4) (n : ℕ) :
    compare_pixels c1 c2 tol n = true ↔
      ∀ p, p < n →
        CFloat.gt (CFloat.fabsf (CFloat.sub (c1.get p) (c2.get p))) (tol.get p) = false := by
  simp [compare_pixels, List.all_eq_true]

/-- C8 (amended): `compare_pixels c1 c2 tol n` with `n ≤ 4` returns true if and
only if for no `p < n` the float comparison `fabsf(c1[p] - c2[p]) > tol[p]`
holds.  When for `p < n` neither the float difference `c1[p] - c2[p]` nor
`tol[p]` is a NaN, this is `|c1[p] - c2[p]| <= tol[p]` for every `p < n` (a
difference equal to the tolerance passes, a larger one fails); a channel
whose difference or tolerance is a NaN passes.  The channels of index `n` and
above never change the result. -/
theorem compare_pixels_spec (c1 c2 tol : Float4) (n : ℕ) (_hn : n ≤ 4) :
    (compare_pixels c1 c2 tol n = true ↔
        ∀ p, p < n →
          CFloat.gt (CFloat.fabsf (CFloat.sub (c1.get p) (c2.get p))) (tol.get p) = false)
      ∧ ((∀ p, p < n → (CFloat.sub (c1.get p) (c2.get p)).isNaN = false
            ∧ (tol.get p).isNaN = false) →
          (compare_pixels c1 c2 tol n = true ↔
            ∀ p, p < n →
              CFloat.le (CFloat.fabsf (CFloat.sub (c1.get p) (c2.get p))) (tol.get p) = true))
      ∧ (∀ p, p < n → ((CFloat.sub (c1.get p) (c2.get p)).isNaN = true
            ∨ (tol.get p).isNaN = true) →
          CFloat.gt (CFloat.fabsf (CFloat.sub (c1.get p) (c2.get p))) (tol.get p) = false)
      ∧ (∀ d1 d2 tol' : Float4,
          (∀ p, p < n → d1.get p = c1.get p ∧ d2.get p = c2.get p ∧ tol'.get p = tol.get p) →
          compare_pixels d1 d2 tol' n = compare_pixels c1 c2 tol n) := by
  refine ⟨compare_pixels_true_iff c1 c2 tol n, ?_, ?_, ?_⟩
  · intro hnan
    rw [compare_pixels_true_iff]
    constructor
    · intro h p hp
      have := not_gt_eq_le _ _ ((fabsf_isNaN _).trans (hnan p hp).1) (hnan p hp).2
      rw [← this, h p hp]; rfl
    · intro h p hp
      have := not_gt_eq_le _ _ ((fabsf_isNaN _).trans (hnan p hp).1) (hnan p hp).2
      rw [h p hp] at this
      simpa using this
  · intro p _ hnan
    rcases hnan with h | h
    · have : (CFloat.fabsf (CFloat.sub (c1.get p) (c2.get p))).isNaN = true := by
        rw [fabsf_isNaN]; exact h
      revert this
      cases CFloat.fabsf (CFloat.sub (c1.get p) (c2.get p)) <;> simp [CFloat.isNaN, CFloat.gt]
    · revert h
      cases tol.get p <;> cases CFloat.fabsf (CFloat.sub (c1.get p) (c2.get p)) <;>
        simp [CFloat.isNaN, CFloat.gt]
  · intro d1 d2 tol' hagree
    rw [Bool.eq_iff_iff, compare_pixels_true_iff, compare_pixels_true_iff]
    constructor
    · intro h p hp
      obtain ⟨h1, h2, h3⟩ := hagree p hp
      rw [← h1, ← h2, ← h3]; exact h p hp
    · intro h p hp
      obtain ⟨h1, h2, h3⟩ := hagree p hp
      rw [h1, h2, h3]; exact h p hp

/-- C8 (counterexample): with a NaN in channel 0 of the observed colour,
`compare_pixels` on one channel returns true although the comparison
`|c1[0] - c2[0]| <= tol[0]` is false. -/
theorem compare_pixels_nan_passes :
    compare_pixels ⟨CFloat.nan, CFloat.zero, CFloat.zero, CFloat.zero⟩ black tolerance 1 = true
      ∧ ¬ (∀ p, p < 1 →
        CFloat.le (CFloat.fabsf (CFloat.sub
            ((Float4.mk CFloat.nan CFloat.zero CFloat.zero CFloat.zero).get p) (black.get p)))
          (tolerance.get p) = true) := by
  decide


/-! ## Probes -/

theorem World.after_loads_nil (w : World) : w.after_loads [] = w := by
  simp [World.after_loads]

theorem World.after_loads_append (w : World) (l1 l2 : List ℤ) :
    (w.after_loads l1).after_loads l2 = w.after_loads (l1 ++ l2) := by
  simp [World.after_loads, Nat.add_assoc]

theorem World.load_step (w : World) (p : ℤ) :
    ({ w with loads := w.loads + 1 } : World).emit (Event.load_pixel p) = w.after_loads [p] := by
  simp [World.after_loads, World.emit]

theorem range_map_shift (r : ℕ) (p fs : ℤ) :
    (List.range (r + 1)).map (fun t : ℕ => p + (t : ℤ) * fs)
      = p :: (List.range r).map (fun t : ℕ => (p + fs) + (t : ℤ) * fs) := by
  rw [List.range_succ_eq_map, List.map_cons, List.map_map]
  congr 1
  · simp
  · apply List.map_congr_left
    intro t _
    simp only [Function.comp, Nat.succ_eq_add_one]
    push_cast
    ring

/-- The inner loop when every pixel of the rest of the row matches. -/
theorem probe_row_all_match (data : test_data) (command : vr_script_command) (n : ℕ)
    (rx ry : ℤ) (color : Float4) (y : ℤ) (r : ℕ) :
    ∀ (x p : ℤ) (w : World),
      (∀ t, t < r → ∃ px,
        load_pixel (w.linear_memory w.calls) data.window.framebuffer_format
            (p + (t : ℤ) * data.window.format_size) (w.stack (w.loads + t)) = Except.ok px
          ∧ compare_pixels px color tolerance n = true) →
      probe_row data command n rx ry color y r x p w
        = Except.ok (false, w.after_loads
            ((List.range r).map (fun t : ℕ => p + (t : ℤ) * data.window.format_size))) := by
  induction r with
  | zero =>
    intro x p w _
    simp [probe_row, World.after_loads_nil]
  | succ r ih =>
    intro x p w h
    obtain ⟨px, hpx, hcmp⟩ := h 0 (by omega)
    simp only [Nat.cast_zero, zero_mul, add_zero] at hpx
    simp only [probe_row, hpx, hcmp, Bool.true_eq_false, if_false, World.load_step]
    rw [ih (x + 1) (p + data.window.format_size) (w.after_loads [p])]
    · rw [World.after_loads_append, range_map_shift]
      rfl
    · intro t ht
      obtain ⟨px', hpx', hcmp'⟩ := h (t + 1) (by omega)
      refine ⟨px', ?_, hcmp'⟩
      rw [← hpx']
      simp only [World.after_loads, List.length_singleton]
      congr 1
      · push_cast; ring
      · congr 1; omega

/-- The inner loop when the pixel `t0` of the rest of the row is the first
not to match. -/
theorem probe_row_first_mismatch (data : test_data) (command : vr_script_command) (n : ℕ)
    (rx ry : ℤ) (color : Float4) (y : ℤ) (r : ℕ) :
    ∀ (t0 : ℕ) (x p : ℤ) (w : World) (px : Float4), t0 < r →
      (∀ t, t < t0 → ∃ px',
        load_pixel (w.linear_memory w.calls) data.window.framebuffer_format
            (p + (t : ℤ) * data.window.format_size) (w.stack (w.loads + t)) = Except.ok px'
          ∧ compare_pixels px' color tolerance n = true) →
      load_pixel (w.linear_memory w.calls) data.window.framebuffer_format
          (p + (t0 : ℤ) * data.window.format_size) (w.stack (w.loads + t0)) = Except.ok px →
      compare_pixels px color tolerance n = false →
      probe_row data command n rx ry color y r x p w
        = Except.ok (true,
            ((w.after_loads
                ((List.range (t0 + 1)).map (fun t : ℕ => p + (t : ℤ) * data.window.format_size))).emit
              (Event.print_command_fail command.line_num)).emit
              (Event.print_bad_pixel (int_wrap (x + t0 + rx)) (int_wrap (y + ry)) n color px)) := by
  induction r with
  | zero => intro t0 x p w px h; omega
  | succ r ih =>
    intro t0 x p w px ht0 hbefore hpx hcmp
    rcases t0 with _ | t0
    · simp only [Nat.cast_zero, zero_mul, add_zero] at hpx
      simp only [probe_row, hpx, hcmp, if_true, World.load_step]
      simp [List.range_succ]
    · obtain ⟨px0, hpx0, hcmp0⟩ := hbefore 0 (by omega)
      simp only [Nat.cast_zero, zero_mul, add_zero] at hpx0
      simp only [probe_row, hpx0, hcmp0, Bool.true_eq_false, if_false, World.load_step]
      rw [ih t0 (x + 1) (p + data.window.format_size) (w.after_loads [p]) px (by omega)]
      · rw [World.after_loads_append, range_map_shift (t0 + 1)]
        congr 5
        push_cast; ring
      · intro t ht
        obtain ⟨px', hpx', hcmp'⟩ := hbefore (t + 1) (by omega)
        refine ⟨px', ?_, hcmp'⟩
        rw [← hpx']
        simp only [World.after_loads, List.length_singleton]
        congr 1
        · push_cast; ring
        · congr 1; omega
      · rw [← hpx]
        simp only [World.after_loads, List.length_singleton]
        congr 1
        · push_cast; ring
        · congr 1; omega
      · exact hcmp

/-- The inner loop when the pixel `t0` of the rest of the row is the first
not to match, and its decoding is fatal. -/
theorem probe_row_first_abort (data : test_data) (command : vr_script_command) (n : ℕ)
    (rx ry : ℤ) (color : Float4) (y : ℤ) (r : ℕ) :
    ∀ (t0 : ℕ) (x p : ℤ) (w : World) (e : Abort), t0 < r →
      (∀ t, t < t0 → ∃ px',
        load_pixel (w.linear_memory w.calls) data.window.framebuffer_format
            (p + (t : ℤ) * data.window.format_size) (w.stack (w.loads + t)) = Except.ok px'
          ∧ compare_pixels px' color tolerance n = true) →
      load_pixel (w.linear_memory w.calls) data.window.framebuffer_format
          (p + (t0 : ℤ) * data.window.format_size) (w.stack (w.loads + t0)) = Except.error e →
      probe_row data command n rx ry color y r x p w = Except.error e := by
  induction r with
  | zero => intro t0 x p w e h; omega
  | succ r ih =>
    intro t0 x p w e ht0 hbefore hpx
    rcases t0 with _ | t0
    · simp only [Nat.cast_zero, zero_mul, add_zero] at hpx
      simp only [probe_row, hpx]
    · obtain ⟨px0, hpx0, hcmp0⟩ := hbefore 0 (by omega)
      simp only [Nat.cast_zero, zero_mul, add_zero] at hpx0
      simp only [probe_row, hpx0, hcmp0, Bool.true_eq_false, if_false, World.load_step]
      apply ih t0 (x + 1) (p + data.window.format_size) (w.after_loads [p]) e (by omega)
      · intro t ht
        obtain ⟨px', hpx', hcmp'⟩ := hbefore (t + 1) (by omega)
        refine ⟨px', ?_, hcmp'⟩
        rw [← hpx']
        simp only [World.after_loads, List.length_singleton]
        congr 1
        · push_cast; ring
        · congr 1; omega
      · rw [← hpx]
        simp only [World.after_loads, List.length_singleton]
        congr 1
        · push_cast; ring
        · congr 1; omega

theorem scanned_offsets_length (window : vr_window) (rx ry : ℤ) (width j0 count : ℕ) :
    (scanned_offsets window rx ry width j0 count).length = width * j0 + count := by
  unfold scanned_offsets
  induction j0 with
  | zero => simp
  | succ j ih =>
    simp only [List.length_append, List.length_map, List.length_range] at ih ⊢
    rw [List.range_succ, List.flatMap_append]
    simp only [List.length_append, List.flatMap_cons, List.flatMap_nil, List.append_nil,
      List.length_map, List.length_range]
    have := ih
    rw [Nat.mul_succ]
    omega

theorem scanned_offsets_row (window : vr_window) (rx ry : ℤ) (width j0 count : ℕ) :
    scanned_offsets window rx ry width j0 count
      = scanned_offsets window rx ry width j0 0
        ++ (List.range count).map (fun i => pixel_offset window rx ry i j0) := by
  simp [scanned_offsets]

theorem scanned_offsets_succ (window : vr_window) (rx ry : ℤ) (width j0 : ℕ) :
    scanned_offsets window rx ry width (j0 + 1) 0
      = scanned_offsets window rx ry width j0 width := by
  simp [scanned_offsets, List.range_succ, List.flatMap_append]

theorem row_offsets_eq (window : vr_window) (rx ry : ℤ) (j count : ℕ) :
    (List.range count).map (fun t : ℕ =>
        (row_start window rx ry (j : ℤ))
          + (t : ℤ) * window.format_size)
      = (List.range count).map (fun i => pixel_offset window rx ry i j) := by
  apply List.map_congr_left
  intro t _
  rfl

/-- Hypothesis of the row lemmas, from the pixels of row `j`. -/
theorem row_pixels (data : test_data) (w1 : World) (rx ry : ℤ)
    (width j t : ℕ) (px : Float4)
    (h : probed_pixel data w1 rx ry width t j = Except.ok px) :
    load_pixel
        ((w1.after_loads (scanned_offsets data.window rx ry width j 0)).linear_memory
          (w1.after_loads (scanned_offsets data.window rx ry width j 0)).calls)
        data.window.framebuffer_format
        ((row_start data.window rx ry (j : ℤ))
          + (t : ℤ) * data.window.format_size)
        ((w1.after_loads (scanned_offsets data.window rx ry width j 0)).stack
          ((w1.after_loads (scanned_offsets data.window rx ry width j 0)).loads + t))
      = Except.ok px := by
  rw [← h]
  unfold probed_pixel pixel_offset
  simp only [World.after_loads, scanned_offsets_length]
  congr 2
  omega

theorem row_pixels_error (data : test_data) (w1 : World) (rx ry : ℤ)
    (width j t : ℕ) (e : Abort)
    (h : probed_pixel data w1 rx ry width t j = Except.error e) :
    load_pixel
        ((w1.after_loads (scanned_offsets data.window rx ry width j 0)).linear_memory
          (w1.after_loads (scanned_offsets data.window rx ry width j 0)).calls)
        data.window.framebuffer_format
        ((row_start data.window rx ry (j : ℤ))
          + (t : ℤ) * data.window.format_size)
        ((w1.after_loads (scanned_offsets data.window rx ry width j 0)).stack
          ((w1.after_loads (scanned_offsets data.window rx ry width j 0)).loads + t))
      = Except.error e := by
  rw [← h]
  unfold probed_pixel pixel_offset
  simp only [World.after_loads, scanned_offsets_length]
  congr 2
  omega

/-- The outer loop when every pixel of the remaining rows matches. -/
theorem probe_rows_all_match (data : test_data) (command : vr_script_command) (n : ℕ)
    (rx ry rw : ℤ) (color : Float4) (w1 : World) (remaining : ℕ) :
    ∀ j : ℕ,
      (∀ j', j ≤ j' → j' < j + remaining → ∀ i, i < rw.toNat →
        pixel_matches data w1 n rx ry color rw.toNat i j') →
      probe_rows data command n rx ry rw color remaining (j : ℤ)
          (w1.after_loads (scanned_offsets data.window rx ry rw.toNat j 0))
        = Except.ok (false,
            w1.after_loads (scanned_offsets data.window rx ry rw.toNat (j + remaining) 0)) := by
  induction remaining with
  | zero => intro j _; simp [probe_rows]
  | succ r ih =>
    intro j h
    have hrow := probe_row_all_match data command n rx ry color (j : ℤ) rw.toNat 0
      (row_start data.window rx ry (j : ℤ))
      (w1.after_loads (scanned_offsets data.window rx ry rw.toNat j 0))
      (fun t ht => by
        obtain ⟨px, hpx, hcmp⟩ := h j le_rfl (by omega) t ht
        exact ⟨px, row_pixels data w1 rx ry _ j t px hpx, hcmp⟩)
    simp only [probe_rows, hrow]
    rw [World.after_loads_append, row_offsets_eq, ← scanned_offsets_row,
      ← scanned_offsets_succ]
    have := ih (j + 1) (fun j' h1 h2 i hi => h j' (by omega) (by omega) i hi)
    rw [show j + 1 + r = j + (r + 1) by omega] at this
    rw [← this]
    push_cast
    rfl

/-- The outer loop when the pixel `(i0, j0)` is the first not to match. -/
theorem probe_rows_first_mismatch (data : test_data) (command : vr_script_command) (n : ℕ)
    (rx ry rw : ℤ) (color : Float4) (w1 : World) (i0 j0 : ℕ) (px : Float4)
    (hi0 : i0 < rw.toNat) (remaining : ℕ) :
    ∀ j : ℕ, j ≤ j0 → j0 < j + remaining →
      (∀ j', j ≤ j' → j' < j0 → ∀ i, i < rw.toNat →
        pixel_matches data w1 n rx ry color rw.toNat i j') →
      (∀ i, i < i0 → pixel_matches data w1 n rx ry color rw.toNat i j0) →
      pixel_mismatches data w1 n rx ry color rw.toNat i0 j0 px →
      probe_rows data command n rx ry rw color remaining (j : ℤ)
          (w1.after_loads (scanned_offsets data.window rx ry rw.toNat j 0))
        = Except.ok (true,
            ((w1.after_loads (scanned_offsets data.window rx ry rw.toNat j0 (i0 + 1))).emit
              (Event.print_command_fail command.line_num)).emit
              (Event.print_bad_pixel (int_wrap (rx + i0)) (int_wrap (ry + j0)) n color px)) := by
  induction remaining with
  | zero => intro j h1 h2; omega
  | succ r ih =>
    intro j hj hj0 hrows hrow0 hmis
    rcases Nat.lt_or_ge j j0 with hlt | hge
    · have hrow := probe_row_all_match data command n rx ry color (j : ℤ) rw.toNat 0
        (row_start data.window rx ry (j : ℤ))
        (w1.after_loads (scanned_offsets data.window rx ry rw.toNat j 0))
        (fun t ht => by
          obtain ⟨px', hpx, hcmp⟩ := hrows j le_rfl hlt t ht
          exact ⟨px', row_pixels data w1 rx ry _ j t px' hpx, hcmp⟩)
      simp only [probe_rows, hrow]
      rw [World.after_loads_append, row_offsets_eq, ← scanned_offsets_row,
        ← scanned_offsets_succ]
      have := ih (j + 1) (by omega) (by omega)
        (fun j' h1 h2 i hi => hrows j' (by omega) h2 i hi) hrow0 hmis
      rw [← this]
      push_cast
      rfl
    · have hjj : j = j0 := by omega
      subst hjj
      have hrow := probe_row_first_mismatch data command n rx ry color (j : ℤ) rw.toNat i0 0
        (row_start data.window rx ry (j : ℤ))
        (w1.after_loads (scanned_offsets data.window rx ry rw.toNat j 0)) px hi0
        (fun t ht => by
          obtain ⟨px', hpx, hcmp⟩ := hrow0 t ht
          exact ⟨px', row_pixels data w1 rx ry _ j t px' hpx, hcmp⟩)
        (row_pixels data w1 rx ry _ j i0 px hmis.1) hmis.2
      simp only [probe_rows, hrow]
      rw [World.after_loads_append, row_offsets_eq, ← scanned_offsets_row]
      congr 5
      · ring
      · ring

/-- The outer loop when the pixel `(i0, j0)` is the first not to match, its
decoding being fatal. -/
theorem probe_rows_first_abort (data : test_data) (command : vr_script_command) (n : ℕ)
    (rx ry rw : ℤ) (color : Float4) (w1 : World) (i0 j0 : ℕ) (e : Abort)
    (hi0 : i0 < rw.toNat) (remaining : ℕ) :
    ∀ j : ℕ, j ≤ j0 → j0 < j + remaining →
      (∀ j', j ≤ j' → j' < j0 → ∀ i, i < rw.toNat →
        pixel_matches data w1 n rx ry color rw.toNat i j') →
      (∀ i, i < i0 → pixel_matches data w1 n rx ry color rw.toNat i j0) →
      probed_pixel data w1 rx ry rw.toNat i0 j0 = Except.error e →
      probe_rows data command n rx ry rw color remaining (j : ℤ)
          (w1.after_loads (scanned_offsets data.window rx ry rw.toNat j 0))
        = Except.error e := by
  induction remaining with
  | zero => intro j h1 h2; omega
  | succ r ih =>
    intro j hj hj0 hrows hrow0 hmis
    rcases Nat.lt_or_ge j j0 with hlt | hge
    · have hrow := probe_row_all_match data command n rx ry color (j : ℤ) rw.toNat 0
        (row_start data.window rx ry (j : ℤ))
        (w1.after_loads (scanned_offsets data.window rx ry rw.toNat j 0))
        (fun t ht => by
          obtain ⟨px', hpx, hcmp⟩ := hrows j le_rfl hlt t ht
          exact ⟨px', row_pixels data w1 rx ry _ j t px' hpx, hcmp⟩)
      simp only [probe_rows, hrow]
      rw [World.after_loads_append, row_offsets_eq, ← scanned_offsets_row,
        ← scanned_offsets_succ]
      have := ih (j + 1) (by omega) (by omega)
        (fun j' h1 h2 i hi => hrows j' (by omega) h2 i hi) hrow0 hmis
      rw [← this]
      push_cast
      rfl
    · have hjj : j = j0 := by omega
      subst hjj
      have hrow := probe_row_first_abort data command n rx ry color (j : ℤ) rw.toNat i0 0
        (row_start data.window rx ry (j : ℤ))
        (w1.after_loads (scanned_offsets data.window rx ry rw.toNat j 0)) e hi0
        (fun t ht => by
          obtain ⟨px', hpx, hcmp⟩ := hrow0 t ht
          exact ⟨px', row_pixels data w1 rx ry _ j t px' hpx, hcmp⟩)
        (row_pixels_error data w1 rx ry _ j i0 e hmis)
      simp only [probe_rows, hrow]

/-! ## Whether a format decodes does not depend on the pixel -/

theorem load_part_ok_indep (mem mem' : HostMemory) (format : vr_format) (bits : ℕ) (fb fb' : ℤ)
    (v : CFloat) (h : load_part mem format bits fb = Except.ok v) :
    ∃ v', load_part mem' format bits fb' = Except.ok v' := by
  unfold load_part at h ⊢
  cases hm : format.mode <;> simp only [hm] at h ⊢ <;> (try split_ifs at h ⊢) <;>
    first
    | exact ⟨_, rfl⟩
    | cases h

theorem load_packed_part_ok_indep (part part' bits : ℕ) (mode : vr_format_mode) (v : CFloat)
    (h : load_packed_part part bits mode = Except.ok v) :
    ∃ v', load_packed_part part' bits mode = Except.ok v' := by
  unfold load_packed_part at h ⊢
  by_cases hb : bits < 32
  · simp only [hb, not_true_eq_false, if_false] at h ⊢
    cases mode <;> first
      | exact ⟨_, rfl⟩
      | cases h
  · simp only [hb, not_false_eq_true, if_true] at h
    cases h

theorem load_packed_loop_ok_indep (format : vr_format) (k : ℕ) :
    ∀ (pp pp' : ℕ) (parts parts' r : Float4),
      load_packed_loop format k pp parts = Except.ok r →
      ∃ r', load_packed_loop format k pp' parts' = Except.ok r' := by
  induction k with
  | zero => intro pp pp' parts parts' r _; exact ⟨parts', rfl⟩
  | succ k ih =>
    intro pp pp' parts parts' r h
    simp only [load_packed_loop] at h ⊢
    split at h
    · cases h
    · rename_i v hv
      obtain ⟨v', hv'⟩ := load_packed_part_ok_indep _
        ((pp' &&& ((1 <<< (format.components.getD k ⟨0⟩).bits) - 1)) % 2 ^ 32) _ _ _ hv
      rw [hv']
      exact ih _ _ _ _ _ h

theorem load_unpacked_loop_ok_indep (mem mem' : HostMemory) (format : vr_format)
    (cs : List vr_format_component) :
    ∀ (i i' : ℕ) (fb fb' : ℤ) (parts parts' r : Float4),
      load_unpacked_loop mem format cs i fb parts = Except.ok r →
      ∃ r', load_unpacked_loop mem' format cs i' fb' parts' = Except.ok r' := by
  induction cs with
  | nil => intro i i' fb fb' parts parts' r _; exact ⟨parts', rfl⟩
  | cons c rest ih =>
    intro i i' fb fb' parts parts' r h
    simp only [load_unpacked_loop] at h ⊢
    split at h
    · cases h
    · rename_i v hv
      obtain ⟨v', hv'⟩ := load_part_ok_indep mem mem' format c.bits fb fb' v hv
      rw [hv']
      exact ih _ _ _ _ _ _ _ h

theorem load_parts_ok_indep (mem mem' : HostMemory) (format : vr_format) (fb fb' : ℤ)
    (r : Float4) (h : load_parts mem format fb = Except.ok r) :
    ∃ r', load_parts mem' format fb' = Except.ok r' := by
  unfold load_parts at h ⊢
  by_cases hp : format.packed_size ≠ 0
  · rw [if_pos hp] at h ⊢
    unfold load_packed_parts at h ⊢
    by_cases h8 : format.packed_size = 8
    · rw [if_pos h8] at h ⊢
      exact load_packed_loop_ok_indep format _ _ _ _ _ _ h
    · rw [if_neg h8] at h ⊢
      by_cases h16 : format.packed_size = 16
      · rw [if_pos h16] at h ⊢
        exact load_packed_loop_ok_indep format _ _ _ _ _ _ h
      · rw [if_neg h16] at h ⊢
        by_cases h32 : format.packed_size = 32
        · rw [if_pos h32] at h ⊢
          exact load_packed_loop_ok_indep format _ _ _ _ _ _ h
        · rw [if_neg h32] at h
          cases h
  · rw [if_neg hp] at h ⊢
    exact load_unpacked_loop_ok_indep mem mem' format _ _ _ _ _ _ _ _ h

/-- If one pixel decodes in a format, every pixel does. -/
theorem load_pixel_ok_indep (mem mem' : HostMemory) (format : vr_format) (fb fb' : ℤ)
    (pixel pixel' px : Float4) (h : load_pixel mem format fb pixel = Except.ok px) :
    ∃ px', load_pixel mem' format fb' pixel' = Except.ok px' := by
  obtain ⟨parts, hp, _⟩ := (load_pixel_eq _ _ _ _ _).1 h
  obtain ⟨parts', hp'⟩ := load_parts_ok_indep mem mem' format fb fb' parts hp
  exact ⟨_, (load_pixel_eq _ _ _ _ _).2 ⟨parts', hp', rfl⟩⟩

/-! ## Frames -/

theorem begin_paint_result (data : test_data) (w : World) :
    (begin_paint data w).1 = w.outcome w.calls := by
  unfold begin_paint World.call
  by_cases h : w.outcome w.calls = false <;> simp [h]

theorem begin_paint_trace (data : test_data) (w : World) :
    ∃ evs, (begin_paint data w).2.trace = w.trace ++ evs ∧ ∀ e ∈ evs, e.is_frame = true := by
  unfold begin_paint World.call World.emit
  by_cases h : w.outcome w.calls = false
  · refine ⟨[Event.vkBeginCommandBuffer false,
      Event.vr_error_message "vkBeginCommandBuffer failed"], by simp [h], by simp [Event.is_frame]⟩
  · refine ⟨[Event.vkBeginCommandBuffer true, Event.vkCmdBeginRenderPass,
      Event.vkCmdBindPipeline], by simp [h], by simp [Event.is_frame]⟩

theorem begin_paint_frame (data : test_data) (w : World) :
    (begin_paint data w).2.outcome = w.outcome
      ∧ (begin_paint data w).2.linear_memory = w.linear_memory
      ∧ (begin_paint data w).2.stack = w.stack
      ∧ (begin_paint data w).2.loads = w.loads
      ∧ (begin_paint data w).2.allocations = w.allocations := by
  unfold begin_paint World.call World.emit
  by_cases h : w.outcome w.calls = false <;> simp [h]

theorem end_paint_trace (data : test_data) (w : World) :
    ∃ evs, (end_paint data w).2.trace = w.trace ++ evs ∧ ∀ e ∈ evs, e.is_frame = true := by
  unfold end_paint World.call World.emit
  simp only []
  split_ifs <;>
    exact ⟨_, by simp only [List.append_assoc]; rfl, by simp [Event.is_frame]⟩

theorem end_paint_frame (data : test_data) (w : World) :
    (end_paint data w).2.outcome = w.outcome
      ∧ (end_paint data w).2.linear_memory = w.linear_memory
      ∧ (end_paint data w).2.stack = w.stack
      ∧ (end_paint data w).2.loads = w.loads
      ∧ (end_paint data w).2.allocations = w.allocations := by
  unfold end_paint World.call World.emit
  simp only []
  split_ifs <;> simp

/-- In a rectangle, either every pixel has a property or there is a first
pixel in row-major order that lacks it. -/
theorem first_failing_pixel (M : ℕ → ℕ → Prop) (width height : ℕ)
    (h : ¬ ∀ i j, i < width → j < height → M i j) :
    ∃ i0 j0, i0 < width ∧ j0 < height ∧ ¬ M i0 j0
      ∧ (∀ j, j < j0 → ∀ i, i < width → M i j) ∧ (∀ i, i < i0 → M i j0) := by
  classical
  have hrow : ∃ j, j < height ∧ ∃ i, i < width ∧ ¬ M i j := by
    by_contra hno
    apply h
    intro i j hi hj
    by_contra hM
    exact hno ⟨j, hj, i, hi, hM⟩
  have hj0 := Nat.find_spec hrow
  have hcol := hj0.2
  have hi0 := Nat.find_spec hcol
  refine ⟨Nat.find hcol, Nat.find hrow, hi0.1, hj0.1, hi0.2, ?_, ?_⟩
  · intro j hj i hi
    by_contra hM
    exact Nat.find_min hrow hj ⟨lt_trans hj hj0.1, i, hi, hM⟩
  · intro i hi
    by_contra hM
    exact Nat.find_min hcol hi ⟨lt_trans hi hi0.1, hM⟩

theorem frame_events_filter (evs : List Event) (h : ∀ e ∈ evs, e.is_frame = true) :
    evs.filter Event.is_print_bad_pixel = [] ∧ evs.filterMap Event.loaded_offset = [] := by
  constructor
  · rw [List.filter_eq_nil_iff]
    intro e he
    have := h e he
    cases e <;> simp_all [Event.is_frame, Event.is_print_bad_pixel]
  · rw [List.filterMap_eq_nil_iff]
    intro e he
    have := h e he
    cases e <;> simp_all [Event.is_frame, Event.loaded_offset]

theorem load_events_filter (l : List ℤ) :
    (l.map Event.load_pixel).filter Event.is_print_bad_pixel = []
      ∧ (l.map Event.load_pixel).filterMap Event.loaded_offset = l := by
  induction l with
  | nil => simp
  | cons a l ih =>
    simp only [List.map_cons, List.filterMap_cons, Event.loaded_offset]
    rw [List.filter_cons_of_neg (by simp [Event.is_print_bad_pixel])]
    exact ⟨ih.1, by rw [ih.2]⟩

theorem probe_rect_all_match (data : test_data) (command : vr_script_command) (n : ℕ)
    (rx ry rw rh : ℤ) (color : Float4) (world : World)
    (h : ∀ i j, i < rw.toNat → j < rh.toNat →
      pixel_matches data (end_paint data world).2 n rx ry color rw.toNat i j) :
    probe_rect data command n rx ry rw rh color world
      = Except.ok ((end_paint data world).1 && (begin_paint data (end_paint data world).2).1,
          data,
          (begin_paint data ((end_paint data world).2.after_loads
            (scanned_offsets data.window rx ry rw.toNat rh.toNat 0))).2) := by
  have hrows := probe_rows_all_match data command n rx ry rw color (end_paint data world).2
    rh.toNat 0 (fun j' _ hj' i hi => h i j' hi (by omega))
  have h0 : scanned_offsets data.window rx ry rw.toNat 0 0 = [] := by simp [scanned_offsets]
  rw [h0, World.after_loads_nil, Nat.cast_zero, zero_add] at hrows
  unfold probe_rect
  simp only [hrows, Bool.not_false, Bool.and_true]
  rw [begin_paint_result, begin_paint_result]
  rfl

theorem probe_rect_first_mismatch (data : test_data) (command : vr_script_command) (n : ℕ)
    (rx ry rw rh : ℤ) (color : Float4) (world : World) (i0 j0 : ℕ) (px : Float4)
    (hi0 : i0 < rw.toNat) (hj0 : j0 < rh.toNat)
    (hrows : ∀ j, j < j0 → ∀ i, i < rw.toNat →
      pixel_matches data (end_paint data world).2 n rx ry color rw.toNat i j)
    (hrow0 : ∀ i, i < i0 →
      pixel_matches data (end_paint data world).2 n rx ry color rw.toNat i j0)
    (hmis : pixel_mismatches data (end_paint data world).2 n rx ry color rw.toNat i0 j0 px) :
    probe_rect data command n rx ry rw rh color world
      = Except.ok (false, data,
          (begin_paint data
            ((((end_paint data world).2.after_loads
                (scanned_offsets data.window rx ry rw.toNat j0 (i0 + 1))).emit
              (Event.print_command_fail command.line_num)).emit
              (Event.print_bad_pixel (int_wrap (rx + i0)) (int_wrap (ry + j0)) n color px))).2) := by
  have h := probe_rows_first_mismatch data command n rx ry rw color (end_paint data world).2
    i0 j0 px hi0 rh.toNat 0 (Nat.zero_le _) (by omega)
    (fun j' _ hj' i hi => hrows j' hj' i hi) hrow0 hmis
  have h0 : scanned_offsets data.window rx ry rw.toNat 0 0 = [] := by simp [scanned_offsets]
  rw [h0, World.after_loads_nil, Nat.cast_zero] at h
  unfold probe_rect
  simp only [h, Bool.not_true, Bool.and_false, Bool.false_and]

theorem probe_rect_first_abort (data : test_data) (command : vr_script_command) (n : ℕ)
    (rx ry rw rh : ℤ) (color : Float4) (world : World) (i0 j0 : ℕ) (e : Abort)
    (hi0 : i0 < rw.toNat) (hj0 : j0 < rh.toNat)
    (hrows : ∀ j, j < j0 → ∀ i, i < rw.toNat →
      pixel_matches data (end_paint data world).2 n rx ry color rw.toNat i j)
    (hrow0 : ∀ i, i < i0 →
      pixel_matches data (end_paint data world).2 n rx ry color rw.toNat i j0)
    (hmis : probed_pixel data (end_paint data world).2 rx ry rw.toNat i0 j0 = Except.error e) :
    probe_rect data command n rx ry rw rh color world = Except.error e := by
  have h := probe_rows_first_abort data command n rx ry rw color (end_paint data world).2
    i0 j0 e hi0 rh.toNat 0 (Nat.zero_le _) (by omega)
    (fun j' _ hj' i hi => hrows j' hj' i hi) hrow0 hmis
  have h0 : scanned_offsets data.window rx ry rw.toNat 0 0 = [] := by simp [scanned_offsets]
  rw [h0, World.after_loads_nil, Nat.cast_zero] at h
  unfold probe_rect
  simp only [h]

/-- A pixel that does not match either decodes and is rejected, or its
decoding is fatal. -/
theorem not_matches_cases (data : test_data) (w : World) (n : ℕ) (rx ry : ℤ) (color : Float4)
    (width i j : ℕ) (h : ¬ pixel_matches data w n rx ry color width i j) :
    (∃ px, pixel_mismatches data w n rx ry color width i j px)
      ∨ ∃ e, probed_pixel data w rx ry width i j = Except.error e := by
  unfold pixel_matches at h
  unfold pixel_mismatches
  cases hp : probed_pixel data w rx ry width i j with
  | error e => exact Or.inr ⟨e, rfl⟩
  | ok px =>
    left
    refine ⟨px, rfl, ?_⟩
    by_contra hc
    exact h ⟨px, hp, by simpa using hc⟩

theorem probe_mismatch_trace (data : test_data) (world : World) (line : ℤ) (offs : List ℤ)
    (bad : Event) (hbad : bad.is_print_bad_pixel = true) (hbad' : bad.loaded_offset = none) :
    (((begin_paint data
        ((((end_paint data world).2.after_loads offs).emit (Event.print_command_fail line)).emit
          bad)).2.trace.drop world.trace.length).filter Event.is_print_bad_pixel = [bad])
      ∧ ((begin_paint data
        ((((end_paint data world).2.after_loads offs).emit (Event.print_command_fail line)).emit
          bad)).2.trace.drop world.trace.length).filterMap Event.loaded_offset = offs := by
  obtain ⟨evsB, hB, hBf⟩ := begin_paint_trace data
    ((((end_paint data world).2.after_loads offs).emit (Event.print_command_fail line)).emit bad)
  obtain ⟨evsE, hE, hEf⟩ := end_paint_trace data world
  have htrace : (begin_paint data
      ((((end_paint data world).2.after_loads offs).emit (Event.print_command_fail line)).emit
        bad)).2.trace
      = world.trace ++ (evsE ++ (offs.map Event.load_pixel
          ++ ([Event.print_command_fail line] ++ ([bad] ++ evsB)))) := by
    rw [hB]
    simp only [World.emit, World.after_loads, hE, List.append_assoc]
  rw [htrace, List.drop_left]
  have fE := frame_events_filter evsE hEf
  have fB := frame_events_filter evsB hBf
  have fL := load_events_filter offs
  have h1 : List.filter Event.is_print_bad_pixel [Event.print_command_fail line] = [] := rfl
  have h2 : List.filter Event.is_print_bad_pixel [bad] = [bad] := by
    rw [List.filter_cons_of_pos hbad]; rfl
  have h3 : List.filterMap Event.loaded_offset [Event.print_command_fail line] = [] := rfl
  have h4 : List.filterMap Event.loaded_offset [bad] = [] := by
    rw [List.filterMap_cons_none hbad']; rfl
  constructor
  · simp only [List.filter_append, fE.1, fB.1, fL.1, h1, h2, List.nil_append, List.append_nil]
  · simp only [List.filterMap_append, fE.2, fB.2, fL.2, h3, h4, List.nil_append,
      List.append_nil]

/-- The scan of `probe_rect`, in terms of the offsets `pixel_offset` the code
computes: the result is true if and only if `end_paint` and `begin_paint`
succeed and every pixel of the rectangle is accepted; at a mismatch the first
mismatching pixel in row-major order is reported, once, and nothing after it
is decoded. -/
theorem probe_rect_scan (data : test_data) (command : vr_script_command) (n : ℕ)
    (rx ry rw rh : ℤ) (color : Float4) (world : World) :
    ((∃ d' w', probe_rect data command n rx ry rw rh color world = Except.ok (true, d', w')) ↔
        (end_paint data world).1 = true
          ∧ (begin_paint data (end_paint data world).2).1 = true
          ∧ ∀ i j : ℕ, (i : ℤ) < rw → (j : ℤ) < rh →
              pixel_matches data (end_paint data world).2 n rx ry color rw.toNat i j)
      ∧ (∀ (i j : ℕ) (px : Float4), (i : ℤ) < rw → (j : ℤ) < rh →
          pixel_mismatches data (end_paint data world).2 n rx ry color rw.toNat i j px →
          ∃ (i0 j0 : ℕ) (px0 : Float4) (final : World),
            (i0 : ℤ) < rw ∧ (j0 : ℤ) < rh
              ∧ pixel_mismatches data (end_paint data world).2 n rx ry color rw.toNat i0 j0 px0
              ∧ (∀ i' j' : ℕ, (i' : ℤ) < rw → (j' < j0 ∨ (j' = j0 ∧ i' < i0)) →
                  pixel_matches data (end_paint data world).2 n rx ry color rw.toNat i' j')
              ∧ probe_rect data command n rx ry rw rh color world
                  = Except.ok (false, data, final)
              ∧ final = (begin_paint data
                  ((((end_paint data world).2.after_loads
                      (scanned_offsets data.window rx ry rw.toNat j0 (i0 + 1))).emit
                    (Event.print_command_fail command.line_num)).emit
                    (Event.print_bad_pixel (int_wrap (rx + i0)) (int_wrap (ry + j0)) n color px0))).2
              ∧ (final.trace.drop world.trace.length).filter Event.is_print_bad_pixel
                  = [Event.print_bad_pixel (int_wrap (rx + i0)) (int_wrap (ry + j0)) n color px0]
              ∧ (final.trace.drop world.trace.length).filterMap Event.loaded_offset
                  = scanned_offsets data.window rx ry rw.toNat j0 (i0 + 1)) := by
  have hcases : (∀ i j, i < rw.toNat → j < rh.toNat →
        pixel_matches data (end_paint data world).2 n rx ry color rw.toNat i j)
      ∨ ∃ i0 j0, i0 < rw.toNat ∧ j0 < rh.toNat
          ∧ ¬ pixel_matches data (end_paint data world).2 n rx ry color rw.toNat i0 j0
          ∧ (∀ j, j < j0 → ∀ i, i < rw.toNat →
              pixel_matches data (end_paint data world).2 n rx ry color rw.toNat i j)
          ∧ (∀ i, i < i0 →
              pixel_matches data (end_paint data world).2 n rx ry color rw.toNat i j0) := by
    by_cases hall : ∀ i j, i < rw.toNat → j < rh.toNat →
        pixel_matches data (end_paint data world).2 n rx ry color rw.toNat i j
    · exact Or.inl hall
    · exact Or.inr (first_failing_pixel _ _ _ hall)
  constructor
  · constructor
    · rintro ⟨d', w', h⟩
      rcases hcases with hall | ⟨i0, j0, hi0, hj0, hnot, hrows, hrow0⟩
      · rw [probe_rect_all_match data command n rx ry rw rh color world hall] at h
        injection h with h
        have h1 := (Prod.mk.inj h).1
        rw [Bool.and_eq_true] at h1
        exact ⟨h1.1, h1.2, fun i j hi hj =>
          hall i j (Int.lt_toNat.2 hi) (Int.lt_toNat.2 hj)⟩
      · rcases not_matches_cases _ _ _ _ _ _ _ _ _ hnot with ⟨px, hmis⟩ | ⟨e, he⟩
        · rw [probe_rect_first_mismatch data command n rx ry rw rh color world i0 j0 px hi0 hj0
            hrows hrow0 hmis] at h
          injection h with h
          exact absurd (Prod.mk.inj h).1 (by simp)
        · rw [probe_rect_first_abort data command n rx ry rw rh color world i0 j0 e hi0 hj0
            hrows hrow0 he] at h
          cases h
    · rintro ⟨h1, h2, hall⟩
      rw [probe_rect_all_match data command n rx ry rw rh color world
        (fun i j hi hj => hall i j (Int.lt_toNat.1 hi) (Int.lt_toNat.1 hj)), h1, h2]
      exact ⟨_, _, rfl⟩
  · intro i j px hi hj hmis
    rcases hcases with hall | ⟨i0, j0, hi0, hj0, hnot, hrows, hrow0⟩
    · obtain ⟨px', hpx', hcmp'⟩ := hall i j (Int.lt_toNat.2 hi) (Int.lt_toNat.2 hj)
      rw [hmis.1] at hpx'
      injection hpx' with hpx'
      rw [← hpx', hmis.2] at hcmp'
      cases hcmp'
    · rcases not_matches_cases _ _ _ _ _ _ _ _ _ hnot with ⟨px0, hmis0⟩ | ⟨e, he⟩
      · refine ⟨i0, j0, px0, _, Int.lt_toNat.1 hi0, Int.lt_toNat.1 hj0, hmis0, ?_,
          probe_rect_first_mismatch data command n rx ry rw rh color world i0 j0 px0 hi0 hj0
            hrows hrow0 hmis0, rfl, ?_, ?_⟩
        · intro i' j' hi' hlex
          rcases hlex with hlt | ⟨rfl, hlt⟩
          · exact hrows j' hlt i' (Int.lt_toNat.2 hi')
          · exact hrow0 i' hlt
        · exact (probe_mismatch_trace data world command.line_num
            (scanned_offsets data.window rx ry rw.toNat j0 (i0 + 1))
            (Event.print_bad_pixel (int_wrap (rx + i0)) (int_wrap (ry + j0)) n color px0) rfl rfl).1
        · exact (probe_mismatch_trace data world command.line_num
            (scanned_offsets data.window rx ry rw.toNat j0 (i0 + 1))
            (Event.print_bad_pixel (int_wrap (rx + i0)) (int_wrap (ry + j0)) n color px0) rfl rfl).2
      · exfalso
        obtain ⟨px', hpx'⟩ := load_pixel_ok_indep _
          ((end_paint data world).2.linear_memory (end_paint data world).2.calls) _ _
          (pixel_offset data.window rx ry i0 j0) _
          ((end_paint data world).2.stack ((end_paint data world).2.loads + (rw.toNat * j0 + i0)))
          _ hmis.1
        unfold probed_pixel at he
        rw [hpx'] at he
        cases he

theorem int_wrap_eq (z : ℤ) (h : is_int z) : int_wrap z = z := by
  unfold is_int at h
  unfold int_wrap to_signed
  have h32 : (2 : ℤ) ^ 32 = 4294967296 := by norm_num
  have h31 : (2 : ℤ) ^ 31 = 2147483648 := by norm_num
  have n32 : (2 : ℕ) ^ 32 = 4294967296 := by norm_num
  have n31 : (2 : ℕ) ^ (32 - 1) = 2147483648 := by norm_num
  rw [h31] at h
  rw [h32, n31]
  have hnn : 0 ≤ z % 4294967296 := Int.emod_nonneg _ (by norm_num)
  have hlt : z % 4294967296 < 4294967296 := Int.emod_lt_of_pos _ (by norm_num)
  have hcast : (((z % 4294967296).toNat : ℕ) : ℤ) = z % 4294967296 := Int.toNat_of_nonneg hnn
  split_ifs with hc
  · rw [hcast]; omega
  · rw [hcast]
    omega

/-- Without overflow the offsets of the scan are those of the formula
`(y + j) * stride + (x + i) * format_size`, and the coordinates printed are
`x + i` and `y + j`. -/
theorem no_overflow_offsets (window : vr_window) (rx ry rw rh : ℤ)
    (h : no_overflow window rx ry rw rh) (i j : ℕ) (hi : (i : ℤ) < rw) (hj : (j : ℤ) < rh) :
    pixel_offset window rx ry i j
        = (ry + j) * window.linear_memory_stride + (rx + i) * window.format_size
      ∧ int_wrap (rx + i) = rx + i ∧ int_wrap (ry + j) = ry + j := by
  obtain ⟨hx, hy, _, _, _, hmul, hxw, hyh, _⟩ := h
  have hx' : is_int (rx + i) := by
    unfold is_int at hx ⊢
    constructor <;> omega
  have hy' : is_int (ry + j) := by
    unfold is_int at hy ⊢
    constructor <;> omega
  refine ⟨?_, int_wrap_eq _ hx', int_wrap_eq _ hy'⟩
  unfold pixel_offset row_start
  rw [int_wrap_eq _ hmul, add_comm (j : ℤ) ry, int_wrap_eq _ hy']
  ring

theorem extends_refl (w : World) : w.extends_neutral w :=
  ⟨rfl, [], by simp, by simp⟩

theorem extends_trans {w w' w'' : World} (h1 : w.extends_neutral w')
    (h2 : w'.extends_neutral w'') : w.extends_neutral w'' := by
  obtain ⟨ha, evs, ht, hn⟩ := h1
  obtain ⟨ha', evs', ht', hn'⟩ := h2
  refine ⟨ha'.trans ha, evs ++ evs', by rw [ht', ht, List.append_assoc], ?_⟩
  intro e he
  rcases List.mem_append.1 he with h | h
  · exact hn e h
  · exact hn' e h

theorem extends_emit (w : World) (e : Event) (h : e.lifecycle_id = none) :
    w.extends_neutral (w.emit e) :=
  ⟨rfl, [e], rfl, by simpa using h⟩

theorem extends_call (w : World) (mk : Bool → Event) (h : ∀ b, (mk b).lifecycle_id = none) :
    w.extends_neutral (w.call mk).2 :=
  ⟨rfl, [mk (w.outcome w.calls)], rfl, by simpa using h _⟩

theorem extends_load (w : World) (p : ℤ) :
    w.extends_neutral (({ w with loads := w.loads + 1 } : World).emit (Event.load_pixel p)) :=
  ⟨rfl, [Event.load_pixel p], rfl, by simp [Event.lifecycle_id]⟩

theorem frame_neutral (e : Event) (h : e.is_frame = true) : e.lifecycle_id = none := by
  cases e <;> simp_all [Event.is_frame, Event.lifecycle_id]

theorem begin_paint_extends (data : test_data) (w : World) :
    w.extends_neutral (begin_paint data w).2 := by
  obtain ⟨evs, ht, hf⟩ := begin_paint_trace data w
  exact ⟨(begin_paint_frame data w).2.2.2.2, evs, ht, fun e he => frame_neutral e (hf e he)⟩

theorem end_paint_extends (data : test_data) (w : World) :
    w.extends_neutral (end_paint data w).2 := by
  obtain ⟨evs, ht, hf⟩ := end_paint_trace data w
  exact ⟨(end_paint_frame data w).2.2.2.2, evs, ht, fun e he => frame_neutral e (hf e he)⟩

theorem probe_row_extends (data : test_data) (command : vr_script_command) (n : ℕ)
    (rx ry : ℤ) (color : Float4) (y : ℤ) (r : ℕ) :
    ∀ (x p : ℤ) (w : World) (m : Bool) (w' : World),
      probe_row data command n rx ry color y r x p w = Except.ok (m, w') →
      w.extends_neutral w' := by
  induction r with
  | zero =>
    intro x p w m w' h
    simp only [probe_row] at h
    injection h with h
    rw [← (Prod.mk.inj h).2]
    exact extends_refl w
  | succ r ih =>
    intro x p w m w' h
    simp only [probe_row] at h
    split at h
    · cases h
    · split_ifs at h
      · injection h with h
        rw [← (Prod.mk.inj h).2]
        exact extends_trans (extends_trans (extends_load w p)
          (extends_emit _ _ (by simp [Event.lifecycle_id])))
          (extends_emit _ _ (by simp [Event.lifecycle_id]))
      · exact extends_trans (extends_load w p) (ih _ _ _ _ _ h)

theorem probe_rows_extends (data : test_data) (command : vr_script_command) (n : ℕ)
    (rx ry rw : ℤ) (color : Float4) (r : ℕ) :
    ∀ (y : ℤ) (w : World) (m : Bool) (w' : World),
      probe_rows data command n rx ry rw color r y w = Except.ok (m, w') →
      w.extends_neutral w' := by
  induction r with
  | zero =>
    intro y w m w' h
    simp only [probe_rows] at h
    injection h with h
    rw [← (Prod.mk.inj h).2]
    exact extends_refl w
  | succ r ih =>
    intro y w m w' h
    simp only [probe_rows] at h
    split at h
    · cases h
    · rename_i w1 hrow
      injection h with h
      rw [← (Prod.mk.inj h).2]
      exact probe_row_extends _ _ _ _ _ _ _ _ _ _ _ _ _ hrow
    · rename_i w1 hrow
      exact extends_trans (probe_row_extends _ _ _ _ _ _ _ _ _ _ _ _ _ hrow) (ih _ _ _ _ h)

theorem probe_rect_extends (data : test_data) (command : vr_script_command) (n : ℕ)
    (rx ry rw rh : ℤ) (color : Float4) (w : World) (r : Bool) (d' : test_data) (w' : World)
    (h : probe_rect data command n rx ry rw rh color w = Except.ok (r, d', w')) :
    d' = data ∧ w.extends_neutral w' := by
  unfold probe_rect at h
  simp only [] at h
  split at h
  · cases h
  · rename_i m w1 hrows
    injection h with h
    obtain ⟨_, h2⟩ := Prod.mk.inj h
    obtain ⟨hd, hw⟩ := Prod.mk.inj h2
    refine ⟨hd.symm, ?_⟩
    rw [← hw]
    exact extends_trans (extends_trans (end_paint_extends data w)
      (probe_rows_extends _ _ _ _ _ _ _ _ _ _ _ _ hrows)) (begin_paint_extends data w1)

/-! ## The buffer invariant -/

theorem release_lifecycle (e : Event) (h : e.is_release = true) : ∃ id, e.lifecycle_id = some id := by
  cases e <;> simp_all [Event.is_release, Event.lifecycle_id]

theorem created_ok_lifecycle (id : ℕ) (e : Event) (h : e.created_ok id = true) :
    e.lifecycle_id = some id := by
  cases e <;> simp_all [Event.created_ok, Event.lifecycle_id]

theorem allocated_ok_lifecycle (id : ℕ) (e : Event) (h : e.allocated_ok id = true) :
    e.lifecycle_id = some id := by
  cases e <;> simp_all [Event.allocated_ok, Event.lifecycle_id]

theorem mapped_ok_lifecycle (id : ℕ) (e : Event) (h : e.mapped_ok id = true) :
    e.lifecycle_id = some id := by
  cases e <;> simp_all [Event.mapped_ok, Event.lifecycle_id]

/-- Events about other buffers say nothing about the construction of `id`. -/
theorem any_ok_false (id : ℕ) (evs : List Event) (h : ∀ e ∈ evs, e.lifecycle_id ≠ some id) :
    evs.any (Event.created_ok id) = false
      ∧ evs.any (Event.allocated_ok id) = false
      ∧ evs.any (Event.mapped_ok id) = false := by
  refine ⟨?_, ?_, ?_⟩ <;> rw [List.any_eq_false] <;> intro e he hok
  · exact h e he (created_ok_lifecycle id e hok)
  · exact h e he (allocated_ok_lifecycle id e hok)
  · exact h e he (mapped_ok_lifecycle id e hok)

theorem invariant_ids_lt {data : test_data} {world : World}
    (hinv : buffers_invariant data world) (b : test_buffer) (hb : b ∈ data.buffers) :
    b.id < world.allocations := by
  have : b.id ∈ data.buffers.map test_buffer.id := List.mem_map_of_mem _ hb
  rw [hinv.ids] at this
  exact List.mem_range.1 this

theorem invariant_extends {d d' : test_data} {w w' : World} (hinv : buffers_invariant d w)
    (hb : d'.buffers = d.buffers) (hext : w.extends_neutral w') : buffers_invariant d' w' := by
  obtain ⟨ha, evs, ht, hn⟩ := hext
  have hany := fun id => any_ok_false id evs (fun e he h => by rw [hn e he] at h; cases h)
  constructor
  · intro e he
    rw [ht] at he
    rcases List.mem_append.1 he with h | h
    · exact hinv.no_release e h
    · by_contra hr
      obtain ⟨id, hid⟩ := release_lifecycle e (by simpa using hr)
      rw [hn e h] at hid
      cases hid
  · rw [hb, ha]; exact hinv.ids
  · intro e he id hid
    rw [ht] at he
    rw [ha]
    rcases List.mem_append.1 he with h | h
    · exact hinv.known e h id hid
    · rw [hn e h] at hid; cases hid
  · intro b hbm
    rw [hb] at hbm
    rw [ht, List.any_append, List.any_append, List.any_append, (hany b.id).1, (hany b.id).2.1,
      (hany b.id).2.2, Bool.or_false, Bool.or_false, Bool.or_false]
    exact hinv.handles b hbm
  · intro b hbm hmem
    rw [hb] at hbm
    rw [ht] at hmem
    rcases List.mem_append.1 hmem with h | h
    · exact hinv.map_failed b hbm h
    · have := hn _ h
      simp [Event.lifecycle_id] at this

/-- Registering one more buffer, with the events of its construction. -/
theorem invariant_register {d d' : test_data} {w w' : World} (hinv : buffers_invariant d w)
    (b : test_buffer) (evs : List Event) (hid : b.id = w.allocations)
    (hd : d'.buffers = d.buffers ++ [b]) (ht : w'.trace = w.trace ++ evs)
    (ha : w'.allocations = w.allocations + 1)
    (hrel : ∀ e ∈ evs, e.is_release = false)
    (hown : ∀ e ∈ evs, ∀ id, e.lifecycle_id = some id → id = w.allocations)
    (hh : b.buffer = evs.any (Event.created_ok b.id)
      ∧ b.memory = evs.any (Event.allocated_ok b.id)
      ∧ b.memory_map = evs.any (Event.mapped_ok b.id))
    (hm : Event.vkMapMemory b.id false ∈ evs →
      b.buffer = true ∧ b.memory = true ∧ b.memory_map = false) :
    buffers_invariant d' w' := by
  constructor
  · intro e he
    rw [ht] at he
    rcases List.mem_append.1 he with h | h
    · exact hinv.no_release e h
    · exact hrel e h
  · rw [hd, ha, List.map_append, hinv.ids, List.range_succ, List.map_singleton, hid]
  · intro e he id hlid
    rw [ht] at he
    rw [ha]
    rcases List.mem_append.1 he with h | h
    · exact Nat.lt_succ_of_lt (hinv.known e h id hlid)
    · rw [hown e h id hlid]; exact Nat.lt_succ_self _
  · intro b' hb'
    rw [hd] at hb'
    rw [ht, List.any_append, List.any_append, List.any_append]
    rcases List.mem_append.1 hb' with h | h
    · have hlt := invariant_ids_lt hinv b' h
      have hany := any_ok_false b'.id evs (fun e he hl => by
        have := hown e he _ hl
        omega)
      rw [hany.1, hany.2.1, hany.2.2, Bool.or_false, Bool.or_false, Bool.or_false]
      exact hinv.handles b' h
    · rw [List.mem_singleton] at h
      subst h
      have hany := any_ok_false b'.id w.trace (fun e he hl => by
        have := hinv.known e he _ hl
        omega)
      rw [hany.1, hany.2.1, hany.2.2, Bool.false_or, Bool.false_or, Bool.false_or]
      exact hh
  · intro b' hb' hmem
    rw [hd] at hb'
    rw [ht] at hmem
    rcases List.mem_append.1 hb' with h | h
    · have hlt := invariant_ids_lt hinv b' h
      rcases List.mem_append.1 hmem with h' | h'
      · exact hinv.map_failed b' h h'
      · have := hown _ h' b'.id rfl
        omega
    · rw [List.mem_singleton] at h
      subst h
      rcases List.mem_append.1 hmem with h' | h'
      · have := hinv.known _ h' b'.id rfl
        omega
      · exact hm h'

theorem allocate_invariant (d : test_data) (size : ℕ) (w : World)
    (hinv : buffers_invariant d w) :
    buffers_invariant (allocate_test_buffer d size w).2.1 (allocate_test_buffer d size w).2.2 := by
  unfold allocate_test_buffer
  simp only [World.call, World.emit]
  cases h1 : w.outcome w.calls
  · simp only [if_true]
    refine invariant_register hinv ⟨w.allocations, false, false, false⟩
      [Event.vr_calloc w.allocations, Event.vkCreateBuffer w.allocations size false,
        Event.vr_error_message "Error creating buffer"] rfl rfl (by simp) rfl ?_ ?_ ?_ ?_
    · intro e he; simp at he; rcases he with rfl | rfl | rfl <;> rfl
    · intro e he id hid
      simp at he
      rcases he with rfl | rfl | rfl <;> simp [Event.lifecycle_id] at hid <;> omega
    · simp [Event.created_ok, Event.allocated_ok, Event.mapped_ok]
    · simp
  · simp only [Bool.true_eq_false, if_false]
    cases h2 : w.outcome (w.calls + 1)
    · simp only [if_true]
      refine invariant_register hinv ⟨w.allocations, true, false, false⟩
        [Event.vr_calloc w.allocations, Event.vkCreateBuffer w.allocations size true,
          Event.vr_allocate_store_buffer w.allocations false,
          Event.vr_error_message "Error allocating memory"] rfl rfl (by simp) rfl ?_ ?_ ?_ ?_
      · intro e he; simp at he; rcases he with rfl | rfl | rfl | rfl <;> rfl
      · intro e he id hid
        simp at he
        rcases he with rfl | rfl | rfl | rfl <;> simp [Event.lifecycle_id] at hid <;> omega
      · simp [Event.created_ok, Event.allocated_ok, Event.mapped_ok]
      · simp
    · simp only [Bool.true_eq_false, if_false]
      cases h3 : w.outcome (w.calls + 1 + 1)
      · simp only [if_true]
        refine invariant_register hinv ⟨w.allocations, true, true, false⟩
          [Event.vr_calloc w.allocations, Event.vkCreateBuffer w.allocations size true,
            Event.vr_allocate_store_buffer w.allocations true,
            Event.vkMapMemory w.allocations false,
            Event.vr_error_message "Error mapping memory"] rfl rfl (by simp) rfl ?_ ?_ ?_ ?_
        · intro e he; simp at he; rcases he with rfl | rfl | rfl | rfl | rfl <;> rfl
        · intro e he id hid
          simp at he
          rcases he with rfl | rfl | rfl | rfl | rfl <;>
            simp [Event.lifecycle_id] at hid <;> omega
        · simp [Event.created_ok, Event.allocated_ok, Event.mapped_ok]
        · simp
      · simp only [Bool.true_eq_false, if_false]
        refine invariant_register hinv ⟨w.allocations, true, true, true⟩
          [Event.vr_calloc w.allocations, Event.vkCreateBuffer w.allocations size true,
            Event.vr_allocate_store_buffer w.allocations true,
            Event.vkMapMemory w.allocations true] rfl rfl (by simp) rfl ?_ ?_ ?_ ?_
        · intro e he; simp at he; rcases he with rfl | rfl | rfl | rfl <;> rfl
        · intro e he id hid
          simp at he
          rcases he with rfl | rfl | rfl | rfl <;> simp [Event.lifecycle_id] at hid <;> omega
        · simp [Event.created_ok, Event.allocated_ok, Event.mapped_ok]
        · simp

theorem allocate_window (d : test_data) (size : ℕ) (w : World) :
    (allocate_test_buffer d size w).2.1.window = d.window
      ∧ (allocate_test_buffer d size w).2.1.script = d.script := by
  unfold allocate_test_buffer
  simp only []
  split_ifs <;> exact ⟨rfl, rfl⟩

theorem draw_rect_invariant (d : test_data) (x y w h : CFloat) (world : World)
    (hinv : buffers_invariant d world) :
    buffers_invariant (draw_rect d x y w h world).2.1 (draw_rect d x y w h world).2.2
      ∧ (draw_rect d x y w h world).2.1.window = d.window
      ∧ (draw_rect d x y w h world).2.1.script = d.script := by
  have halloc := allocate_invariant d (sizeof_vr_pipeline_vertex * 6) world hinv
  have hwin := allocate_window d (sizeof_vr_pipeline_vertex * 6) world
  unfold draw_rect
  simp only []
  split
  · exact ⟨halloc, hwin⟩
  · refine ⟨invariant_extends halloc rfl ?_, hwin⟩
    exact extends_trans (extends_trans (extends_trans
      (extends_emit _ _ (by simp [Event.lifecycle_id]))
      (extends_emit _ _ (by simp [Event.lifecycle_id])))
      (extends_emit _ _ (by simp [Event.lifecycle_id])))
      (extends_emit _ _ (by simp [Event.lifecycle_id]))

theorem draw_arrays_invariant (d : test_data) (command : vr_script_command)
    (vc ic fv fi : ℕ) (world : World) (hinv : buffers_invariant d world) :
    buffers_invariant (draw_arrays d command vc ic fv fi world).2.1
        (draw_arrays d command vc ic fv fi world).2.2
      ∧ (draw_arrays d command vc ic fv fi world).2.1.window = d.window
      ∧ (draw_arrays d command vc ic fv fi world).2.1.script = d.script := by
  unfold draw_arrays
  split
  · refine ⟨invariant_extends hinv rfl ?_, rfl, rfl⟩
    exact extends_trans (extends_emit _ _ (by simp [Event.lifecycle_id]))
      (extends_emit _ _ (by simp [Event.lifecycle_id]))
  · rename_i vbo _
    split
    · refine ⟨invariant_extends hinv rfl ?_, rfl, rfl⟩
      exact extends_trans (extends_emit _ _ (by simp [Event.lifecycle_id]))
        (extends_emit _ _ (by simp [Event.lifecycle_id]))
    · have halloc := allocate_invariant d (vbo.stride * vbo.num_rows) world hinv
      have hwin := allocate_window d (vbo.stride * vbo.num_rows) world
      simp only []
      split
      · exact ⟨invariant_extends halloc rfl (extends_refl _), hwin⟩
      · refine ⟨invariant_extends halloc rfl ?_, hwin⟩
        exact extends_trans (extends_trans (extends_trans
          (extends_emit _ _ (by simp [Event.lifecycle_id]))
          (extends_emit _ _ (by simp [Event.lifecycle_id])))
          (extends_emit _ _ (by simp [Event.lifecycle_id])))
          (extends_emit _ _ (by simp [Event.lifecycle_id]))

/-- Every handler keeps the buffer invariant, the window and the script. -/
theorem run_command_invariant (c : vr_script_command) (d : test_data) (w : World)
    (r : Bool) (d' : test_data) (w' : World) (hinv : buffers_invariant d w)
    (h : run_command c d w = Except.ok (r, d', w')) :
    buffers_invariant d' w' ∧ d'.window = d.window ∧ d'.script = d.script := by
  unfold run_command at h
  cases hop : c.op with
  | DRAW_RECT x y rw rh =>
    rw [hop] at h
    injection h with h
    have := draw_rect_invariant d x y rw rh w hinv
    rw [h] at this
    exact this
  | DRAW_ARRAYS vc ic fv fi =>
    rw [hop] at h
    injection h with h
    have := draw_arrays_invariant d c vc ic fv fi w hinv
    rw [h] at this
    exact this
  | PROBE_RECT n x y rw rh color =>
    rw [hop] at h
    obtain ⟨hd, hext⟩ := probe_rect_extends _ _ _ _ _ _ _ _ _ _ _ _ h
    subst hd
    exact ⟨invariant_extends hinv rfl hext, rfl, rfl⟩
  | SET_PUSH_CONSTANT offset size =>
    rw [hop] at h
    injection h with h
    obtain ⟨_, h2⟩ := Prod.mk.inj h
    obtain ⟨hd, hw⟩ := Prod.mk.inj h2
    subst hd; subst hw
    exact ⟨invariant_extends hinv rfl (extends_emit _ _ (by simp [Event.lifecycle_id])),
      rfl, rfl⟩
  | CLEAR_COLOR color =>
    rw [hop] at h
    injection h with h
    obtain ⟨_, h2⟩ := Prod.mk.inj h
    obtain ⟨hd, hw⟩ := Prod.mk.inj h2
    subst hd; subst hw
    exact ⟨invariant_extends hinv rfl (extends_refl _), rfl, rfl⟩
  | CLEAR =>
    rw [hop] at h
    injection h with h
    obtain ⟨_, h2⟩ := Prod.mk.inj h
    obtain ⟨hd, hw⟩ := Prod.mk.inj h2
    subst hd; subst hw
    exact ⟨invariant_extends hinv rfl (extends_emit _ _ (by simp [Event.lifecycle_id])),
      rfl, rfl⟩

theorem run_commands_invariant (cs : List vr_script_command) :
    ∀ (ret : Bool) (d : test_data) (w : World) (r : Bool) (d' : test_data) (w' : World),
      buffers_invariant d w → run_commands cs ret d w = Except.ok (r, d', w') →
      buffers_invariant d' w' ∧ d'.window = d.window ∧ d'.script = d.script := by
  induction cs with
  | nil =>
    intro ret d w r d' w' hinv h
    simp only [run_commands] at h
    injection h with h
    obtain ⟨_, h2⟩ := Prod.mk.inj h
    obtain ⟨hd, hw⟩ := Prod.mk.inj h2
    subst hd; subst hw
    exact ⟨hinv, rfl, rfl⟩
  | cons c rest ih =>
    intro ret d w r d' w' hinv h
    simp only [run_commands] at h
    split at h
    · cases h
    · rename_i r1 hr1
      obtain ⟨h1, h2, h3⟩ := run_command_invariant c d w r1.1 r1.2.1 r1.2.2 hinv hr1
      obtain ⟨h4, h5, h6⟩ := ih _ _ _ _ _ _ h1 h
      exact ⟨h4, h5.trans h2, h6.trans h3⟩

/-! ## Releasing the buffers -/

theorem free_test_buffer_spec (d : test_data) (b : test_buffer) (w : World) :
    (free_test_buffer d b w).2.trace = w.trace ++ release_events b
      ∧ (free_test_buffer d b w).1.buffers = d.buffers.erase b := by
  unfold free_test_buffer release_events World.emit
  rcases b with ⟨id, b1, b2, b3⟩
  cases b1 <;> cases b2 <;> cases b3 <;> simp

theorem free_all_buffers_spec (l : List test_buffer) :
    ∀ (d : test_data) (w : World), d.buffers = l →
      (free_all_buffers l d w).1.buffers = []
        ∧ (free_all_buffers l d w).2.trace = w.trace ++ l.flatMap release_events := by
  induction l with
  | nil => intro d w h; simp [free_all_buffers, h]
  | cons b rest ih =>
    intro d w h
    obtain ⟨ht, hb⟩ := free_test_buffer_spec d b w
    have hrest : (free_test_buffer d b w).1.buffers = rest := by
      rw [hb, h, List.erase_cons_head]
    obtain ⟨h1, h2⟩ := ih (free_test_buffer d b w).1 (free_test_buffer d b w).2 hrest
    simp only [free_all_buffers]
    refine ⟨h1, ?_⟩
    rw [h2, ht, List.flatMap_cons, List.append_assoc]

theorem release_events_filter (b : test_buffer) (id : ℕ) :
    (release_events b).filter (Event.is_release_of id)
      = if b.id = id then release_events b else [] := by
  rcases b with ⟨bid, b1, b2, b3⟩
  by_cases h : bid = id
  · subst h
    cases b1 <;> cases b2 <;> cases b3 <;>
      simp [release_events, Event.is_release_of, Event.is_release, Event.lifecycle_id]
  · cases b1 <;> cases b2 <;> cases b3 <;>
      simp [release_events, Event.is_release_of, Event.is_release, Event.lifecycle_id, h]

theorem release_events_all (bs : List test_buffer) :
    ∀ e ∈ bs.flatMap release_events, e.is_release = true := by
  intro e he
  rw [List.mem_flatMap] at he
  obtain ⟨b, _, hb⟩ := he
  rcases b with ⟨bid, b1, b2, b3⟩
  cases b1 <;> cases b2 <;> cases b3 <;> simp [release_events] at hb <;>
    (rcases hb with h | h | h | h) <;> simp_all [Event.is_release]

theorem release_filter_other (bs : List test_buffer) (id : ℕ) (h : ∀ b ∈ bs, b.id ≠ id) :
    (bs.flatMap release_events).filter (Event.is_release_of id) = [] := by
  induction bs with
  | nil => rfl
  | cons b rest ih =>
    rw [List.flatMap_cons, List.filter_append, release_events_filter,
      if_neg (h b (List.mem_cons_self _ _)),
      ih (fun b' hb' => h b' (List.mem_cons_of_mem _ hb'))]
    rfl

theorem release_filter_own (bs : List test_buffer) (b : test_buffer)
    (hnd : (bs.map test_buffer.id).Nodup) (hb : b ∈ bs) :
    (bs.flatMap release_events).filter (Event.is_release_of b.id) = release_events b := by
  induction bs with
  | nil => cases hb
  | cons b' rest ih =>
    rw [List.map_cons, List.nodup_cons] at hnd
    rw [List.flatMap_cons, List.filter_append, release_events_filter]
    rcases List.mem_cons.1 hb with rfl | hmem
    · rw [if_pos rfl, release_filter_other rest b.id, List.append_nil]
      intro b'' hb'' heq
      exact hnd.1 (heq ▸ List.mem_map_of_mem _ hb'')
    · have hne : b'.id ≠ b.id := by
        intro heq
        exact hnd.1 (heq ▸ List.mem_map_of_mem _ hmem)
      rw [if_neg hne, List.nil_append, ih hnd.2 hmem]

theorem created_ok_not_release (id : ℕ) (e : Event) (h : e.created_ok id = true) :
    e.is_release = false := by
  cases e <;> first | rfl | cases h

theorem allocated_ok_not_release (id : ℕ) (e : Event) (h : e.allocated_ok id = true) :
    e.is_release = false := by
  cases e <;> first | rfl | cases h

theorem mapped_ok_not_release (id : ℕ) (e : Event) (h : e.mapped_ok id = true) :
    e.is_release = false := by
  cases e <;> first | rfl | cases h

theorem release_any_false (bs : List test_buffer) (id : ℕ) :
    (bs.flatMap release_events).any (Event.created_ok id) = false
      ∧ (bs.flatMap release_events).any (Event.allocated_ok id) = false
      ∧ (bs.flatMap release_events).any (Event.mapped_ok id) = false := by
  have hall := release_events_all bs
  refine ⟨?_, ?_, ?_⟩ <;> rw [List.any_eq_false] <;> intro e he hok
  · have := created_ok_not_release id e hok
    rw [hall e he] at this
    cases this
  · have := allocated_ok_not_release id e hok
    rw [hall e he] at this
    cases this
  · have := mapped_ok_not_release id e hok
    rw [hall e he] at this
    cases this

/-- After the commands and the final `end_paint`, releasing every buffer of
the list empties it and gives each registered buffer its expected release. -/
theorem release_phase (d : test_data) (w : World) (hinv : buffers_invariant d w) :
    (free_all_buffers d.buffers d w).1.buffers = []
      ∧ (∀ id, Event.vr_calloc id ∈ (free_all_buffers d.buffers d w).2.trace →
          (free_all_buffers d.buffers d w).2.trace.filter (Event.is_release_of id)
            = expected_release id (free_all_buffers d.buffers d w).2.trace)
      ∧ (∀ id, Event.vkMapMemory id false ∈ (free_all_buffers d.buffers d w).2.trace →
          (free_all_buffers d.buffers d w).2.trace.filter (Event.is_release_of id)
            = [Event.vkFreeMemory id, Event.vkDestroyBuffer id, Event.vr_free id]) := by
  obtain ⟨hempty, htrace⟩ := free_all_buffers_spec d.buffers d w rfl
  have hnd : (d.buffers.map test_buffer.id).Nodup := by
    rw [hinv.ids]; exact List.nodup_range _
  have hnoT : ∀ id, w.trace.filter (Event.is_release_of id) = [] := by
    intro id
    rw [List.filter_eq_nil_iff]
    intro e he
    simp [Event.is_release_of, hinv.no_release e he]
  have hfind : ∀ id, id < w.allocations → ∃ b ∈ d.buffers, b.id = id := by
    intro id hid
    have : id ∈ d.buffers.map test_buffer.id := by rw [hinv.ids]; exact List.mem_range.2 hid
    obtain ⟨b, hb, hbid⟩ := List.mem_map.1 this
    exact ⟨b, hb, hbid⟩
  have hkey : ∀ b ∈ d.buffers,
      (free_all_buffers d.buffers d w).2.trace.filter (Event.is_release_of b.id)
          = release_events b
        ∧ expected_release b.id (free_all_buffers d.buffers d w).2.trace = release_events b := by
    intro b hb
    constructor
    · rw [htrace, List.filter_append, hnoT, List.nil_append, release_filter_own _ _ hnd hb]
    · obtain ⟨h1, h2, h3⟩ := hinv.handles b hb
      obtain ⟨r1, r2, r3⟩ := release_any_false d.buffers b.id
      unfold expected_release release_events
      rw [htrace, List.any_append, List.any_append, List.any_append, r1, r2, r3, Bool.or_false,
        Bool.or_false, Bool.or_false, ← h1, ← h2, ← h3]
  refine ⟨hempty, ?_, ?_⟩
  · intro id hmem
    rw [htrace] at hmem
    rcases List.mem_append.1 hmem with h | h
    · obtain ⟨b, hb, rfl⟩ := hfind id (hinv.known _ h id rfl)
      rw [(hkey b hb).1, (hkey b hb).2]
    · have := release_events_all d.buffers _ h
      simp [Event.is_release] at this
  · intro id hmem
    have hmem' := hmem
    rw [htrace] at hmem'
    rcases List.mem_append.1 hmem' with h | h
    · obtain ⟨b, hb, rfl⟩ := hfind id (hinv.known _ h id rfl)
      obtain ⟨m1, m2, m3⟩ := hinv.map_failed b hb h
      rw [(hkey b hb).1]
      unfold release_events
      simp [m1, m2, m3]
    · have := release_events_all d.buffers _ h
      simp [Event.is_release] at this

/-! ## The run -/

theorem probe_row_returns (data : test_data) (command : vr_script_command) (n : ℕ)
    (rx ry : ℤ) (color : Float4) (y : ℤ) (hdec : decodable data.window.framebuffer_format)
    (r : ℕ) :
    ∀ (x p : ℤ) (w : World), ∃ res, probe_row data command n rx ry color y r x p w
      = Except.ok res := by
  induction r with
  | zero => intro x p w; exact ⟨_, rfl⟩
  | succ r ih =>
    intro x p w
    obtain ⟨px, hpx⟩ := hdec (w.linear_memory w.calls) p (w.stack w.loads)
    simp only [probe_row, hpx]
    split_ifs
    · exact ⟨_, rfl⟩
    · exact ih _ _ _

theorem probe_rows_returns (data : test_data) (command : vr_script_command) (n : ℕ)
    (rx ry rw : ℤ) (color : Float4) (hdec : decodable data.window.framebuffer_format)
    (r : ℕ) :
    ∀ (y : ℤ) (w : World), ∃ res, probe_rows data command n rx ry rw color r y w
      = Except.ok res := by
  induction r with
  | zero => intro y w; exact ⟨_, rfl⟩
  | succ r ih =>
    intro y w
    obtain ⟨⟨m, w1⟩, hrow⟩ := probe_row_returns data command n rx ry color y hdec rw.toNat 0
      (row_start data.window rx ry y) w
    simp only [probe_rows, hrow]
    cases m
    · exact ih _ _
    · exact ⟨_, rfl⟩

theorem probe_rect_returns (data : test_data) (command : vr_script_command) (n : ℕ)
    (rx ry rw rh : ℤ) (color : Float4) (w : World)
    (hdec : decodable data.window.framebuffer_format) :
    ∃ res, probe_rect data command n rx ry rw rh color w = Except.ok res := by
  obtain ⟨⟨m, w1⟩, hrows⟩ := probe_rows_returns data command n rx ry rw color hdec rh.toNat 0
    (end_paint data w).2
  unfold probe_rect
  simp only [hrows]
  exact ⟨_, rfl⟩

theorem run_command_returns (c : vr_script_command) (d : test_data) (w : World)
    (hdec : decodable d.window.framebuffer_format) :
    ∃ res, run_command c d w = Except.ok res := by
  unfold run_command
  cases c.op with
  | PROBE_RECT n x y rw rh color => exact probe_rect_returns d c n x y rw rh color w hdec
  | _ => exact ⟨_, rfl⟩

theorem draw_arrays_window (d : test_data) (command : vr_script_command)
    (vc ic fv fi : ℕ) (world : World) :
    (draw_arrays d command vc ic fv fi world).2.1.window = d.window := by
  unfold draw_arrays
  split
  · rfl
  · split
    · rfl
    · simp only []
      split <;> exact (allocate_window _ _ _).1

theorem draw_rect_window (d : test_data) (x y w h : CFloat) (world : World) :
    (draw_rect d x y w h world).2.1.window = d.window := by
  unfold draw_rect
  simp only []
  split <;> exact (allocate_window _ _ _).1

/-- No handler changes the window. -/
theorem run_command_window (c : vr_script_command) (d : test_data) (w : World)
    (res : Bool × test_data × World) (h : run_command c d w = Except.ok res) :
    res.2.1.window = d.window := by
  unfold run_command at h
  cases hop : c.op with
  | DRAW_RECT x y rw rh =>
    rw [hop] at h; injection h with h; rw [← h]; exact draw_rect_window _ _ _ _ _ _
  | DRAW_ARRAYS vc ic fv fi =>
    rw [hop] at h; injection h with h; rw [← h]; exact draw_arrays_window _ _ _ _ _ _ _
  | PROBE_RECT n x y rw rh color =>
    rw [hop] at h
    obtain ⟨r, d', w'⟩ := res
    rw [(probe_rect_extends _ _ _ _ _ _ _ _ _ _ _ _ h).1]
  | SET_PUSH_CONSTANT offset size => rw [hop] at h; injection h with h; rw [← h]; rfl
  | CLEAR_COLOR color => rw [hop] at h; injection h with h; rw [← h]; rfl
  | CLEAR => rw [hop] at h; injection h with h; rw [← h]; rfl

/-- The flag accumulated by the loop is the conjunction of the flag on entry
and of all handler results. -/
theorem run_commands_eq (cs : List vr_script_command) :
    ∀ (ret : Bool) (d : test_data) (w : World),
      run_commands cs ret d w
        = match handler_results cs d w with
          | Except.error e => Except.error e
          | Except.ok rs => Except.ok (ret && rs.1.all id, rs.2.1, rs.2.2) := by
  induction cs with
  | nil => intro ret d w; simp [run_commands, handler_results]
  | cons c rest ih =>
    intro ret d w
    simp only [run_commands, handler_results]
    cases hc : run_command c d w with
    | error e => rfl
    | ok r =>
      simp only []
      rw [ih]
      cases hr : handler_results rest r.2.1 r.2.2 with
      | error e => rfl
      | ok rs =>
        simp only [List.all_cons, id]
        congr 2
        cases r.1 <;> cases ret <;> simp

theorem probe_rows_returns_narrow (data : test_data) (command : vr_script_command) (n : ℕ)
    (rx ry rw : ℤ) (color : Float4) (hw : rw.toNat = 0) (r : ℕ) :
    ∀ (y : ℤ) (w : World), ∃ res, probe_rows data command n rx ry rw color r y w
      = Except.ok res := by
  induction r with
  | zero => intro y w; exact ⟨_, rfl⟩
  | succ r ih =>
    intro y w
    simp only [probe_rows, hw, probe_row]
    exact ih _ _

theorem probe_rect_returns_empty (data : test_data) (command : vr_script_command) (n : ℕ)
    (rx ry rw rh : ℤ) (color : Float4) (w : World) (h : rw ≤ 0 ∨ rh ≤ 0) :
    ∃ res, probe_rect data command n rx ry rw rh color w = Except.ok res := by
  have hrows : ∃ res, probe_rows data command n rx ry rw color rh.toNat 0 (end_paint data w).2
      = Except.ok res := by
    rcases h with h | h
    · exact probe_rows_returns_narrow data command n rx ry rw color (by omega) _ _ _
    · have : rh.toNat = 0 := by omega
      rw [this]
      exact ⟨_, rfl⟩
  obtain ⟨⟨m, w1⟩, hrows⟩ := hrows
  unfold probe_rect
  simp only [hrows]
  exact ⟨_, rfl⟩

theorem run_command_returns_safe (c : vr_script_command) (d : test_data) (w : World)
    (hsafe : decodable d.window.framebuffer_format ∨ decodes_nothing c) :
    ∃ res, run_command c d w = Except.ok res := by
  rcases hsafe with hdec | hnone
  · exact run_command_returns c d w hdec
  · unfold run_command
    unfold decodes_nothing at hnone
    cases hop : c.op with
    | PROBE_RECT n x y rw rh color =>
      rw [hop] at hnone
      exact probe_rect_returns_empty d c n x y rw rh color w hnone
    | _ => exact ⟨_, rfl⟩

theorem handler_results_returns_safe (cs : List vr_script_command) :
    ∀ (d : test_data) (w : World),
      (decodable d.window.framebuffer_format ∨ ∀ c ∈ cs, decodes_nothing c) →
      ∃ rs, handler_results cs d w = Except.ok rs ∧ rs.1.length = cs.length := by
  induction cs with
  | nil => intro d w _; exact ⟨_, rfl, rfl⟩
  | cons c rest ih =>
    intro d w hsafe
    obtain ⟨res, hres⟩ := run_command_returns_safe c d w
      (hsafe.imp id (fun h => h c (List.mem_cons_self _ _)))
    have hwin := run_command_window c d w res hres
    obtain ⟨rs, hrs, hlen⟩ := ih res.2.1 res.2.2
      (hsafe.imp (fun h => by rw [hwin]; exact h)
        (fun h c' hc' => h c' (List.mem_cons_of_mem _ hc')))
    refine ⟨(res.1 :: rs.1, rs.2.1, rs.2.2), ?_, by simp [hlen]⟩
    simp only [handler_results, hres, hrs]

/-- C1 (counterexample): with the half-float framebuffer format
`R16G16B16A16_SFLOAT` and the script `probe-rect 1x1; clear`, every device
call succeeding, the first pixel decode is fatal: `vr_test_run` does not
return, and the handlers do not all run (there is no list of results). -/
theorem vr_test_run_fatal_probe :
    (vr_test_run ⟨rgba16_sfloat, 8, 2048, false⟩
        ⟨[⟨1, vr_script_op.PROBE_RECT 4 0 0 1 1 black⟩, ⟨2, vr_script_op.CLEAR⟩], none⟩
        (steady_world [])).map (fun r => r.1)
      = Except.error (Abort.vr_fatal "FIXME: load pixel from half-float format")
    ∧ (handler_results [⟨1, vr_script_op.PROBE_RECT 4 0 0 1 1 black⟩, ⟨2, vr_script_op.CLEAR⟩]
        (initial_data ⟨rgba16_sfloat, 8, 2048, false⟩
          ⟨[⟨1, vr_script_op.PROBE_RECT 4 0 0 1 1 black⟩, ⟨2, vr_script_op.CLEAR⟩], none⟩)
        (begin_paint (initial_data ⟨rgba16_sfloat, 8, 2048, false⟩
          ⟨[⟨1, vr_script_op.PROBE_RECT 4 0 0 1 1 black⟩, ⟨2, vr_script_op.CLEAR⟩], none⟩)
          (steady_world [])).2).map (fun r => r.1)
      = Except.error (Abort.vr_fatal "FIXME: load pixel from half-float format") := by
  decide

/-- C10: started on a fresh device, `vr_test_run` returns whenever the
framebuffer format decodes or no probe has a pixel to decode; and whenever it
returns, the live-buffer list is empty and every buffer registered during
the run (also one whose construction failed part-way) has been released
exactly once: its release events are, in this order, an unmap if and only if
its mapping succeeded, a memory free if and only if its allocation succeeded,
a handle destroy if and only if its creation succeeded, and the `vr_free` of
the buffer.  A buffer whose mapping failed is released with no unmap, one
free and one destroy. -/
theorem vr_test_run_releases (window : vr_window) (script : vr_script)
    (outcome : ℕ → Bool) (linear_memory : ℕ → HostMemory) (stack : ℕ → Float4) :
    ((decodable window.framebuffer_format ∨ ∀ c ∈ script.commands, decodes_nothing c) →
        ∃ res, vr_test_run window script (World.init outcome linear_memory stack) = Except.ok res)
      ∧ ∀ (ret : Bool) (final_data : test_data) (final : World),
          vr_test_run window script (World.init outcome linear_memory stack)
            = Except.ok (ret, final_data, final) →
          final_data.buffers = []
            ∧ (∀ id, Event.vr_calloc id ∈ final.trace →
                final.trace.filter (Event.is_release_of id) = expected_release id final.trace)
            ∧ (∀ id, Event.vkMapMemory id false ∈ final.trace →
                final.trace.filter (Event.is_release_of id)
                  = [Event.vkFreeMemory id, Event.vkDestroyBuffer id, Event.vr_free id]) := by
  constructor
  · intro hsafe
    obtain ⟨rs, hrs, _⟩ := handler_results_returns_safe script.commands
      (initial_data window script)
      (begin_paint (initial_data window script) (World.init outcome linear_memory stack)).2 hsafe
    unfold vr_test_run
    simp only []
    rw [run_commands_eq, hrs]
    exact ⟨_, rfl⟩
  · intro ret final_data final h
    have hinit : buffers_invariant (initial_data window script)
        (World.init outcome linear_memory stack) :=
      ⟨by simp [World.init], rfl, by simp [World.init], by simp [initial_data],
        by simp [initial_data]⟩
    have hbegin := invariant_extends hinit rfl
      (begin_paint_extends (initial_data window script) (World.init outcome linear_memory stack))
    unfold vr_test_run at h
    simp only [] at h
    split at h
    · cases h
    · rename_i r hr
      obtain ⟨hinv, _, _⟩ := run_commands_invariant _ _ _ _ r.1 r.2.1 r.2.2 hbegin hr
      have hend := invariant_extends hinv rfl (end_paint_extends r.2.1 r.2.2)
      have hrel := release_phase r.2.1 (end_paint r.2.1 r.2.2).2 hend
      injection h with h
      obtain ⟨_, h2⟩ := Prod.mk.inj h
      obtain ⟨hd, hw⟩ := Prod.mk.inj h2
      rw [← hd, ← hw]
      exact hrel

/-! ## The statements at concrete inputs -/

theorem bgra8_unorm_decodable : decodable bgra8_unorm := by
  intro mem fb pixel
  exact ⟨_, (load_pixel_eq _ _ _ _ _).2 ⟨_, rfl, rfl⟩⟩

/-- C3 (witness): the bytes `b g r a = 00 00 ff ff` of a BGRA pixel decode to
red. -/
theorem load_pixel_bgra_witness :
    bgra8_unorm.swizzle = vr_format_swizzle.BGRA
      ∧ load_pixel (bytes_memory [0, 0, 255, 255]) bgra8_unorm 0 black = Except.ok red :=
  ⟨rfl, (load_pixel_bgra (bytes_memory [0, 0, 255, 255]) bgra8_unorm 0 black rfl).1
    ⟨CFloat.zero, CFloat.zero, CFloat.one, CFloat.one⟩ (by decide)⟩

/-- C4 (counterexample): a 25-bit UINT field holding `2^24 + 1` decodes to
the float `2^24`, not to the bit-field. -/
theorem load_packed_parts_wide_field :
    load_packed_parts (bytes_memory [1, 0, 0, 1]) wide_uint 0 black
        = Except.ok ⟨CFloat.finite 16777216, CFloat.zero, CFloat.zero, CFloat.zero⟩
      ∧ bit_field wide_uint 1 (read_uint (bytes_memory [1, 0, 0, 1]) 32 0) 0 = 16777217
      ∧ CFloat.finite 16777216 ≠ CFloat.finite ((16777217 : ℕ) : ℚ) := by
  refine ⟨by decide, by decide, by decide⟩

/-- C4 (witness): the word `0x7ff00c01` of an `A2R10G10B10_UINT` pixel holds
the fields 1, 1023, 3, 1. -/
theorem load_packed_parts_uint_witness :
    (a2r10g10b10_uint.packed_size = 8 ∨ a2r10g10b10_uint.packed_size = 16
        ∨ a2r10g10b10_uint.packed_size = 32)
      ∧ a2r10g10b10_uint.mode = vr_format_mode.UINT
      ∧ a2r10g10b10_uint.n_components ≤ 4
      ∧ (∀ l, l < a2r10g10b10_uint.n_components → component_bits a2r10g10b10_uint l < 32)
      ∧ ∃ parts', load_packed_parts (bytes_memory [1, 12, 240, 127]) a2r10g10b10_uint 0 black
            = Except.ok parts'
          ∧ ∀ i, i < a2r10g10b10_uint.n_components →
              parts'.get i = CFloat.ofNat (bit_field a2r10g10b10_uint
                a2r10g10b10_uint.n_components
                (read_uint (bytes_memory [1, 12, 240, 127]) a2r10g10b10_uint.packed_size 0) i) := by
  have hb : ∀ l, l < a2r10g10b10_uint.n_components → component_bits a2r10g10b10_uint l < 32 := by
    intro l hl
    have : l < 4 := hl
    interval_cases l <;> decide
  obtain ⟨parts', h1, h2, _⟩ := (load_packed_parts_uint (bytes_memory [1, 12, 240, 127])
    a2r10g10b10_uint 0 black (Or.inr (Or.inr rfl)) rfl (by decide) hb).1
  exact ⟨Or.inr (Or.inr rfl), rfl, by decide, hb, parts', h1, h2⟩

/-- C5 (witness): the byte 255 of a UNORM component decodes to 1.0. -/
theorem load_part_unorm_witness :
    (bgra8_unorm.mode = vr_format_mode.UNORM ∨ bgra8_unorm.mode = vr_format_mode.SRGB)
      ∧ ((8 : ℕ) = 8 ∨ (8 : ℕ) = 16 ∨ (8 : ℕ) = 32 ∨ (8 : ℕ) = 64)
      ∧ load_part (bytes_memory [255]) bgra8_unorm 8 0 = Except.ok CFloat.one :=
  ⟨Or.inl rfl, Or.inl rfl,
    (load_part_unorm (bytes_memory [255]) bgra8_unorm 8 0 (Or.inl rfl) (Or.inl rfl)).2.2.1
      (by decide)⟩

/-- C6 (witness): the byte `0x80` of an SNORM component decodes to
`-128/127` rounded to `float`. -/
theorem snorm_decode_witness :
    r8_snorm.mode = vr_format_mode.SNORM
      ∧ load_part (bytes_memory [128]) r8_snorm 8 0 = Except.ok (round32 (-128 / 127)) :=
  ⟨rfl, ((snorm_decode (bytes_memory [128]) r8_snorm 0 rfl).2.2.1 (by decide)).1⟩

/-- C7 (witness): a pixel of the three-component format `R8G8B8_UNORM` has
alpha 1.0. -/
theorem load_pixel_missing_components_witness :
    (rgb8_unorm.swizzle = vr_format_swizzle.RGBA ∨ rgb8_unorm.swizzle = vr_format_swizzle.BGRA)
      ∧ rgb8_unorm.n_components < 4
      ∧ load_pixel (bytes_memory [10, 20, 30]) rgb8_unorm 0 black
          = Except.ok ⟨round32 (10 / 255), round32 (20 / 255), round32 (30 / 255), CFloat.one⟩
      ∧ (Float4.mk (round32 (10 / 255)) (round32 (20 / 255)) (round32 (30 / 255)) CFloat.one).c3
          = CFloat.one :=
  ⟨Or.inl rfl, by decide, by decide,
    (load_pixel_missing_components (bytes_memory [10, 20, 30]) rgb8_unorm 0 black _ (Or.inl rfl)
      (by decide) (by decide)).1⟩

/-- C8 (witness): an observed red against the expected red; no NaN is
involved, and the comparison is the one on `|c1[p] - c2[p]| <= tol[p]`. -/
theorem compare_pixels_spec_witness :
    (4 : ℕ) ≤ 4
      ∧ (∀ p, p < 4 → (CFloat.sub (red.get p) (red.get p)).isNaN = false
          ∧ (tolerance.get p).isNaN = false)
      ∧ (compare_pixels red red tolerance 4 = true ↔
          ∀ p, p < 4 →
            CFloat.le (CFloat.fabsf (CFloat.sub (red.get p) (red.get p))) (tolerance.get p)
              = true) :=
  ⟨le_rfl, by decide, (compare_pixels_spec red red tolerance 4 le_rfl).2.1 (by decide)⟩

/-- C10 (witness): `draw rect` on a device whose `vkMapMemory` fails; the
buffer is released with one free and one destroy and no unmap. -/
theorem vr_test_run_releases_witness :
    ∃ res, vr_test_run bgra_window rect_script (failing_world [3] []) = Except.ok res
      ∧ res.1 = false
      ∧ res.2.1.buffers = []
      ∧ res.2.2.trace.filter (Event.is_release_of 0)
          = [Event.vkFreeMemory 0, Event.vkDestroyBuffer 0, Event.vr_free 0] := by
  obtain ⟨res, hres⟩ := (vr_test_run_releases bgra_window rect_script
    (fun k => !([3] : List ℕ).contains k) (fun _ => bytes_memory []) (fun _ => black)).1
    (Or.inl bgra8_unorm_decodable)
  have hall := (vr_test_run_releases bgra_window rect_script
    (fun k => !([3] : List ℕ).contains k) (fun _ => bytes_memory []) (fun _ => black)).2
    res.1 res.2.1 res.2.2 hres
  have hmem : (vr_test_run bgra_window rect_script (failing_world [3] [])).map
      (fun r => (r.1, decide (Event.vkMapMemory 0 false ∈ r.2.2.trace)))
      = Except.ok (false, true) := by decide
  have hres' : vr_test_run bgra_window rect_script (failing_world [3] []) = Except.ok res := hres
  rw [hres'] at hmem
  injection hmem with hmem
  obtain ⟨h1, h2⟩ := Prod.mk.inj hmem
  exact ⟨res, hres', h1, hall.1, hall.2.2 0 (of_decide_eq_true h2)⟩

/-! ## The steps of `end_paint` -/

/-- C11 (amended): `end_paint` issues its steps in order (end of the render
pass, copy into the linear image, end of command recording, fence reset,
queue submit, fence wait) up to and including the first device call that
fails; that failure is reported and `end_paint` returns false at once, the
steps after it not being issued.  When the three fallible calls succeed all
the steps are issued, followed by an invalidate of the linear memory if and
only if `need_linear_memory_invalidate` is set, and `end_paint` returns
true. -/
theorem end_paint_spec (data : test_data) (world : World) :
    (world.outcome world.calls = false →
        (end_paint data world).1 = false
          ∧ (end_paint data world).2.trace = world.trace
              ++ [Event.vkCmdEndRenderPass, Event.vkCmdCopyImage, Event.vkEndCommandBuffer false,
                  Event.vr_error_message "vkEndCommandBuffer failed"])
      ∧ (world.outcome world.calls = true → world.outcome (world.calls + 1) = false →
          (end_paint data world).1 = false
            ∧ (end_paint data world).2.trace = world.trace
                ++ [Event.vkCmdEndRenderPass, Event.vkCmdCopyImage, Event.vkEndCommandBuffer true,
                    Event.vkResetFences, Event.vkQueueSubmit false,
                    Event.vr_error_message "vkQueueSubmit failed"])
      ∧ (world.outcome world.calls = true → world.outcome (world.calls + 1) = true →
          world.outcome (world.calls + 2) = false →
          (end_paint data world).1 = false
            ∧ (end_paint data world).2.trace = world.trace
                ++ [Event.vkCmdEndRenderPass, Event.vkCmdCopyImage, Event.vkEndCommandBuffer true,
                    Event.vkResetFences, Event.vkQueueSubmit true, Event.vkWaitForFences false,
                    Event.vr_error_message "vkWaitForFences failed"])
      ∧ (world.outcome world.calls = true → world.outcome (world.calls + 1) = true →
          world.outcome (world.calls + 2) = true →
          (end_paint data world).1 = true
            ∧ (end_paint data world).2.trace = world.trace
                ++ end_paint_steps data.window.need_linear_memory_invalidate
            ∧ (Event.vkInvalidateMappedMemoryRanges ∈ (end_paint data world).2.trace.drop
                  world.trace.length ↔ data.window.need_linear_memory_invalidate = true)) := by
  refine ⟨?_, ?_, ?_, ?_⟩
  · intro h1
    simp [end_paint, World.call, World.emit, h1]
  · intro h1 h2
    simp [end_paint, World.call, World.emit, h1, h2]
  · intro h1 h2 h3
    simp [end_paint, World.call, World.emit, h1, h2, h3]
  · intro h1 h2 h3
    cases hinv : data.window.need_linear_memory_invalidate <;>
      simp [end_paint, World.call, World.emit, h1, h2, h3, hinv, end_paint_steps]

/-- C11 (counterexample): when `vkEndCommandBuffer` fails, `end_paint` stops:
neither the fence reset nor the queue submit nor the fence wait nor the
invalidate is issued. -/
theorem end_paint_stops_at_failure :
    (end_paint (initial_data bgra_window red_script) (failing_world [0] [])).1 = false
      ∧ (end_paint (initial_data bgra_window red_script) (failing_world [0] [])).2.trace
          = [Event.vkCmdEndRenderPass, Event.vkCmdCopyImage, Event.vkEndCommandBuffer false,
              Event.vr_error_message "vkEndCommandBuffer failed"]
      ∧ Event.vkResetFences
          ∉ (end_paint (initial_data bgra_window red_script) (failing_world [0] [])).2.trace
      ∧ (∀ ok, Event.vkQueueSubmit ok
          ∉ (end_paint (initial_data bgra_window red_script) (failing_world [0] [])).2.trace)
      ∧ (∀ ok, Event.vkWaitForFences ok
          ∉ (end_paint (initial_data bgra_window red_script) (failing_world [0] [])).2.trace)
      ∧ Event.vkInvalidateMappedMemoryRanges
          ∉ (end_paint (initial_data bgra_window red_script) (failing_world [0] [])).2.trace := by
  have htrace : (end_paint (initial_data bgra_window red_script)
      (failing_world [0] [])).2.trace
      = [Event.vkCmdEndRenderPass, Event.vkCmdCopyImage, Event.vkEndCommandBuffer false,
          Event.vr_error_message "vkEndCommandBuffer failed"] := by decide
  refine ⟨by decide, htrace, ?_, ?_, ?_, ?_⟩ <;> rw [htrace] <;> simp

/-- C11 (witness): `end_paint` on a device whose queue submit fails. -/
theorem end_paint_spec_witness :
    (failing_world [1] []).outcome (failing_world [1] []).calls = true
      ∧ (failing_world [1] []).outcome ((failing_world [1] []).calls + 1) = false
      ∧ (end_paint (initial_data bgra_window red_script) (failing_world [1] [])).1 = false
      ∧ (end_paint (initial_data bgra_window red_script) (failing_world [1] [])).2.trace
          = (failing_world [1] []).trace
            ++ [Event.vkCmdEndRenderPass, Event.vkCmdCopyImage, Event.vkEndCommandBuffer true,
                Event.vkResetFences, Event.vkQueueSubmit false,
                Event.vr_error_message "vkQueueSubmit failed"] :=
  ⟨by decide, by decide,
    (end_paint_spec (initial_data bgra_window red_script) (failing_world [1] [])).2.1
      (by decide) (by decide)⟩

/-! ## When the decoder is fatal -/

theorem load_part_fatal (mem : HostMemory) (format : vr_format) (bits : ℕ) (fb : ℤ)
    (h : fatal_component format.mode bits) :
    ∃ msg, load_part mem format bits fb = Except.error (Abort.vr_fatal msg) := by
  unfold fatal_component at h
  unfold load_part
  rcases h with h | ⟨h, h32, h64⟩ | ⟨hu, hs, h8, h16, h32, h64⟩
  · rw [h]; exact ⟨_, rfl⟩
  · rw [h]
    by_cases h16 : bits = 16
    · simp only [h16, if_true]; exact ⟨_, rfl⟩
    · simp only [h16, h32, h64, if_false]; exact ⟨_, rfl⟩
  · cases hm : format.mode <;> simp only [h8, h16, h32, h64, if_false] <;>
      exact ⟨_, rfl⟩

theorem load_part_not_fatal (mem : HostMemory) (format : vr_format) (bits : ℕ) (fb : ℤ)
    (h : ¬ fatal_component format.mode bits) :
    ∃ v, load_part mem format bits fb = Except.ok v := by
  unfold fatal_component at h
  unfold load_part
  cases hm : format.mode <;> simp only [hm] at h ⊢ <;> (try split_ifs) <;>
    first
    | exact ⟨_, rfl⟩
    | (exfalso; apply h; simp; omega)
    | (exfalso; apply h; simp)

theorem load_unpacked_loop_fatal (mem : HostMemory) (format : vr_format)
    (cs : List vr_format_component) :
    ∀ (i : ℕ) (fb : ℤ) (parts : Float4),
      (∃ c ∈ cs, fatal_component format.mode c.bits) →
      ∃ msg, load_unpacked_loop mem format cs i fb parts
        = Except.error (Abort.vr_fatal msg) := by
  induction cs with
  | nil => intro i fb parts h; obtain ⟨c, hc, _⟩ := h; cases hc
  | cons c rest ih =>
    intro i fb parts h
    simp only [load_unpacked_loop]
    by_cases hc : fatal_component format.mode c.bits
    · obtain ⟨msg, hmsg⟩ := load_part_fatal mem format c.bits fb hc
      rw [hmsg]; exact ⟨msg, rfl⟩
    · obtain ⟨v, hv⟩ := load_part_not_fatal mem format c.bits fb hc
      rw [hv]
      apply ih
      obtain ⟨c', hc', hf⟩ := h
      rcases List.mem_cons.1 hc' with rfl | hr
      · exact absurd hf hc
      · exact ⟨c', hr, hf⟩

theorem load_unpacked_loop_not_fatal (mem : HostMemory) (format : vr_format)
    (cs : List vr_format_component) :
    ∀ (i : ℕ) (fb : ℤ) (parts : Float4),
      (∀ c ∈ cs, ¬ fatal_component format.mode c.bits) →
      ∃ r, load_unpacked_loop mem format cs i fb parts = Except.ok r := by
  induction cs with
  | nil => intro i fb parts _; exact ⟨parts, rfl⟩
  | cons c rest ih =>
    intro i fb parts h
    simp only [load_unpacked_loop]
    obtain ⟨v, hv⟩ := load_part_not_fatal mem format c.bits fb (h c (List.mem_cons_self _ _))
    rw [hv]
    exact ih _ _ _ fun c' hc' => h c' (List.mem_cons_of_mem _ hc')

theorem load_packed_part_float (part bits : ℕ) (mode : vr_format_mode) (hb : bits < 32)
    (hm : mode = vr_format_mode.UFLOAT ∨ mode = vr_format_mode.SFLOAT) :
    ∃ msg, load_packed_part part bits mode = Except.error (Abort.vr_fatal msg) := by
  unfold load_packed_part
  simp only [hb, not_true_eq_false, if_false]
  rcases hm with rfl | rfl <;> exact ⟨_, rfl⟩

theorem load_packed_part_not_float (part bits : ℕ) (mode : vr_format_mode) (hb : bits < 32)
    (hm : ¬ (mode = vr_format_mode.UFLOAT ∨ mode = vr_format_mode.SFLOAT)) :
    ∃ v, load_packed_part part bits mode = Except.ok v := by
  unfold load_packed_part
  simp only [hb, not_true_eq_false, if_false]
  cases mode <;> first
    | exact ⟨_, rfl⟩
    | exact absurd (Or.inl rfl) hm
    | exact absurd (Or.inr rfl) hm

theorem component_mem (format : vr_format) (i : ℕ) (hi : i < format.components.length) :
    format.components.getD i ⟨0⟩ ∈ format.components := by
  rw [List.getD_eq_getElem _ _ hi]
  exact List.getElem_mem _

theorem load_packed_loop_float (format : vr_format)
    (hbits : ∀ c ∈ format.components, c.bits < 32)
    (hm : format.mode = vr_format_mode.UFLOAT ∨ format.mode = vr_format_mode.SFLOAT)
    (k : ℕ) (hk : k + 1 ≤ format.components.length) (pp : ℕ) (parts : Float4) :
    ∃ msg, load_packed_loop format (k + 1) pp parts = Except.error (Abort.vr_fatal msg) := by
  simp only [load_packed_loop]
  obtain ⟨msg, hmsg⟩ := load_packed_part_float
    ((pp &&& ((1 <<< (format.components.getD k ⟨0⟩).bits) - 1)) % 2 ^ 32)
    (format.components.getD k ⟨0⟩).bits format.mode
    (hbits _ (component_mem format k (by omega))) hm
  rw [hmsg]; exact ⟨msg, rfl⟩

theorem load_packed_loop_not_float (format : vr_format)
    (hbits : ∀ c ∈ format.components, c.bits < 32)
    (hm : ¬ (format.mode = vr_format_mode.UFLOAT ∨ format.mode = vr_format_mode.SFLOAT))
    (k : ℕ) :
    ∀ (pp : ℕ) (parts : Float4), k ≤ format.components.length →
      ∃ r, load_packed_loop format k pp parts = Except.ok r := by
  induction k with
  | zero => intro pp parts _; exact ⟨parts, rfl⟩
  | succ k ih =>
    intro pp parts hk
    simp only [load_packed_loop]
    obtain ⟨v, hv⟩ := load_packed_part_not_float
      ((pp &&& ((1 <<< (format.components.getD k ⟨0⟩).bits) - 1)) % 2 ^ 32)
      (format.components.getD k ⟨0⟩).bits format.mode
      (hbits _ (component_mem format k (by omega))) hm
    rw [hv]
    exact ih _ _ (by omega)

theorem load_parts_fatal (mem : HostMemory) (format : vr_format) (fb : ℤ)
    (hwf : well_formed format) (h : fatal_format format) :
    ∃ msg, load_parts mem format fb = Except.error (Abort.vr_fatal msg) := by
  unfold load_parts
  rcases h with ⟨hp, h8, h16, h32⟩ | ⟨hp, hn, hm⟩ | ⟨hp, hc⟩
  · rw [if_pos hp]
    unfold load_packed_parts
    rw [if_neg h8, if_neg h16, if_neg h32]
    exact ⟨_, rfl⟩
  · rw [if_pos hp]
    unfold load_packed_parts
    obtain ⟨k, hk⟩ : ∃ k, format.n_components = k + 1 := ⟨format.n_components - 1, by omega⟩
    have hlen : k + 1 ≤ format.components.length := by
      unfold vr_format.n_components at hk; omega
    rw [hk]
    split_ifs
    · exact load_packed_loop_float format (hwf.2 hp) hm k hlen _ _
    · exact load_packed_loop_float format (hwf.2 hp) hm k hlen _ _
    · exact load_packed_loop_float format (hwf.2 hp) hm k hlen _ _
    · exact ⟨_, rfl⟩
  · rw [if_neg (not_not.2 hp)]
    exact load_unpacked_loop_fatal mem format _ _ _ _ hc

theorem load_parts_not_fatal (mem : HostMemory) (format : vr_format) (fb : ℤ)
    (hwf : well_formed format) (h : ¬ fatal_format format) :
    ∃ r, load_parts mem format fb = Except.ok r := by
  unfold fatal_format at h
  unfold load_parts
  by_cases hp : format.packed_size ≠ 0
  · rw [if_pos hp]
    unfold load_packed_parts
    by_cases hn : 1 ≤ format.n_components
    · have hm : ¬ (format.mode = vr_format_mode.UFLOAT ∨ format.mode = vr_format_mode.SFLOAT) :=
        fun hm => h (Or.inr (Or.inl ⟨hp, hn, hm⟩))
      split_ifs with h8 h16 h32
      · exact load_packed_loop_not_float format (hwf.2 hp) hm _ _ _ (le_refl _)
      · exact load_packed_loop_not_float format (hwf.2 hp) hm _ _ _ (le_refl _)
      · exact load_packed_loop_not_float format (hwf.2 hp) hm _ _ _ (le_refl _)
      · exact absurd (Or.inl ⟨hp, h8, h16, h32⟩) h
    · have h0 : format.n_components = 0 := by omega
      rw [h0]
      split_ifs with h8 h16 h32
      · exact ⟨_, rfl⟩
      · exact ⟨_, rfl⟩
      · exact ⟨_, rfl⟩
      · exact absurd (Or.inl ⟨hp, h8, h16, h32⟩) h
  · rw [if_neg hp]
    apply load_unpacked_loop_not_fatal
    intro c hc hf
    exact h (Or.inr (Or.inr ⟨not_not.1 hp, c, hc, hf⟩))

theorem load_pixel_fatal (mem : HostMemory) (format : vr_format) (fb : ℤ) (pixel : Float4)
    (hwf : well_formed format) (h : fatal_format format) :
    ∃ msg, load_pixel mem format fb pixel = Except.error (Abort.vr_fatal msg) := by
  obtain ⟨msg, hmsg⟩ := load_parts_fatal mem format fb hwf h
  exact ⟨msg, by unfold load_pixel; rw [hmsg]⟩

theorem load_pixel_not_fatal (mem : HostMemory) (format : vr_format) (fb : ℤ) (pixel : Float4)
    (hwf : well_formed format) (h : ¬ fatal_format format) :
    ∃ px, load_pixel mem format fb pixel = Except.ok px := by
  obtain ⟨r, hr⟩ := load_parts_not_fatal mem format fb hwf h
  exact ⟨_, by unfold load_pixel; rw [hr]⟩

theorem load_pixel_error (mem : HostMemory) (format : vr_format) (fb : ℤ) (pixel : Float4)
    (hwf : well_formed format) (e : Abort) (h : load_pixel mem format fb pixel = Except.error e) :
    fatal_format format ∧ ∃ msg, e = Abort.vr_fatal msg := by
  by_cases hf : fatal_format format
  · obtain ⟨msg, hmsg⟩ := load_pixel_fatal mem format fb pixel hwf hf
    rw [hmsg] at h
    injection h with h
    exact ⟨hf, msg, h.symm⟩
  · obtain ⟨px, hpx⟩ := load_pixel_not_fatal mem format fb pixel hwf hf
    rw [hpx] at h
    cases h

theorem probe_row_error (data : test_data) (command : vr_script_command) (n : ℕ)
    (rx ry : ℤ) (color : Float4) (y : ℤ) (hwf : well_formed data.window.framebuffer_format)
    (e : Abort) (r : ℕ) :
    ∀ (x p : ℤ) (w : World), probe_row data command n rx ry color y r x p w = Except.error e →
      fatal_format data.window.framebuffer_format ∧ ∃ msg, e = Abort.vr_fatal msg := by
  induction r with
  | zero => intro x p w h; cases h
  | succ r ih =>
    intro x p w h
    simp only [probe_row] at h
    split at h
    · rename_i e' he'
      injection h with h
      rw [← h]
      exact load_pixel_error _ _ _ _ hwf e' he'
    · split_ifs at h
      exact ih _ _ _ h

theorem probe_rows_error (data : test_data) (command : vr_script_command) (n : ℕ)
    (rx ry rw : ℤ) (color : Float4) (hwf : well_formed data.window.framebuffer_format)
    (e : Abort) (r : ℕ) :
    ∀ (y : ℤ) (w : World), probe_rows data command n rx ry rw color r y w = Except.error e →
      fatal_format data.window.framebuffer_format ∧ ∃ msg, e = Abort.vr_fatal msg := by
  induction r with
  | zero => intro y w h; cases h
  | succ r ih =>
    intro y w h
    simp only [probe_rows] at h
    split at h
    · rename_i e' he'
      injection h with h
      rw [← h]
      exact probe_row_error _ _ _ _ _ _ _ hwf e' _ _ _ _ he'
    · cases h
    · exact ih _ _ h

theorem probe_rect_error (data : test_data) (command : vr_script_command) (n : ℕ)
    (rx ry rw rh : ℤ) (color : Float4) (w : World)
    (hwf : well_formed data.window.framebuffer_format) (e : Abort)
    (h : probe_rect data command n rx ry rw rh color w = Except.error e) :
    fatal_format data.window.framebuffer_format ∧ ∃ msg, e = Abort.vr_fatal msg := by
  unfold probe_rect at h
  simp only [] at h
  split at h
  · rename_i e' he'
    injection h with h
    rw [← h]
    exact probe_rows_error _ _ _ _ _ _ _ hwf e' _ _ _ he'
  · cases h

theorem run_command_error (c : vr_script_command) (d : test_data) (w : World)
    (hwf : well_formed d.window.framebuffer_format) (e : Abort)
    (h : run_command c d w = Except.error e) :
    fatal_format d.window.framebuffer_format ∧ ∃ msg, e = Abort.vr_fatal msg := by
  unfold run_command at h
  cases hop : c.op with
  | PROBE_RECT n x y rw rh color =>
    rw [hop] at h
    exact probe_rect_error _ _ _ _ _ _ _ _ _ hwf e h
  | DRAW_RECT x y rw rh => rw [hop] at h; cases h
  | DRAW_ARRAYS vc ic fv fi => rw [hop] at h; cases h
  | SET_PUSH_CONSTANT o sz => rw [hop] at h; cases h
  | CLEAR_COLOR col => rw [hop] at h; cases h
  | CLEAR => rw [hop] at h; cases h

/-- With a fatal format a probe of a non-empty rectangle aborts at its first
pixel. -/
theorem probe_rect_fatal (data : test_data) (command : vr_script_command) (n : ℕ)
    (rx ry rw rh : ℤ) (color : Float4) (w : World)
    (hwf : well_formed data.window.framebuffer_format)
    (hf : fatal_format data.window.framebuffer_format) (hw : 0 < rw) (hh : 0 < rh) :
    ∃ msg, probe_rect data command n rx ry rw rh color w = Except.error (Abort.vr_fatal msg) := by
  obtain ⟨a, ha⟩ : ∃ a, rw.toNat = a + 1 := ⟨rw.toNat - 1, by omega⟩
  obtain ⟨b, hb⟩ : ∃ b, rh.toNat = b + 1 := ⟨rh.toNat - 1, by omega⟩
  obtain ⟨msg, hmsg⟩ := load_pixel_fatal
    ((end_paint data w).2.linear_memory (end_paint data w).2.calls)
    data.window.framebuffer_format
    (row_start data.window rx ry 0)
    ((end_paint data w).2.stack (end_paint data w).2.loads) hwf hf
  refine ⟨msg, ?_⟩
  unfold probe_rect
  simp only [hb, probe_rows, ha, probe_row, hmsg]

theorem not_decodes_nothing (c : vr_script_command) (h : ¬ decodes_nothing c) :
    ∃ n x y rw rh color, c.op = vr_script_op.PROBE_RECT n x y rw rh color ∧ 0 < rw ∧ 0 < rh := by
  unfold decodes_nothing at h
  cases hop : c.op with
  | PROBE_RECT n x y rw rh color =>
    rw [hop] at h
    simp only [not_or, not_le] at h
    exact ⟨n, x, y, rw, rh, color, rfl, h.1, h.2⟩
  | DRAW_RECT x y rw rh => rw [hop] at h; exact absurd trivial h
  | DRAW_ARRAYS vc ic fv fi => rw [hop] at h; exact absurd trivial h
  | SET_PUSH_CONSTANT o sz => rw [hop] at h; exact absurd trivial h
  | CLEAR_COLOR col => rw [hop] at h; exact absurd trivial h
  | CLEAR => rw [hop] at h; exact absurd trivial h

theorem run_command_fatal (c : vr_script_command) (d : test_data) (w : World)
    (hwf : well_formed d.window.framebuffer_format)
    (hf : fatal_format d.window.framebuffer_format) (hc : ¬ decodes_nothing c) :
    ∃ msg, run_command c d w = Except.error (Abort.vr_fatal msg) := by
  obtain ⟨n, x, y, rw, rh, color, hop, hw, hh⟩ := not_decodes_nothing c hc
  unfold run_command
  rw [hop]
  exact probe_rect_fatal d c n x y rw rh color w hwf hf hw hh

theorem run_commands_fatal (cs : List vr_script_command) :
    ∀ (ret : Bool) (d : test_data) (w : World),
      well_formed d.window.framebuffer_format → fatal_format d.window.framebuffer_format →
      (∃ c ∈ cs, ¬ decodes_nothing c) →
      ∃ msg, run_commands cs ret d w = Except.error (Abort.vr_fatal msg) := by
  induction cs with
  | nil => intro ret d w _ _ h; obtain ⟨c, hc, _⟩ := h; cases hc
  | cons c rest ih =>
    intro ret d w hwf hf h
    simp only [run_commands]
    cases hrun : run_command c d w with
    | error e =>
      obtain ⟨_, msg, hmsg⟩ := run_command_error c d w hwf e hrun
      exact ⟨msg, by rw [hmsg]⟩
    | ok r =>
      have hwin := run_command_window c d w r hrun
      obtain ⟨c', hc', hn⟩ := h
      rcases List.mem_cons.1 hc' with rfl | hr
      · obtain ⟨msg, hmsg⟩ := run_command_fatal c' d w hwf hf hn
        rw [hmsg] at hrun
        cases hrun
      · exact ih _ _ _ (by rw [hwin]; exact hwf) (by rw [hwin]; exact hf) ⟨c', hr, hn⟩

theorem vr_test_run_fatal (window : vr_window) (script : vr_script) (world : World)
    (hwf : well_formed window.framebuffer_format) (hf : fatal_format window.framebuffer_format)
    (h : ∃ c ∈ script.commands, ¬ decodes_nothing c) :
    ∃ msg, vr_test_run window script world = Except.error (Abort.vr_fatal msg) := by
  obtain ⟨msg, hmsg⟩ := run_commands_fatal script.commands
    (if (begin_paint (initial_data window script) world).1 = false then false else true)
    (initial_data window script) (begin_paint (initial_data window script) world).2 hwf hf h
  refine ⟨msg, ?_⟩
  unfold vr_test_run
  simp only [hmsg]

/-- C13: for a format with at most four components, whose components are
narrower than 32 bits when it is packed, and for every pixel, `load_pixel`
ends in `vr_fatal` if and only if the format is one that the specification
lists (`fatal_format`: packed with a packed size other than 8, 16 and 32;
packed with a component and mode UFLOAT or SFLOAT; unpacked with a component
of mode UFLOAT, of mode SFLOAT and width other than 32 and 64, or of another
mode and width outside 8, 16, 32, 64).  Otherwise it returns the four values,
and it never fails an assertion.  With a fatal format a probe of a non-empty
rectangle yields the abort, not a result, and so does the whole run of a
script with such a probe: the fatal decode is not turned into a mismatch
nor into the returned flag. -/
theorem load_pixel_fatal_iff (format : vr_format) (hwf : well_formed format)
    (mem : HostMemory) (fb : ℤ) (pixel : Float4) :
    ((∃ msg, load_pixel mem format fb pixel = Except.error (Abort.vr_fatal msg))
        ↔ fatal_format format)
      ∧ (¬ fatal_format format → ∃ px, load_pixel mem format fb pixel = Except.ok px)
      ∧ load_pixel mem format fb pixel ≠ Except.error Abort.assert_failed
      ∧ (fatal_format format →
          ∀ (data : test_data) (command : vr_script_command) (n : ℕ) (rx ry rw rh : ℤ)
            (color : Float4) (world : World),
            data.window.framebuffer_format = format → 0 < rw → 0 < rh →
            ∃ msg, probe_rect data command n rx ry rw rh color world
              = Except.error (Abort.vr_fatal msg))
      ∧ (fatal_format format →
          ∀ (window : vr_window) (script : vr_script) (world : World),
            window.framebuffer_format = format →
            (∃ c ∈ script.commands, ¬ decodes_nothing c) →
            ∃ msg, vr_test_run window script world = Except.error (Abort.vr_fatal msg)) := by
  refine ⟨⟨?_, ?_⟩, ?_, ?_, ?_, ?_⟩
  · rintro ⟨msg, hmsg⟩
    exact (load_pixel_error mem format fb pixel hwf _ hmsg).1
  · exact load_pixel_fatal mem format fb pixel hwf
  · exact load_pixel_not_fatal mem format fb pixel hwf
  · intro h
    obtain ⟨_, msg, hmsg⟩ := load_pixel_error mem format fb pixel hwf _ h
    cases hmsg
  · intro hf data command n rx ry rw rh color world hfmt hw hh
    exact probe_rect_fatal data command n rx ry rw rh color world (by rw [hfmt]; exact hwf)
      (by rw [hfmt]; exact hf) hw hh
  · intro hf window script world hfmt hc
    exact vr_test_run_fatal window script world (by rw [hfmt]; exact hwf)
      (by rw [hfmt]; exact hf) hc

/-- C13 (witness): half floats are fatal, `B8G8R8A8_UNORM` decodes. -/
theorem load_pixel_fatal_iff_witness :
    (well_formed rgba16_sfloat ∧ fatal_format rgba16_sfloat
        ∧ ∃ msg, load_pixel (bytes_memory []) rgba16_sfloat 0 black
            = Except.error (Abort.vr_fatal msg))
      ∧ (well_formed bgra8_unorm ∧ ¬ fatal_format bgra8_unorm
        ∧ ∃ px, load_pixel (bytes_memory [0, 0, 255, 255]) bgra8_unorm 0 black = Except.ok px) :=
  ⟨⟨by decide, by decide,
      (load_pixel_fatal_iff rgba16_sfloat (by decide) (bytes_memory []) 0 black).1.2 (by decide)⟩,
    ⟨by decide, by decide,
      (load_pixel_fatal_iff bgra8_unorm (by decide) (bytes_memory [0, 0, 255, 255]) 0 black).2.1
        (by decide)⟩⟩

/-! ## Worlds that grow by events of one kind -/

theorem grows_refl (P : Event → Prop) (w : World) : w.grows P w :=
  ⟨rfl, [], by simp, by simp⟩

theorem grows_trans {P : Event → Prop} {w w' w'' : World} (h1 : w.grows P w')
    (h2 : w'.grows P w'') : w.grows P w'' := by
  obtain ⟨ho, evs, ht, hn⟩ := h1
  obtain ⟨ho', evs', ht', hn'⟩ := h2
  refine ⟨ho'.trans ho, evs ++ evs', by rw [ht', ht, List.append_assoc], ?_⟩
  intro e he
  rcases List.mem_append.1 he with h | h
  · exact hn e h
  · exact hn' e h

theorem grows_mono {P Q : Event → Prop} {w w' : World} (hPQ : ∀ e, P e → Q e)
    (h : w.grows P w') : w.grows Q w' := by
  obtain ⟨ho, evs, ht, hn⟩ := h
  exact ⟨ho, evs, ht, fun e he => hPQ e (hn e he)⟩

theorem grows_emit (P : Event → Prop) (w : World) (e : Event) (h : P e) :
    w.grows P (w.emit e) :=
  ⟨rfl, [e], rfl, by simpa using h⟩

theorem grows_call (P : Event → Prop) (w : World) (mk : Bool → Event) (h : ∀ b, P (mk b)) :
    w.grows P (w.call mk).2 :=
  ⟨rfl, [mk (w.outcome w.calls)], rfl, by simpa using h _⟩

theorem since_append (w0 w : World) (evs : List Event) (h : w.trace = w0.trace ++ evs) :
    w.since w0 = evs := by
  simp [World.since, h]

theorem allocate_grows (d : test_data) (size : ℕ) (w : World) :
    w.grows (fun e => e.is_allocation = true) (allocate_test_buffer d size w).2.2 := by
  unfold allocate_test_buffer World.call World.emit
  simp only []
  split_ifs <;>
    exact ⟨rfl, _, by simp only [List.append_assoc]; rfl, by simp [Event.is_allocation]⟩

theorem allocate_vbo (d : test_data) (size : ℕ) (w : World) :
    (allocate_test_buffer d size w).2.1.vbo_buffer = d.vbo_buffer := by
  unfold allocate_test_buffer
  simp only []
  split_ifs <;> rfl

theorem begin_paint_grows (d : test_data) (w : World) :
    w.grows (fun e => e.is_frame = true) (begin_paint d w).2 := by
  obtain ⟨evs, ht, hf⟩ := begin_paint_trace d w
  exact ⟨(begin_paint_frame d w).1, evs, ht, hf⟩

theorem end_paint_grows (d : test_data) (w : World) :
    w.grows (fun e => e.is_frame = true) (end_paint d w).2 := by
  obtain ⟨evs, ht, hf⟩ := end_paint_trace d w
  exact ⟨(end_paint_frame d w).1, evs, ht, hf⟩

theorem probe_row_grows (data : test_data) (command : vr_script_command) (n : ℕ)
    (rx ry : ℤ) (color : Float4) (y : ℤ) (r : ℕ) :
    ∀ (x p : ℤ) (w : World) (m : Bool) (w' : World),
      probe_row data command n rx ry color y r x p w = Except.ok (m, w') →
      w.grows (fun e => e.is_probe_read = true) w' := by
  induction r with
  | zero =>
    intro x p w m w' h
    simp only [probe_row] at h
    injection h with h
    injection h with _ h
    rw [← h]
    exact grows_refl _ _
  | succ r ih =>
    intro x p w m w' h
    simp only [probe_row] at h
    split at h
    · cases h
    · have hload : w.grows (fun e => e.is_probe_read = true)
          (({ w with loads := w.loads + 1 } : World).emit (Event.load_pixel p)) :=
        ⟨rfl, [Event.load_pixel p], rfl, by simp [Event.is_probe_read]⟩
      split_ifs at h
      · injection h with h
        injection h with _ h
        rw [← h]
        exact grows_trans (grows_trans hload
          (grows_emit _ _ (Event.print_command_fail command.line_num) rfl))
          (grows_emit _ _ (Event.print_bad_pixel _ _ _ _ _) rfl)
      · exact grows_trans hload (ih _ _ _ _ _ h)

theorem probe_rows_grows (data : test_data) (command : vr_script_command) (n : ℕ)
    (rx ry rw : ℤ) (color : Float4) (r : ℕ) :
    ∀ (y : ℤ) (w : World) (m : Bool) (w' : World),
      probe_rows data command n rx ry rw color r y w = Except.ok (m, w') →
      w.grows (fun e => e.is_probe_read = true) w' := by
  induction r with
  | zero =>
    intro y w m w' h
    simp only [probe_rows] at h
    injection h with h
    injection h with _ h
    rw [← h]
    exact grows_refl _ _
  | succ r ih =>
    intro y w m w' h
    simp only [probe_rows] at h
    split at h
    · cases h
    · rename_i w1 hrow
      injection h with h
      injection h with _ h
      rw [← h]
      exact probe_row_grows _ _ _ _ _ _ _ _ _ _ _ _ _ hrow
    · rename_i w1 hrow
      exact grows_trans (probe_row_grows _ _ _ _ _ _ _ _ _ _ _ _ _ hrow) (ih _ _ _ _ h)

/-! ## The upload of the vertex data -/

theorem frame_not_upload (e : Event) (h : e.is_frame = true) : e.is_upload = false := by
  cases e <;> first | rfl | cases h

theorem allocation_not_upload (e : Event) (h : e.is_allocation = true) :
    e.is_upload = false := by
  cases e <;> first | rfl | cases h

theorem probe_read_not_upload (e : Event) (h : e.is_probe_read = true) :
    e.is_upload = false := by
  cases e <;> first | rfl | cases h

theorem release_not_upload (e : Event) (h : e.is_release = true) : e.is_upload = false := by
  cases e <;> first | rfl | cases h

theorem uploads_append (w0 w w' : World) (evs : List Event)
    (hpre : ∃ a, w.trace = w0.trace ++ a) (h : w'.trace = w.trace ++ evs) :
    (∃ a, w'.trace = w0.trace ++ a)
      ∧ uploads w0 w' = uploads w0 w ++ evs.filter Event.is_upload := by
  obtain ⟨a, ha⟩ := hpre
  have h' : w'.trace = w0.trace ++ (a ++ evs) := by rw [h, ha, List.append_assoc]
  refine ⟨⟨_, h'⟩, ?_⟩
  unfold uploads
  rw [since_append w0 w' _ h', since_append w0 w _ ha, List.filter_append]

theorem uploads_grows (w0 w w' : World) (hpre : ∃ a, w.trace = w0.trace ++ a)
    (h : w.grows (fun e => e.is_upload = false) w') :
    (∃ a, w'.trace = w0.trace ++ a) ∧ uploads w0 w' = uploads w0 w := by
  obtain ⟨_, evs, ht, hn⟩ := h
  obtain ⟨h1, h2⟩ := uploads_append w0 w w' evs hpre ht
  refine ⟨h1, ?_⟩
  have hnil : evs.filter Event.is_upload = [] := by
    rw [List.filter_eq_nil_iff]
    intro e he
    rw [hn e he]
    exact Bool.false_ne_true
  rw [h2, hnil, List.append_nil]

theorem upload_invariant_grows (w0 : World) (d d' : test_data) (w w' : World)
    (hinv : upload_invariant w0 d w) (h : w.grows (fun e => e.is_upload = false) w')
    (hvbo : d'.vbo_buffer = d.vbo_buffer) (hscript : d'.script = d.script) :
    upload_invariant w0 d' w' := by
  obtain ⟨h1, h2⟩ := uploads_grows w0 w w' hinv.1 h
  refine ⟨h1, ?_⟩
  rw [h2, hinv.2, hvbo, hscript]

theorem draw_rect_uploads (d : test_data) (x y w h : CFloat) (world : World) :
    (draw_rect d x y w h world).2.1.vbo_buffer = d.vbo_buffer
      ∧ (draw_rect d x y w h world).2.1.script = d.script
      ∧ world.grows (fun e => e.is_upload = false) (draw_rect d x y w h world).2.2 := by
  have halloc := grows_mono allocation_not_upload
    (allocate_grows d (sizeof_vr_pipeline_vertex * 6) world)
  unfold draw_rect
  simp only []
  split
  · exact ⟨allocate_vbo _ _ _, (allocate_window _ _ _).2, halloc⟩
  · rename_i buffer _
    refine ⟨allocate_vbo _ _ _, (allocate_window _ _ _).2, ?_⟩
    exact grows_trans (grows_trans (grows_trans (grows_trans halloc
      (grows_emit _ _ (Event.write_vertices buffer.id (rect_vertices x y w h)) rfl))
      (grows_emit _ _ (Event.vr_flush_memory buffer.id) rfl))
      (grows_emit _ _ (Event.vkCmdBindVertexBuffers buffer.id) rfl))
      (grows_emit _ _ (Event.vkCmdDraw 6 1 0 0) rfl)

theorem probe_rect_uploads (data : test_data) (command : vr_script_command) (n : ℕ)
    (rx ry rw rh : ℤ) (color : Float4) (w : World) (r : Bool) (d' : test_data) (w' : World)
    (h : probe_rect data command n rx ry rw rh color w = Except.ok (r, d', w')) :
    d' = data ∧ w.grows (fun e => e.is_upload = false) w' := by
  unfold probe_rect at h
  simp only [] at h
  split at h
  · cases h
  · rename_i m w1 hrows
    injection h with h
    obtain ⟨_, h2⟩ := Prod.mk.inj h
    obtain ⟨hd, hw⟩ := Prod.mk.inj h2
    refine ⟨hd.symm, ?_⟩
    rw [← hw]
    exact grows_trans (grows_trans (grows_mono frame_not_upload (end_paint_grows data w))
      (grows_mono probe_read_not_upload (probe_rows_grows _ _ _ _ _ _ _ _ _ _ _ _ hrows)))
      (grows_mono frame_not_upload (begin_paint_grows data w1))

/-- With a cached vertex buffer `draw_arrays` binds it and draws: nothing is
allocated, nothing is uploaded. -/
theorem draw_arrays_cached (d : test_data) (c : vr_script_command) (vc ic fv fi : ℕ)
    (w : World) (vbo : vr_vbo) (b : test_buffer) (hv : d.script.vertex_data = some vbo)
    (hb : d.vbo_buffer = some b) :
    draw_arrays d c vc ic fv fi w
      = (true, d, (w.emit (Event.vkCmdBindVertexBuffers b.id)).emit
          (Event.vkCmdDraw vc ic fv fi)) := by
  unfold draw_arrays
  simp only [hv, hb]

/-- The first use: when the allocation succeeds the vertex data is copied
into the new buffer and flushed, the buffer is cached, bound and drawn
from. -/
theorem draw_arrays_first (d : test_data) (c : vr_script_command) (vc ic fv fi : ℕ)
    (w : World) (vbo : vr_vbo) (b : test_buffer) (hv : d.script.vertex_data = some vbo)
    (hb : d.vbo_buffer = none)
    (ha : (allocate_test_buffer d (vbo.stride * vbo.num_rows) w).1 = some b) :
    draw_arrays d c vc ic fv fi w
      = (true,
          { (allocate_test_buffer d (vbo.stride * vbo.num_rows) w).2.1 with
            vbo_buffer := some b },
          ((((allocate_test_buffer d (vbo.stride * vbo.num_rows) w).2.2.emit
            (Event.memcpy_vertex_data b.id (vbo.stride * vbo.num_rows))).emit
            (Event.vr_flush_memory b.id)).emit
            (Event.vkCmdBindVertexBuffers b.id)).emit (Event.vkCmdDraw vc ic fv fi)) := by
  unfold draw_arrays
  simp only [hv, hb, ha]

theorem draw_arrays_failed (d : test_data) (c : vr_script_command) (vc ic fv fi : ℕ)
    (w : World) (vbo : vr_vbo) (hv : d.script.vertex_data = some vbo)
    (hb : d.vbo_buffer = none)
    (ha : (allocate_test_buffer d (vbo.stride * vbo.num_rows) w).1 = none) :
    draw_arrays d c vc ic fv fi w
      = (false,
          { (allocate_test_buffer d (vbo.stride * vbo.num_rows) w).2.1 with
            vbo_buffer := none },
          (allocate_test_buffer d (vbo.stride * vbo.num_rows) w).2.2) := by
  unfold draw_arrays
  simp only [hv, hb, ha]

theorem draw_arrays_no_data (d : test_data) (c : vr_script_command) (vc ic fv fi : ℕ)
    (w : World) (hv : d.script.vertex_data = none) :
    draw_arrays d c vc ic fv fi w
      = (false, d, (w.emit (Event.print_command_fail c.line_num)).emit
          (Event.vr_error_message "draw arrays command used with no vertex data section")) := by
  unfold draw_arrays
  simp only [hv]

theorem draw_arrays_upload_invariant (w0 : World) (d : test_data) (c : vr_script_command)
    (vc ic fv fi : ℕ) (w : World) (hinv : upload_invariant w0 d w) :
    upload_invariant w0 (draw_arrays d c vc ic fv fi w).2.1 (draw_arrays d c vc ic fv fi w).2.2
      ∧ (draw_arrays d c vc ic fv fi w).2.1.script = d.script
      ∧ (∀ b, d.vbo_buffer = some b → (draw_arrays d c vc ic fv fi w).2.1.vbo_buffer = some b) := by
  cases hv : d.script.vertex_data with
  | none =>
    rw [draw_arrays_no_data d c vc ic fv fi w hv]
    refine ⟨upload_invariant_grows w0 d d w _ hinv ?_ rfl rfl, rfl, fun b hb => hb⟩
    exact grows_trans (grows_emit _ _ (Event.print_command_fail c.line_num) rfl)
      (grows_emit _ _ (Event.vr_error_message _) rfl)
  | some vbo =>
    cases hb : d.vbo_buffer with
    | some b =>
      rw [draw_arrays_cached d c vc ic fv fi w vbo b hv hb]
      refine ⟨upload_invariant_grows w0 d d w _ hinv ?_ rfl rfl, rfl, fun b' hb' => hb.trans hb'⟩
      exact grows_trans (grows_emit _ _ (Event.vkCmdBindVertexBuffers b.id) rfl)
        (grows_emit _ _ (Event.vkCmdDraw vc ic fv fi) rfl)
    | none =>
      have halloc := grows_mono allocation_not_upload
        (allocate_grows d (vbo.stride * vbo.num_rows) w)
      have hscript := (allocate_window d (vbo.stride * vbo.num_rows) w).2
      cases ha : (allocate_test_buffer d (vbo.stride * vbo.num_rows) w).1 with
      | none =>
        rw [draw_arrays_failed d c vc ic fv fi w vbo hv hb ha]
        refine ⟨upload_invariant_grows w0 d _ w _ hinv halloc ?_ hscript, hscript, ?_⟩
        · exact hb.symm
        · intro b' hb'; cases hb'
      | some b =>
        rw [draw_arrays_first d c vc ic fv fi w vbo b hv hb ha]
        refine ⟨?_, hscript, ?_⟩
        · obtain ⟨h1, h2⟩ := uploads_grows w0 w _ hinv.1 halloc
          obtain ⟨h3, h4⟩ := uploads_append w0 _
            (((((allocate_test_buffer d (vbo.stride * vbo.num_rows) w).2.2.emit
              (Event.memcpy_vertex_data b.id (vbo.stride * vbo.num_rows))).emit
              (Event.vr_flush_memory b.id)).emit
              (Event.vkCmdBindVertexBuffers b.id)).emit (Event.vkCmdDraw vc ic fv fi))
            [Event.memcpy_vertex_data b.id (vbo.stride * vbo.num_rows),
              Event.vr_flush_memory b.id, Event.vkCmdBindVertexBuffers b.id,
              Event.vkCmdDraw vc ic fv fi] h1 (by simp [World.emit])
          refine ⟨h3, ?_⟩
          have hsize : vbo_size (allocate_test_buffer d (vbo.stride * vbo.num_rows) w).2.1.script
              = vbo.stride * vbo.num_rows := by
            unfold vbo_size; rw [hscript, hv]
          have h0 : uploads w0 w = [] := by rw [hinv.2, hb]
          simp only [h4, h2, h0, hsize]
          rfl
        · intro b' hb'; cases hb'

theorem run_command_upload_invariant (w0 : World) (c : vr_script_command) (d : test_data)
    (w : World) (r : Bool) (d' : test_data) (w' : World) (hinv : upload_invariant w0 d w)
    (h : run_command c d w = Except.ok (r, d', w')) :
    upload_invariant w0 d' w' ∧ d'.script = d.script
      ∧ (∀ b, d.vbo_buffer = some b → d'.vbo_buffer = some b)
      ∧ (c.is_draw_arrays = false → d'.vbo_buffer = d.vbo_buffer) := by
  unfold run_command at h
  unfold vr_script_command.is_draw_arrays
  cases hop : c.op with
  | DRAW_RECT x y rw rh =>
    rw [hop] at h
    injection h with h
    obtain ⟨h1, h2, h3⟩ := draw_rect_uploads d x y rw rh w
    rw [h] at h1 h2 h3
    exact ⟨upload_invariant_grows w0 d d' w w' hinv h3 h1 h2, h2, fun b hb => h1.trans hb,
      fun _ => h1⟩
  | DRAW_ARRAYS vc ic fv fi =>
    rw [hop] at h
    injection h with h
    obtain ⟨h1, h2, h3⟩ := draw_arrays_upload_invariant w0 d c vc ic fv fi w hinv
    rw [h] at h1 h2 h3
    exact ⟨h1, h2, h3, fun hf => by cases hf⟩
  | PROBE_RECT n x y rw rh color =>
    rw [hop] at h
    obtain ⟨hd, hg⟩ := probe_rect_uploads d c n x y rw rh color w r d' w' h
    rw [hd]
    exact ⟨upload_invariant_grows w0 d d w w' hinv hg rfl rfl, rfl, fun b hb => hb, fun _ => rfl⟩
  | SET_PUSH_CONSTANT o sz =>
    rw [hop] at h
    injection h with h
    obtain ⟨_, h2⟩ := Prod.mk.inj h
    obtain ⟨hd, hw⟩ := Prod.mk.inj h2
    rw [← hd, ← hw]
    exact ⟨upload_invariant_grows w0 d d w _ hinv
      (grows_emit _ _ (Event.vkCmdPushConstants o sz) rfl) rfl rfl, rfl, fun b hb => hb,
      fun _ => rfl⟩
  | CLEAR_COLOR col =>
    rw [hop] at h
    injection h with h
    obtain ⟨_, h2⟩ := Prod.mk.inj h
    obtain ⟨hd, hw⟩ := Prod.mk.inj h2
    rw [← hd, ← hw]
    exact ⟨upload_invariant_grows w0 d _ w _ hinv (grows_refl _ _) rfl rfl, rfl,
      fun b hb => hb, fun _ => rfl⟩
  | CLEAR =>
    rw [hop] at h
    injection h with h
    obtain ⟨_, h2⟩ := Prod.mk.inj h
    obtain ⟨hd, hw⟩ := Prod.mk.inj h2
    rw [← hd, ← hw]
    exact ⟨upload_invariant_grows w0 d d w _ hinv
      (grows_emit _ _ (Event.vkCmdClearAttachments d.clear_color) rfl) rfl rfl, rfl,
      fun b hb => hb, fun _ => rfl⟩

theorem handler_results_upload_invariant (w0 : World) (cs : List vr_script_command) :
    ∀ (d : test_data) (w : World) (rs : List Bool) (d' : test_data) (w' : World),
      upload_invariant w0 d w → handler_results cs d w = Except.ok (rs, d', w') →
      upload_invariant w0 d' w' ∧ d'.script = d.script
        ∧ (∀ b, d.vbo_buffer = some b → d'.vbo_buffer = some b)
        ∧ ((∀ c ∈ cs, c.is_draw_arrays = false) → d'.vbo_buffer = d.vbo_buffer) := by
  induction cs with
  | nil =>
    intro d w rs d' w' hinv h
    simp only [handler_results] at h
    injection h with h
    obtain ⟨_, h2⟩ := Prod.mk.inj h
    obtain ⟨hd, hw⟩ := Prod.mk.inj h2
    rw [← hd, ← hw]
    exact ⟨hinv, rfl, fun b hb => hb, fun _ => rfl⟩
  | cons c rest ih =>
    intro d w rs d' w' hinv h
    simp only [handler_results] at h
    cases hc : run_command c d w with
    | error e => rw [hc] at h; cases h
    | ok r1 =>
      obtain ⟨r, d1, w1⟩ := r1
      rw [hc] at h
      simp only [] at h
      cases hr : handler_results rest d1 w1 with
      | error e => rw [hr] at h; cases h
      | ok rs1 =>
        obtain ⟨rs', d2, w2⟩ := rs1
        rw [hr] at h
        simp only [] at h
        injection h with h
        obtain ⟨_, h2⟩ := Prod.mk.inj h
        obtain ⟨hd, hw⟩ := Prod.mk.inj h2
        obtain ⟨a1, a2, a3, a4⟩ := run_command_upload_invariant w0 c d w r d1 w1 hinv hc
        obtain ⟨b1, b2, b3, b4⟩ := ih d1 w1 rs' d2 w2 a1 hr
        rw [← hd, ← hw]
        refine ⟨b1, b2.trans a2, fun b hb => b3 b (a3 b hb), fun hall => ?_⟩
        rw [b4 fun c' hc' => hall c' (List.mem_cons_of_mem _ hc'),
          a4 (hall c (List.mem_cons_self _ _))]

theorem handler_results_append_eq (a b : List vr_script_command) :
    ∀ (d : test_data) (w : World),
      handler_results (a ++ b) d w
        = match handler_results a d w with
          | Except.error e => Except.error e
          | Except.ok r1 =>
            match handler_results b r1.2.1 r1.2.2 with
            | Except.error e => Except.error e
            | Except.ok r2 => Except.ok (r1.1 ++ r2.1, r2.2.1, r2.2.2) := by
  induction a with
  | nil =>
    intro d w
    show handler_results b d w = _
    simp only [handler_results]
    cases handler_results b d w <;> rfl
  | cons c rest ih =>
    intro d w
    show handler_results (c :: (rest ++ b)) d w = _
    simp only [handler_results]
    cases hc : run_command c d w with
    | error e => rfl
    | ok r =>
      simp only []
      rw [ih]
      cases handler_results rest r.2.1 r.2.2 with
      | error e => rfl
      | ok r1 =>
        simp only []
        cases handler_results b r1.2.1 r1.2.2 <;> rfl

theorem handler_results_append (a b : List vr_script_command) (d : test_data) (w : World)
    (rs : List Bool) (d' : test_data) (w' : World) :
    handler_results (a ++ b) d w = Except.ok (rs, d', w') ↔
      ∃ rs1 d1 w1 rs2, handler_results a d w = Except.ok (rs1, d1, w1)
        ∧ handler_results b d1 w1 = Except.ok (rs2, d', w') ∧ rs = rs1 ++ rs2 := by
  rw [handler_results_append_eq]
  constructor
  · intro h
    cases ha : handler_results a d w with
    | error e => rw [ha] at h; cases h
    | ok r1 =>
      obtain ⟨rs1, d1, w1⟩ := r1
      rw [ha] at h
      simp only [] at h
      cases hb : handler_results b d1 w1 with
      | error e => rw [hb] at h; cases h
      | ok r2 =>
        obtain ⟨rs2, d2, w2⟩ := r2
        rw [hb] at h
        simp only [] at h
        injection h with h
        obtain ⟨h1, h2⟩ := Prod.mk.inj h
        obtain ⟨hd, hw⟩ := Prod.mk.inj h2
        exact ⟨rs1, d1, w1, rs2, rfl, by rw [← hd, ← hw]; exact hb, h1.symm⟩
  · rintro ⟨rs1, d1, w1, rs2, e1, e2, e3⟩
    rw [e1]
    simp only []
    rw [e2, e3]

theorem handler_results_cons_ok (c : vr_script_command) (rest : List vr_script_command)
    (d : test_data) (w : World) (rs : List Bool) (d' : test_data) (w' : World)
    (h : handler_results (c :: rest) d w = Except.ok (rs, d', w')) :
    ∃ r d1 w1 rs', run_command c d w = Except.ok (r, d1, w1)
      ∧ handler_results rest d1 w1 = Except.ok (rs', d', w') ∧ rs = r :: rs' := by
  simp only [handler_results] at h
  cases hc : run_command c d w with
  | error e => rw [hc] at h; cases h
  | ok r1 =>
    obtain ⟨r, d1, w1⟩ := r1
    rw [hc] at h
    simp only [] at h
    cases hr : handler_results rest d1 w1 with
    | error e => rw [hr] at h; cases h
    | ok rs1 =>
      obtain ⟨rs', d2, w2⟩ := rs1
      rw [hr] at h
      simp only [] at h
      injection h with h
      obtain ⟨h1, h2⟩ := Prod.mk.inj h
      obtain ⟨hd, hw⟩ := Prod.mk.inj h2
      exact ⟨r, d1, w1, rs', rfl, by rw [← hd, ← hw]; exact hr, h1.symm⟩

theorem upload_invariant_start (window : vr_window) (script : vr_script) (world : World) :
    upload_invariant world (initial_data window script)
      (begin_paint (initial_data window script) world).2 := by
  have h0 : upload_invariant world (initial_data window script) world :=
    ⟨⟨[], by simp⟩, by simp [uploads, World.since, initial_data]⟩
  exact upload_invariant_grows world _ _ world _ h0
    (grows_mono frame_not_upload (begin_paint_grows _ world)) rfl rfl

/-- In every state the run reaches, the uploads are those of the invariant. -/
theorem reaches_upload_invariant (window : vr_window) (script : vr_script) (world : World)
    (pre : List vr_script_command) (d : test_data) (w : World)
    (h : reaches window script world pre d w) :
    upload_invariant world d w ∧ d.script = script
      ∧ ((∀ c ∈ pre, c.is_draw_arrays = false) → d.vbo_buffer = none) := by
  obtain ⟨_, rs, hrs⟩ := h
  obtain ⟨h1, h2, _, h4⟩ := handler_results_upload_invariant world pre _ _ rs d w
    (upload_invariant_start window script world) hrs
  exact ⟨h1, h2, h4⟩

theorem upload_invariant_length (w0 : World) (d : test_data) (w : World)
    (h : upload_invariant w0 d w) : (uploads w0 w).length ≤ 1 := by
  rw [h.2]
  cases d.vbo_buffer <;> simp

theorem free_test_buffer_grows (d : test_data) (b : test_buffer) (w : World) :
    w.grows (fun e => e.is_release = true) (free_test_buffer d b w).2 := by
  refine ⟨?_, release_events b, (free_test_buffer_spec d b w).1, ?_⟩
  · unfold free_test_buffer World.emit
    rcases b with ⟨id, b1, b2, b3⟩
    cases b1 <;> cases b2 <;> cases b3 <;> simp
  · intro e he
    rcases b with ⟨id, b1, b2, b3⟩
    cases b1 <;> cases b2 <;> cases b3 <;> simp [release_events] at he <;>
      (rcases he with rfl | rfl | rfl | rfl <;> rfl)

theorem free_all_buffers_grows (l : List test_buffer) :
    ∀ (d : test_data) (w : World),
      w.grows (fun e => e.is_release = true) (free_all_buffers l d w).2 := by
  induction l with
  | nil => intro d w; exact grows_refl _ _
  | cons b rest ih =>
    intro d w
    simp only [free_all_buffers]
    exact grows_trans (free_test_buffer_grows d b w) (ih _ _)

/-- A run that returns has run every handler, then `end_paint` and the
release of the buffers. -/
theorem vr_test_run_ok (window : vr_window) (script : vr_script) (world : World) (r : Bool)
    (dF : test_data) (wF : World)
    (h : vr_test_run window script world = Except.ok (r, dF, wF)) :
    ∃ rs d w, handler_results script.commands (initial_data window script)
        (begin_paint (initial_data window script) world).2 = Except.ok (rs, d, w)
      ∧ wF = (free_all_buffers d.buffers d (end_paint d w).2).2 := by
  unfold vr_test_run at h
  simp only [] at h
  rw [run_commands_eq] at h
  cases hr : handler_results script.commands (initial_data window script)
      (begin_paint (initial_data window script) world).2 with
  | error e => rw [hr] at h; cases h
  | ok rs1 =>
    obtain ⟨rs, d, w⟩ := rs1
    rw [hr] at h
    simp only [] at h
    injection h with h
    obtain ⟨_, h2⟩ := Prod.mk.inj h
    obtain ⟨_, hw⟩ := Prod.mk.inj h2
    exact ⟨rs, d, w, rfl, hw.symm⟩

theorem reaches_extend (window : vr_window) (script : vr_script) (world : World)
    (pre : List vr_script_command) (c : vr_script_command) (mid : List vr_script_command)
    (d d' : test_data) (w w' : World) (h : reaches window script world pre d w)
    (h' : reaches window script world (pre ++ c :: mid) d' w') :
    ∃ r d1 w1 rs, run_command c d w = Except.ok (r, d1, w1)
      ∧ handler_results mid d1 w1 = Except.ok (rs, d', w') := by
  obtain ⟨_, rs, hrs⟩ := h
  obtain ⟨_, rs', hrs'⟩ := h'
  obtain ⟨rs1, d1, w1, rs2, e1, e2, _⟩ := (handler_results_append _ _ _ _ _ _ _).1 hrs'
  rw [hrs] at e1
  injection e1 with e1
  obtain ⟨_, e12⟩ := Prod.mk.inj e1
  obtain ⟨hd, hw⟩ := Prod.mk.inj e12
  rw [← hd, ← hw] at e2
  obtain ⟨r, d2, w2, rs3, f1, f2, _⟩ := handler_results_cons_ok _ _ _ _ _ _ _ e2
  exact ⟨r, d2, w2, rs3, f1, f2⟩

/-- After an upload into `buffer`, every later state of the run has that one
upload and the buffer cached. -/
theorem reaches_after_upload (window : vr_window) (script : vr_script) (world : World)
    (pre : List vr_script_command) (c : vr_script_command) (mid : List vr_script_command)
    (d d' : test_data) (w w' : World) (buffer : test_buffer)
    (h : reaches window script world pre d w)
    (h' : reaches window script world (pre ++ c :: mid) d' w')
    (hc : ∀ r d1 w1, run_command c d w = Except.ok (r, d1, w1) →
      d1.vbo_buffer = some buffer) :
    uploads world w' = [Event.memcpy_vertex_data buffer.id (vbo_size script)]
      ∧ d'.vbo_buffer = some buffer ∧ d'.script = script := by
  obtain ⟨r, d1, w1, rs, f1, f2⟩ := reaches_extend window script world pre c mid d d' w w' h h'
  have hinv1 := (run_command_upload_invariant world c d w r d1 w1
    (reaches_upload_invariant window script world pre d w h).1 f1).1
  have hb := (handler_results_upload_invariant world mid d1 w1 rs d' w' hinv1 f2).2.2.1 buffer
    (hc r d1 w1 f1)
  obtain ⟨hinv, hscript, _⟩ := reaches_upload_invariant window script world _ d' w' h'
  refine ⟨?_, hb, hscript⟩
  rw [hinv.2, hb, hscript]

theorem end_release_uploads (world : World) (d : test_data) (w : World)
    (hpre : ∃ a, w.trace = world.trace ++ a) :
    uploads world (free_all_buffers d.buffers d (end_paint d w).2).2 = uploads world w := by
  obtain ⟨h1, h2⟩ := uploads_grows world w _ hpre
    (grows_mono frame_not_upload (end_paint_grows d w))
  obtain ⟨_, h4⟩ := uploads_grows world _ _ h1
    (grows_mono release_not_upload (free_all_buffers_grows d.buffers d (end_paint d w).2))
  rw [h4, h2]

/-- C12: for a script with external vertex data and every run of it, the
vertex data is uploaded at most once: in every state the run reaches, and at
the end of a run that returns, the trace holds at most one copy of the
vertex data.  When the run reaches the first draw-arrays command of the
script and the allocation of its buffer succeeds, that command copies the
vertex data into the new buffer, flushes it, binds it and draws; from then
on every state of the run holds exactly that one upload with the buffer
cached, a draw-arrays command run from such a state only binds the cached
buffer and draws (no allocation, no copy), and a run that returns ends with
exactly that one upload.  In particular when the next command is also a
draw-arrays command the state after the two of them is reached and holds
exactly one upload. -/
theorem draw_arrays_uploads_once (window : vr_window) (script : vr_script) (world : World)
    (vbo : vr_vbo) (hvbo : script.vertex_data = some vbo) :
    (∀ pre d w, reaches window script world pre d w → (uploads world w).length ≤ 1)
      ∧ (∀ r d w, vr_test_run window script world = Except.ok (r, d, w) →
          (uploads world w).length ≤ 1)
      ∧ (∀ pre c post vc ic fv fi d w buffer,
          script.commands = pre ++ c :: post →
          c.op = vr_script_op.DRAW_ARRAYS vc ic fv fi →
          (∀ c' ∈ pre, c'.is_draw_arrays = false) →
          reaches window script world pre d w →
          (allocate_test_buffer d (vbo.stride * vbo.num_rows) w).1 = some buffer →
          (∃ d1 w1, run_command c d w = Except.ok (true, d1, w1)
              ∧ d1.vbo_buffer = some buffer
              ∧ w1.trace = (allocate_test_buffer d (vbo.stride * vbo.num_rows) w).2.2.trace
                  ++ [Event.memcpy_vertex_data buffer.id (vbo.stride * vbo.num_rows),
                      Event.vr_flush_memory buffer.id, Event.vkCmdBindVertexBuffers buffer.id,
                      Event.vkCmdDraw vc ic fv fi])
            ∧ (∀ mid d' w', reaches window script world (pre ++ c :: mid) d' w' →
                uploads world w'
                    = [Event.memcpy_vertex_data buffer.id (vbo.stride * vbo.num_rows)]
                  ∧ d'.vbo_buffer = some buffer
                  ∧ ∀ c' vc' ic' fv' fi', c'.op = vr_script_op.DRAW_ARRAYS vc' ic' fv' fi' →
                      run_command c' d' w'
                        = Except.ok (true, d',
                            (w'.emit (Event.vkCmdBindVertexBuffers buffer.id)).emit
                              (Event.vkCmdDraw vc' ic' fv' fi')))
            ∧ (∀ r dF wF, vr_test_run window script world = Except.ok (r, dF, wF) →
                uploads world wF
                  = [Event.memcpy_vertex_data buffer.id (vbo.stride * vbo.num_rows)])
            ∧ (∀ c2 rest vc2 ic2 fv2 fi2, post = c2 :: rest →
                c2.op = vr_script_op.DRAW_ARRAYS vc2 ic2 fv2 fi2 →
                ∃ d2 w2, reaches window script world (pre ++ [c, c2]) d2 w2
                  ∧ uploads world w2
                    = [Event.memcpy_vertex_data buffer.id (vbo.stride * vbo.num_rows)])) := by
  have hsize : vbo_size script = vbo.stride * vbo.num_rows := by
    unfold vbo_size; rw [hvbo]
  have hfinal : ∀ r dF wF, vr_test_run window script world = Except.ok (r, dF, wF) →
      ∃ d w, reaches window script world script.commands d w
        ∧ uploads world wF = uploads world w := by
    intro r dF wF hrun
    obtain ⟨rs, d, w, hres, hw⟩ := vr_test_run_ok window script world r dF wF hrun
    have hreach : reaches window script world script.commands d w :=
      ⟨⟨[], by simp⟩, rs, hres⟩
    refine ⟨d, w, hreach, ?_⟩
    rw [hw]
    exact end_release_uploads world d w
      (reaches_upload_invariant window script world _ d w hreach).1.1
  refine ⟨?_, ?_, ?_⟩
  · intro pre d w h
    exact upload_invariant_length world d w
      (reaches_upload_invariant window script world pre d w h).1
  · intro r dF wF hrun
    obtain ⟨d, w, hreach, hup⟩ := hfinal r dF wF hrun
    rw [hup]
    exact upload_invariant_length world d w
      (reaches_upload_invariant window script world _ d w hreach).1
  · intro pre c post vc ic fv fi d w buffer hcmds hop hpre hreach halloc
    obtain ⟨_, hscript, hnone⟩ := reaches_upload_invariant window script world pre d w hreach
    have hv : d.script.vertex_data = some vbo := by rw [hscript]; exact hvbo
    have hfirst := draw_arrays_first d c vc ic fv fi w vbo buffer hv (hnone hpre) halloc
    have hrun : run_command c d w = Except.ok (draw_arrays d c vc ic fv fi w) := by
      unfold run_command; rw [hop]
    have hc : ∀ r d1 w1, run_command c d w = Except.ok (r, d1, w1) →
        d1.vbo_buffer = some buffer := by
      intro r d1 w1 h
      rw [hrun, hfirst] at h
      injection h with h
      obtain ⟨_, h2⟩ := Prod.mk.inj h
      obtain ⟨hd, _⟩ := Prod.mk.inj h2
      rw [← hd]
    have hlater : ∀ mid d' w', reaches window script world (pre ++ c :: mid) d' w' →
        uploads world w' = [Event.memcpy_vertex_data buffer.id (vbo.stride * vbo.num_rows)]
          ∧ d'.vbo_buffer = some buffer ∧ d'.script = script := by
      intro mid d' w' h'
      have h := reaches_after_upload window script world pre c mid d d' w w' buffer hreach h' hc
      rw [hsize] at h
      exact h
    refine ⟨?_, ?_, ?_, ?_⟩
    · rw [hrun, hfirst]
      exact ⟨_, _, rfl, rfl, by simp [World.emit]⟩
    · intro mid d' w' h'
      obtain ⟨h1, h2, h3⟩ := hlater mid d' w' h'
      refine ⟨h1, h2, ?_⟩
      intro c' vc' ic' fv' fi' hop'
      unfold run_command
      rw [hop']
      simp only []
      rw [draw_arrays_cached d' c' vc' ic' fv' fi' w' vbo buffer (by rw [h3]; exact hvbo) h2]
    · intro r dF wF hfin
      obtain ⟨d', w', hreach', hup⟩ := hfinal r dF wF hfin
      rw [hcmds] at hreach'
      rw [hup]
      exact (hlater post d' w' hreach').1
    · intro c2 rest vc2 ic2 fv2 fi2 hpost hop2
      obtain ⟨_, rs, hrs⟩ := hreach
      have hrun1 : run_command c d w = Except.ok (true,
          (draw_arrays d c vc ic fv fi w).2.1, (draw_arrays d c vc ic fv fi w).2.2) := by
        rw [hrun, hfirst]
      have hreach1 : reaches window script world (pre ++ c :: [])
          (draw_arrays d c vc ic fv fi w).2.1 (draw_arrays d c vc ic fv fi w).2.2 := by
        refine ⟨⟨post, by rw [hcmds]; simp⟩, rs ++ [true], ?_⟩
        rw [handler_results_append]
        refine ⟨rs, d, w, [true], hrs, ?_, rfl⟩
        simp only [handler_results, hrun1]
      obtain ⟨_, hb1, hs1⟩ := hlater [] _ _ hreach1
      have hrun2 : run_command c2 (draw_arrays d c vc ic fv fi w).2.1
          (draw_arrays d c vc ic fv fi w).2.2
          = Except.ok (true, (draw_arrays d c vc ic fv fi w).2.1,
              ((draw_arrays d c vc ic fv fi w).2.2.emit
                (Event.vkCmdBindVertexBuffers buffer.id)).emit
                (Event.vkCmdDraw vc2 ic2 fv2 fi2)) := by
        unfold run_command
        rw [hop2]
        simp only []
        rw [draw_arrays_cached _ c2 vc2 ic2 fv2 fi2 _ vbo buffer (by rw [hs1]; exact hvbo) hb1]
      have hreach2 : reaches window script world (pre ++ [c, c2])
          (draw_arrays d c vc ic fv fi w).2.1
          (((draw_arrays d c vc ic fv fi w).2.2.emit
            (Event.vkCmdBindVertexBuffers buffer.id)).emit
            (Event.vkCmdDraw vc2 ic2 fv2 fi2)) := by
        refine ⟨⟨rest, by rw [hcmds, hpost]; simp⟩, rs ++ [true, true], ?_⟩
        rw [handler_results_append]
        refine ⟨rs, d, w, [true, true], hrs, ?_, rfl⟩
        simp only [handler_results, hrun1, hrun2]
      exact ⟨_, _, hreach2, (hlater [c2] _ _ hreach2).1⟩

/-- C12 (witness): the script `draw arrays; draw arrays` on a device where
every call succeeds: the state after the two commands holds one upload, into
the buffer of the first allocation. -/
theorem draw_arrays_uploads_once_witness :
    arrays_script.vertex_data = some triangle_vbo
      ∧ ∃ d2 w2, reaches bgra_window arrays_script (steady_world [])
            ([] ++ [⟨1, vr_script_op.DRAW_ARRAYS 3 1 0 0⟩, ⟨2, vr_script_op.DRAW_ARRAYS 3 1 0 0⟩])
            d2 w2
          ∧ uploads (steady_world []) w2 = [Event.memcpy_vertex_data 0 48] :=
  ⟨rfl, (draw_arrays_uploads_once bgra_window arrays_script (steady_world []) triangle_vbo
      rfl).2.2 [] ⟨1, vr_script_op.DRAW_ARRAYS 3 1 0 0⟩ [⟨2, vr_script_op.DRAW_ARRAYS 3 1 0 0⟩]
      3 1 0 0 (initial_data bgra_window arrays_script)
      (begin_paint (initial_data bgra_window arrays_script) (steady_world [])).2
      ⟨0, true, true, true⟩ rfl rfl (by simp) ⟨⟨_, rfl⟩, [], rfl⟩ (by decide)
      |>.2.2.2 ⟨2, vr_script_op.DRAW_ARRAYS 3 1 0 0⟩ [] 3 1 0 0 rfl rfl⟩

/-! ## The frame automaton -/

theorem frame_run_append (a b : List Event) :
    ∀ s, frame_run s (a ++ b)
      = match frame_run s a with
        | none => none
        | some r1 =>
          match frame_run r1.1 b with
          | none => none
          | some r2 => some (r2.1, r1.2 ++ r2.2) := by
  induction a with
  | nil =>
    intro s
    show frame_run s b = _
    simp only [frame_run]
    cases frame_run s b <;> rfl
  | cons e rest ih =>
    intro s
    show frame_run s (e :: (rest ++ b)) = _
    simp only [frame_run]
    cases frame_step s e with
    | none => rfl
    | some s' =>
      simp only []
      rw [ih]
      cases frame_run s' rest with
      | none => rfl
      | some r1 =>
        simp only []
        cases frame_run r1.1 b with
        | none => rfl
        | some r2 => simp only [List.append_assoc]

theorem frame_run_append_some (a b : List Event) (s s1 s2 : frame_state)
    (l1 l2 : List frame_state) (ha : frame_run s a = some (s1, l1))
    (hb : frame_run s1 b = some (s2, l2)) :
    frame_run s (a ++ b) = some (s2, l1 ++ l2) := by
  rw [frame_run_append, ha]
  simp only []
  rw [hb]

theorem entered_self (s : frame_state) : entered s s = [] := by
  simp [entered]

theorem frame_run_stay (s : frame_state) (evs : List Event)
    (h : ∀ e ∈ evs, frame_step s e = some s) : frame_run s evs = some (s, []) := by
  induction evs with
  | nil => rfl
  | cons e rest ih =>
    simp only [frame_run, h e (List.mem_cons_self _ _),
      ih fun e' he' => h e' (List.mem_cons_of_mem _ he'), entered_self, List.append_nil]

theorem frame_run_begin :
    frame_run frame_state.Ended begin_paint_steps
      = some (frame_state.Recording, [frame_state.Recording]) := by
  decide

theorem frame_run_end (invalidate : Bool) :
    frame_run frame_state.Recording (end_paint_steps invalidate)
      = some (frame_state.Ended, [frame_state.Ended]) := by
  cases invalidate <;> decide

theorem host_recording (e : Event) (h : e.is_host = true) :
    frame_step frame_state.Recording e = some frame_state.Recording := by
  cases e <;> first | rfl | cases h

theorem host_ended (e : Event) (h : e.is_host = true) :
    frame_step frame_state.Ended e = some frame_state.Ended := by
  cases e <;> first | rfl | cases h

theorem draw_command_recording (e : Event) (h : e.is_draw_command = true) :
    frame_step frame_state.Recording e = some frame_state.Recording := by
  cases e <;> first | rfl | cases h

theorem allocation_recording (e : Event) (h : e.is_allocation = true) :
    frame_step frame_state.Recording e = some frame_state.Recording := by
  cases e <;> first | rfl | cases h

theorem probe_read_ended (e : Event) (h : e.is_probe_read = true) :
    frame_step frame_state.Ended e = some frame_state.Ended := by
  cases e <;> first | rfl | cases h

theorem release_ended (e : Event) (h : e.is_release = true) :
    frame_step frame_state.Ended e = some frame_state.Ended := by
  cases e <;> first | rfl | cases h

/-- A draw command is accepted in `Recording` only. -/
theorem draw_command_state (s s' : frame_state) (e : Event) (h : e.is_draw_command = true)
    (hstep : frame_step s e = some s') : s = frame_state.Recording := by
  cases s <;> cases e <;> first | rfl | (cases h; done) | cases hstep

/-- A pixel read is accepted in `Ended` only. -/
theorem load_pixel_state (s s' : frame_state) (p : ℤ)
    (hstep : frame_step s (Event.load_pixel p) = some s') : s = frame_state.Ended := by
  cases s <;> first | rfl | cases hstep

/-- In an accepted trace every event is accepted in the state its
predecessors lead to. -/
theorem frame_run_split (pre : List Event) (e : Event) (post : List Event) (s : frame_state)
    (r : frame_state × List frame_state) (h : frame_run s (pre ++ e :: post) = some r) :
    ∃ s1 l1 s2, frame_run s pre = some (s1, l1) ∧ frame_step s1 e = some s2 := by
  rw [frame_run_append] at h
  cases hpre : frame_run s pre with
  | none => rw [hpre] at h; cases h
  | some r1 =>
    rw [hpre] at h
    simp only [frame_run] at h
    cases hstep : frame_step r1.1 e with
    | none => rw [hstep] at h; cases h
    | some s2 => exact ⟨r1.1, r1.2, s2, rfl, hstep⟩

theorem frames_trans {s s1 s2 : frame_state} {l1 l2 : List frame_state} {w w1 w2 : World}
    (h1 : World.frames s l1 s1 w w1) (h2 : World.frames s1 l2 s2 w1 w2) :
    World.frames s (l1 ++ l2) s2 w w2 := by
  obtain ⟨ho, evs, ht, hr⟩ := h1
  obtain ⟨ho', evs', ht', hr'⟩ := h2
  exact ⟨ho'.trans ho, evs ++ evs', by rw [ht', ht, List.append_assoc],
    frame_run_append_some evs evs' s s1 s2 l1 l2 hr hr'⟩

theorem frames_of_grows (s : frame_state) (w w' : World)
    (h : w.grows (fun e => frame_step s e = some s) w') : World.frames s [] s w w' := by
  obtain ⟨ho, evs, ht, hn⟩ := h
  exact ⟨ho, evs, ht, frame_run_stay s evs hn⟩

theorem begin_paint_steady (d : test_data) (w : World) (h : w.steady) :
    (begin_paint d w).1 = true
      ∧ (begin_paint d w).2.trace = w.trace ++ begin_paint_steps
      ∧ (begin_paint d w).2.outcome = w.outcome := by
  unfold begin_paint World.call World.emit begin_paint_steps
  simp [h w.calls]

theorem end_paint_steady (d : test_data) (w : World) (h : w.steady) :
    (end_paint d w).1 = true
      ∧ (end_paint d w).2.trace
          = w.trace ++ end_paint_steps d.window.need_linear_memory_invalidate
      ∧ (end_paint d w).2.outcome = w.outcome := by
  unfold end_paint World.call World.emit end_paint_steps
  cases hinv : d.window.need_linear_memory_invalidate <;>
    simp [h w.calls, h (w.calls + 1), h (w.calls + 1 + 1), hinv]

theorem begin_paint_frames (d : test_data) (w : World) (h : w.steady) :
    World.frames frame_state.Ended [frame_state.Recording] frame_state.Recording w
      (begin_paint d w).2 := by
  obtain ⟨_, ht, ho⟩ := begin_paint_steady d w h
  exact ⟨ho, _, ht, frame_run_begin⟩

theorem end_paint_frames (d : test_data) (w : World) (h : w.steady) :
    World.frames frame_state.Recording [frame_state.Ended] frame_state.Ended w
      (end_paint d w).2 := by
  obtain ⟨_, ht, ho⟩ := end_paint_steady d w h
  exact ⟨ho, _, ht, frame_run_end _⟩

theorem steady_of_outcome {w w' : World} (h : w.steady) (ho : w'.outcome = w.outcome) :
    w'.steady := by
  intro k
  rw [ho]
  exact h k

theorem draw_rect_frames (d : test_data) (x y w h : CFloat) (world : World) :
    World.frames frame_state.Recording [] frame_state.Recording world
      (draw_rect d x y w h world).2.2 := by
  apply frames_of_grows
  have halloc := grows_mono allocation_recording
    (allocate_grows d (sizeof_vr_pipeline_vertex * 6) world)
  unfold draw_rect
  simp only []
  split
  · exact halloc
  · rename_i buffer _
    exact grows_trans (grows_trans (grows_trans (grows_trans halloc
      (grows_emit _ _ (Event.write_vertices buffer.id (rect_vertices x y w h)) rfl))
      (grows_emit _ _ (Event.vr_flush_memory buffer.id) rfl))
      (grows_emit _ _ (Event.vkCmdBindVertexBuffers buffer.id) rfl))
      (grows_emit _ _ (Event.vkCmdDraw 6 1 0 0) rfl)

theorem draw_arrays_frames (d : test_data) (c : vr_script_command) (vc ic fv fi : ℕ)
    (w : World) :
    World.frames frame_state.Recording [] frame_state.Recording w
      (draw_arrays d c vc ic fv fi w).2.2 := by
  apply frames_of_grows
  cases hv : d.script.vertex_data with
  | none =>
    rw [draw_arrays_no_data d c vc ic fv fi w hv]
    exact grows_trans (grows_emit _ _ (Event.print_command_fail c.line_num) rfl)
      (grows_emit _ _ (Event.vr_error_message _) rfl)
  | some vbo =>
    cases hb : d.vbo_buffer with
    | some b =>
      rw [draw_arrays_cached d c vc ic fv fi w vbo b hv hb]
      exact grows_trans (grows_emit _ _ (Event.vkCmdBindVertexBuffers b.id) rfl)
        (grows_emit _ _ (Event.vkCmdDraw vc ic fv fi) rfl)
    | none =>
      have halloc := grows_mono allocation_recording
        (allocate_grows d (vbo.stride * vbo.num_rows) w)
      cases ha : (allocate_test_buffer d (vbo.stride * vbo.num_rows) w).1 with
      | none =>
        rw [draw_arrays_failed d c vc ic fv fi w vbo hv hb ha]
        exact halloc
      | some b =>
        rw [draw_arrays_first d c vc ic fv fi w vbo b hv hb ha]
        exact grows_trans (grows_trans (grows_trans (grows_trans halloc
          (grows_emit _ _ (Event.memcpy_vertex_data b.id (vbo.stride * vbo.num_rows)) rfl))
          (grows_emit _ _ (Event.vr_flush_memory b.id) rfl))
          (grows_emit _ _ (Event.vkCmdBindVertexBuffers b.id) rfl))
          (grows_emit _ _ (Event.vkCmdDraw vc ic fv fi) rfl)

/-- A probe ends the frame, reads its pixels and begins the frame again,
whether the pixels match or not. -/
theorem probe_rect_frames (data : test_data) (command : vr_script_command) (n : ℕ)
    (rx ry rw rh : ℤ) (color : Float4) (w : World) (hs : w.steady) (r : Bool)
    (d' : test_data) (w' : World)
    (h : probe_rect data command n rx ry rw rh color w = Except.ok (r, d', w')) :
    World.frames frame_state.Recording [frame_state.Ended, frame_state.Recording]
      frame_state.Recording w w' := by
  unfold probe_rect at h
  simp only [] at h
  split at h
  · cases h
  · rename_i m w1 hrows
    injection h with h
    obtain ⟨_, h2⟩ := Prod.mk.inj h
    obtain ⟨_, hw⟩ := Prod.mk.inj h2
    rw [← hw]
    have h1 := end_paint_frames data w hs
    have h2 := frames_of_grows frame_state.Ended _ _
      (grows_mono probe_read_ended (probe_rows_grows _ _ _ _ _ _ _ _ _ _ _ _ hrows))
    have hs1 : w1.steady := steady_of_outcome hs (h2.1.trans h1.1)
    exact frames_trans (frames_trans h1 h2) (begin_paint_frames data w1 hs1)

theorem run_command_frames (c : vr_script_command) (d : test_data) (w : World) (hs : w.steady)
    (r : Bool) (d' : test_data) (w' : World) (h : run_command c d w = Except.ok (r, d', w')) :
    World.frames frame_state.Recording (command_states c) frame_state.Recording w w' := by
  unfold run_command at h
  unfold command_states vr_script_command.is_probe_rect
  cases hop : c.op with
  | DRAW_RECT x y rw rh =>
    rw [hop] at h
    injection h with h
    have h1 := draw_rect_frames d x y rw rh w
    rw [h] at h1
    exact h1
  | DRAW_ARRAYS vc ic fv fi =>
    rw [hop] at h
    injection h with h
    have h1 := draw_arrays_frames d c vc ic fv fi w
    rw [h] at h1
    exact h1
  | PROBE_RECT n x y rw rh color =>
    rw [hop] at h
    exact probe_rect_frames d c n x y rw rh color w hs r d' w' h
  | SET_PUSH_CONSTANT o sz =>
    rw [hop] at h
    injection h with h
    obtain ⟨_, h2⟩ := Prod.mk.inj h
    obtain ⟨_, hw⟩ := Prod.mk.inj h2
    rw [← hw]
    exact frames_of_grows _ _ _ (grows_emit _ _ (Event.vkCmdPushConstants o sz) rfl)
  | CLEAR_COLOR col =>
    rw [hop] at h
    injection h with h
    obtain ⟨_, h2⟩ := Prod.mk.inj h
    obtain ⟨_, hw⟩ := Prod.mk.inj h2
    rw [← hw]
    exact frames_of_grows _ _ _ (grows_refl _ _)
  | CLEAR =>
    rw [hop] at h
    injection h with h
    obtain ⟨_, h2⟩ := Prod.mk.inj h
    obtain ⟨_, hw⟩ := Prod.mk.inj h2
    rw [← hw]
    exact frames_of_grows _ _ _ (grows_emit _ _ (Event.vkCmdClearAttachments d.clear_color) rfl)

theorem command_states_count (c : vr_script_command) (rest : List vr_script_command) :
    command_states c ++ ended_recording (rest.countP vr_script_command.is_probe_rect)
      = ended_recording ((c :: rest).countP vr_script_command.is_probe_rect) := by
  rw [List.countP_cons]
  unfold command_states
  cases c.is_probe_rect <;> simp [ended_recording]

theorem handler_results_frames (cs : List vr_script_command) :
    ∀ (d : test_data) (w : World) (rs : List Bool) (d' : test_data) (w' : World),
      w.steady → handler_results cs d w = Except.ok (rs, d', w') →
      World.frames frame_state.Recording
        (ended_recording (cs.countP vr_script_command.is_probe_rect)) frame_state.Recording
        w w' := by
  induction cs with
  | nil =>
    intro d w rs d' w' _ h
    simp only [handler_results] at h
    injection h with h
    obtain ⟨_, h2⟩ := Prod.mk.inj h
    obtain ⟨_, hw⟩ := Prod.mk.inj h2
    rw [← hw]
    exact ⟨rfl, [], by simp, rfl⟩
  | cons c rest ih =>
    intro d w rs d' w' hs h
    obtain ⟨r, d1, w1, rs', h1, h2, _⟩ := handler_results_cons_ok c rest d w rs d' w' h
    have f1 := run_command_frames c d w hs r d1 w1 h1
    have f2 := ih d1 w1 rs' d' w' (steady_of_outcome hs f1.1) h2
    rw [← command_states_count]
    exact frames_trans f1 f2

theorem handlers_then_end (window : vr_window) (script : vr_script) (world : World)
    (rs : List Bool) (d : test_data) (w : World)
    (h : handler_results script.commands (initial_data window script)
      (begin_paint (initial_data window script) world).2 = Except.ok (rs, d, w)) :
    ∃ r dF, vr_test_run window script world
      = Except.ok (r, dF, (free_all_buffers d.buffers d (end_paint d w).2).2) := by
  unfold vr_test_run
  simp only []
  rw [run_commands_eq, h]
  exact ⟨_, _, rfl⟩

theorem handler_results_data (cs : List vr_script_command) :
    ∀ (d : test_data) (w : World) (rs : List Bool) (d' : test_data) (w' : World),
      handler_results cs d w = Except.ok (rs, d', w') → d'.window = d.window := by
  induction cs with
  | nil =>
    intro d w rs d' w' h
    simp only [handler_results] at h
    injection h with h
    obtain ⟨_, h2⟩ := Prod.mk.inj h
    obtain ⟨hd, _⟩ := Prod.mk.inj h2
    rw [← hd]
  | cons c rest ih =>
    intro d w rs d' w' h
    obtain ⟨r, d1, w1, rs', h1, h2, _⟩ := handler_results_cons_ok c rest d w rs d' w' h
    rw [ih d1 w1 rs' d' w' h2]
    exact run_command_window c d w _ h1

/-- C14 (amended): for every script, in a run whose device calls all succeed
and whose framebuffer format decodes (or in which no probe has a pixel to
decode), `vr_test_run` returns and its trace is: the steps of `begin_paint`,
the events of the handlers, the steps of `end_paint`, the release of the
buffers.  The frame automaton accepts this trace from `Ended` to `Ended` and
the states entered are `Recording (Ended Recording)^k Ended`, `k` being the
number of probe-rect commands: begin and end alternate strictly, with a
begin before the first command and an end after the last.  Every draw, clear
and push-constant device command is issued in the state `Recording` and every
pixel read in the state `Ended`.  The handler of each command runs from
`Recording` to `Recording`; the one of a probe-rect command enters `Ended`
then `Recording` (one end followed by one begin, whatever its result), the
one of another command enters no state. -/
theorem vr_test_run_frames (window : vr_window) (script : vr_script) (world : World)
    (hsteady : world.steady)
    (hsafe : decodable window.framebuffer_format ∨ ∀ c ∈ script.commands, decodes_nothing c) :
    ∃ r dF wF hevs revs,
      vr_test_run window script world = Except.ok (r, dF, wF)
        ∧ wF.since world = begin_paint_steps ++ hevs
            ++ end_paint_steps window.need_linear_memory_invalidate ++ revs
        ∧ frame_run frame_state.Recording hevs = some (frame_state.Recording,
            ended_recording (script.commands.countP vr_script_command.is_probe_rect))
        ∧ (∀ e ∈ revs, e.is_release = true)
        ∧ frame_run frame_state.Ended (wF.since world) = some (frame_state.Ended,
            frame_state.Recording ::
              (ended_recording (script.commands.countP vr_script_command.is_probe_rect)
                ++ [frame_state.Ended]))
        ∧ (∀ pre e post, wF.since world = pre ++ e :: post → e.is_draw_command = true →
            ∃ l, frame_run frame_state.Ended pre = some (frame_state.Recording, l))
        ∧ (∀ pre p post, wF.since world = pre ++ Event.load_pixel p :: post →
            ∃ l, frame_run frame_state.Ended pre = some (frame_state.Ended, l))
        ∧ (∀ pre c post, script.commands = pre ++ c :: post →
            ∃ d w r' d' w' cevs, reaches window script world pre d w
              ∧ run_command c d w = Except.ok (r', d', w')
              ∧ w'.trace = w.trace ++ cevs
              ∧ frame_run frame_state.Recording cevs
                  = some (frame_state.Recording, command_states c)) := by
  obtain ⟨⟨rs, d, w⟩, hrs, _⟩ := handler_results_returns_safe script.commands
    (initial_data window script) (begin_paint (initial_data window script) world).2 hsafe
  obtain ⟨_, hbt, hbo⟩ := begin_paint_steady (initial_data window script) world hsteady
  have hs0 : (begin_paint (initial_data window script) world).2.steady :=
    steady_of_outcome hsteady hbo
  obtain ⟨ho, hevs, ht, hr⟩ := handler_results_frames script.commands _ _ rs d w hs0 hrs
  have hs1 : w.steady := steady_of_outcome hs0 ho
  obtain ⟨_, het, _⟩ := end_paint_steady d w hs1
  have hwin : d.window = window := handler_results_data script.commands _ _ rs d w hrs
  rw [hwin] at het
  obtain ⟨_, revs, hrt, hrel⟩ := free_all_buffers_grows d.buffers d (end_paint d w).2
  obtain ⟨r, dF, hrun⟩ := handlers_then_end window script world rs d w hrs
  have htrace : (free_all_buffers d.buffers d (end_paint d w).2).2.trace
      = world.trace ++ (begin_paint_steps ++ hevs
          ++ end_paint_steps window.need_linear_memory_invalidate ++ revs) := by
    rw [hrt, het, ht, hbt]
    simp only [List.append_assoc]
  have hsince := since_append world _ _ htrace
  have haccept : frame_run frame_state.Ended (begin_paint_steps ++ hevs
      ++ end_paint_steps window.need_linear_memory_invalidate ++ revs)
      = some (frame_state.Ended, frame_state.Recording ::
          (ended_recording (script.commands.countP vr_script_command.is_probe_rect)
            ++ [frame_state.Ended])) := by
    have h1 := frame_run_append_some _ _ _ _ _ _ _ frame_run_begin hr
    have h2 := frame_run_append_some _ _ _ _ _ _ _ h1
      (frame_run_end window.need_linear_memory_invalidate)
    have h3 := frame_run_append_some _ _ _ _ _ _ _ h2
      (frame_run_stay frame_state.Ended revs fun e he => release_ended e (hrel e he))
    rw [h3]
    simp
  refine ⟨r, dF, _, hevs, revs, hrun, hsince, hr, hrel, ?_, ?_, ?_, ?_⟩
  · rw [hsince]; exact haccept
  · intro pre e post hsplit he
    rw [hsince] at hsplit
    rw [hsplit] at haccept
    obtain ⟨s1, l1, s2, h1, h2⟩ := frame_run_split pre e post _ _ haccept
    rw [draw_command_state s1 s2 e he h2] at h1
    exact ⟨l1, h1⟩
  · intro pre p post hsplit
    rw [hsince] at hsplit
    rw [hsplit] at haccept
    obtain ⟨s1, l1, s2, h1, h2⟩ := frame_run_split pre (Event.load_pixel p) post _ _ haccept
    rw [load_pixel_state s1 s2 p h2] at h1
    exact ⟨l1, h1⟩
  · intro pre c post hcmds
    rw [hcmds] at hrs
    obtain ⟨rs1, d1, w1, rs2, e1, e2, _⟩ := (handler_results_append _ _ _ _ _ _ _).1 hrs
    obtain ⟨r', d', w', rs3, f1, _, _⟩ := handler_results_cons_ok _ _ _ _ _ _ _ e2
    have hs2 : w1.steady :=
      steady_of_outcome hs0 (handler_results_frames pre _ _ rs1 d1 w1 hs0 e1).1
    obtain ⟨_, cevs, hct, hcr⟩ := run_command_frames c d1 w1 hs2 r' d' w' f1
    exact ⟨d1, w1, r', d', w', cevs, ⟨⟨c :: post, hcmds⟩, rs1, e1⟩, f1, hct, hcr⟩

/-- C14 (witness): the red script (one probe) on a BGRA window whose device
calls all succeed. -/
theorem vr_test_run_frames_witness :
    (steady_world [0, 0, 255, 255]).steady
      ∧ (decodable bgra_window.framebuffer_format
          ∨ ∀ c ∈ red_script.commands, decodes_nothing c)
      ∧ ∃ r dF wF, vr_test_run bgra_window red_script (steady_world [0, 0, 255, 255])
            = Except.ok (r, dF, wF)
          ∧ frame_run frame_state.Ended (wF.since (steady_world [0, 0, 255, 255]))
              = some (frame_state.Ended, [frame_state.Recording, frame_state.Ended,
                  frame_state.Recording, frame_state.Ended]) := by
  obtain ⟨r, dF, wF, _, _, hrun, _, _, _, hacc, _⟩ :=
    vr_test_run_frames bgra_window red_script (steady_world [0, 0, 255, 255])
      (fun _ => rfl) (Or.inl bgra8_unorm_decodable)
  exact ⟨fun _ => rfl, Or.inl bgra8_unorm_decodable, r, dF, wF, hrun, hacc⟩

set_option maxRecDepth 4000 in
/-- C14 (counterexample): with a framebuffer format packed in 24 bits and the
script `clear; probe rect 1x1; draw rect`, every device call succeeding, the
probe ends the frame and its first pixel decode is fatal: the run does not
return, the states entered are `Recording`, `Ended` and no frame begins after
the end performed by the probe. -/
theorem vr_test_run_frame_not_resumed :
    (steady_world []).steady
      ∧ (vr_test_run packed24_window clear_probe_script (steady_world [])).map (fun r => r.1)
          = Except.error (Abort.vr_fatal "Unknown packed bit size: %i")
      ∧ (run_command ⟨1, vr_script_op.CLEAR⟩ (initial_data packed24_window clear_probe_script)
            (begin_paint (initial_data packed24_window clear_probe_script)
              (steady_world [])).2).map (fun r => r.2.2.trace)
          = Except.ok (begin_paint_steps ++ [Event.vkCmdClearAttachments black])
      ∧ frame_run frame_state.Ended
          (end_paint (initial_data packed24_window clear_probe_script)
            (clear (initial_data packed24_window clear_probe_script)
              (begin_paint (initial_data packed24_window clear_probe_script)
                (steady_world [])).2).2.2).2.trace
          = some (frame_state.Ended, [frame_state.Recording, frame_state.Ended])
      ∧ (probe_rows (initial_data packed24_window clear_probe_script)
            ⟨2, vr_script_op.PROBE_RECT 3 0 0 1 1 black⟩ 3 0 0 1 black 1 0
            (end_paint (initial_data packed24_window clear_probe_script)
              (clear (initial_data packed24_window clear_probe_script)
                (begin_paint (initial_data packed24_window clear_probe_script)
                  (steady_world [])).2).2.2).2).map (fun r => r.1)
          = Except.error (Abort.vr_fatal "Unknown packed bit size: %i") := by
  refine ⟨fun _ => rfl, by decide, by decide, by decide, by decide⟩

/-! ## The run and its handlers -/

theorem run_command_grows (c : vr_script_command) (d : test_data) (w : World) (r : Bool)
    (d' : test_data) (w' : World) (h : run_command c d w = Except.ok (r, d', w')) :
    w.grows (fun _ => True) w' := by
  unfold run_command at h
  cases hop : c.op with
  | DRAW_RECT x y rw rh =>
    rw [hop] at h
    injection h with h
    have h1 := (draw_rect_uploads d x y rw rh w).2.2
    rw [h] at h1
    exact grows_mono (fun _ _ => trivial) h1
  | DRAW_ARRAYS vc ic fv fi =>
    rw [hop] at h
    injection h with h
    obtain ⟨ho, evs, ht, _⟩ := draw_arrays_frames d c vc ic fv fi w
    rw [h] at ho ht
    exact ⟨ho, evs, ht, fun _ _ => trivial⟩
  | PROBE_RECT n x y rw rh color =>
    rw [hop] at h
    exact grows_mono (fun _ _ => trivial) (probe_rect_uploads d c n x y rw rh color w r d' w' h).2
  | SET_PUSH_CONSTANT o sz =>
    rw [hop] at h
    injection h with h
    obtain ⟨_, h2⟩ := Prod.mk.inj h
    obtain ⟨_, hw⟩ := Prod.mk.inj h2
    rw [← hw]
    exact grows_emit _ _ _ trivial
  | CLEAR_COLOR col =>
    rw [hop] at h
    injection h with h
    obtain ⟨_, h2⟩ := Prod.mk.inj h
    obtain ⟨_, hw⟩ := Prod.mk.inj h2
    rw [← hw]
    exact grows_refl _ _
  | CLEAR =>
    rw [hop] at h
    injection h with h
    obtain ⟨_, h2⟩ := Prod.mk.inj h
    obtain ⟨_, hw⟩ := Prod.mk.inj h2
    rw [← hw]
    exact grows_emit _ _ _ trivial

theorem handler_results_grows (cs : List vr_script_command) :
    ∀ (d : test_data) (w : World) (rs : List Bool) (d' : test_data) (w' : World),
      handler_results cs d w = Except.ok (rs, d', w') →
      w.grows (fun _ => True) w' ∧ rs.length = cs.length := by
  induction cs with
  | nil =>
    intro d w rs d' w' h
    simp only [handler_results] at h
    injection h with h
    obtain ⟨h1, h2⟩ := Prod.mk.inj h
    obtain ⟨_, hw⟩ := Prod.mk.inj h2
    rw [← hw, ← h1]
    exact ⟨grows_refl _ _, rfl⟩
  | cons c rest ih =>
    intro d w rs d' w' h
    obtain ⟨r, d1, w1, rs', h1, h2, h3⟩ := handler_results_cons_ok c rest d w rs d' w' h
    obtain ⟨g, hl⟩ := ih d1 w1 rs' d' w' h2
    refine ⟨grows_trans (run_command_grows c d w r d1 w1 h1) g, ?_⟩
    rw [h3, List.length_cons, hl, List.length_cons]

/-- C1 (amended): for every script and every outcome of the device calls, if
the framebuffer format decodes or no probe of the script has a pixel to
decode, `vr_test_run` returns, and what it returns is what running the
handler of each command once, in script order, each from the state its
predecessor left, whether or not earlier ones failed, then `end_paint` and
the release of the buffers produce: the final data and the final world,
trace included, are those obtained from the state `(d1, w1)` that
`handler_results` reaches, with one result per command.  For each command of
the script its handler is run from the state reached after the commands
before it, its result is the entry of that index in the list of results, and
the events it issues are in the final trace, after those of the commands
before it.  The flag returned is true if and only if the initial
`begin_paint`, every handler and the final `end_paint` succeeded. -/
theorem vr_test_run_spec (window : vr_window) (script : vr_script) (world : World)
    (hsafe : decodable window.framebuffer_format ∨ ∀ c ∈ script.commands, decodes_nothing c) :
    ∃ (results : List Bool) (d1 : test_data) (w1 : World) (ret : Bool) (final_data : test_data)
        (final : World),
      handler_results script.commands (initial_data window script)
          (begin_paint (initial_data window script) world).2 = Except.ok (results, d1, w1)
        ∧ results.length = script.commands.length
        ∧ vr_test_run window script world = Except.ok (ret, final_data, final)
        ∧ final_data = (free_all_buffers d1.buffers d1 (end_paint d1 w1).2).1
        ∧ final = (free_all_buffers d1.buffers d1 (end_paint d1 w1).2).2
        ∧ (∀ pre c post, script.commands = pre ++ c :: post →
            ∃ d w r d' w' evs evs',
              reaches window script world pre d w
                ∧ run_command c d w = Except.ok (r, d', w')
                ∧ reaches window script world (pre ++ [c]) d' w'
                ∧ results[pre.length]? = some r
                ∧ w'.trace = w.trace ++ evs
                ∧ final.trace = w'.trace ++ evs')
        ∧ ret = ((begin_paint (initial_data window script) world).1 && results.all id
            && (end_paint d1 w1).1)
        ∧ (ret = true ↔
            (begin_paint (initial_data window script) world).1 = true
              ∧ (∀ r ∈ results, r = true)
              ∧ (end_paint d1 w1).1 = true) := by
  obtain ⟨⟨results, d1, w1⟩, hrs, hlen⟩ := handler_results_returns_safe script.commands
    (initial_data window script) (begin_paint (initial_data window script) world).2 hsafe
  have hrun : vr_test_run window script world
      = Except.ok (((begin_paint (initial_data window script) world).1 && results.all id
            && (end_paint d1 w1).1),
          (free_all_buffers d1.buffers d1 (end_paint d1 w1).2).1,
          (free_all_buffers d1.buffers d1 (end_paint d1 w1).2).2) := by
    unfold vr_test_run
    simp only []
    rw [run_commands_eq, hrs]
    simp only []
    congr 2
    cases (begin_paint (initial_data window script) world).1 <;>
      cases (end_paint d1 w1).1 <;> cases results.all id <;> simp
  refine ⟨results, d1, w1, _, _, _, hrs, hlen, hrun, rfl, rfl, ?_, rfl, ?_⟩
  · intro pre c post hcmds
    have hrs' := hrs
    rw [hcmds] at hrs'
    obtain ⟨rs1, da, wa, rs2, e1, e2, e3⟩ := (handler_results_append _ _ _ _ _ _ _).1 hrs'
    obtain ⟨r, d', w', rs3, f1, f2, f3⟩ := handler_results_cons_ok _ _ _ _ _ _ _ e2
    obtain ⟨_, evs, hevs, _⟩ := run_command_grows c da wa r d' w' f1
    obtain ⟨⟨_, evs1, hevs1, _⟩, _⟩ := handler_results_grows post d' w' rs3 d1 w1 f2
    obtain ⟨evs2, hevs2, _⟩ := end_paint_trace d1 w1
    obtain ⟨_, evs3, hevs3, _⟩ := free_all_buffers_grows d1.buffers d1 (end_paint d1 w1).2
    have hl1 := (handler_results_grows pre _ _ rs1 da wa e1).2
    refine ⟨da, wa, r, d', w', evs, evs1 ++ (evs2 ++ evs3), ⟨⟨c :: post, hcmds⟩, rs1, e1⟩, f1,
      ⟨⟨post, by rw [hcmds]; simp⟩, rs1 ++ [r], ?_⟩, ?_, hevs, ?_⟩
    · rw [handler_results_append]
      refine ⟨rs1, da, wa, [r], e1, ?_, rfl⟩
      simp only [handler_results, f1]
    · rw [e3, f3, ← hl1, List.getElem?_append_right (le_refl _), Nat.sub_self]
      simp
    · rw [hevs3, hevs2, hevs1]
      simp only [List.append_assoc]
  · simp only [Bool.and_eq_true, List.all_eq_true, id]
    tauto

/-- C1 (witness): the red script on a BGRA window. -/
theorem vr_test_run_spec_witness :
    (decodable bgra_window.framebuffer_format ∨ ∀ c ∈ red_script.commands, decodes_nothing c)
      ∧ ∃ (results : List Bool) (d1 : test_data) (w1 : World) (ret : Bool)
          (final_data : test_data) (final : World),
        handler_results red_script.commands (initial_data bgra_window red_script)
            (begin_paint (initial_data bgra_window red_script) (steady_world [0, 0, 255, 255])).2
            = Except.ok (results, d1, w1)
          ∧ results.length = red_script.commands.length
          ∧ vr_test_run bgra_window red_script (steady_world [0, 0, 255, 255])
              = Except.ok (ret, final_data, final)
          ∧ final = (free_all_buffers d1.buffers d1 (end_paint d1 w1).2).2
          ∧ ret = ((begin_paint (initial_data bgra_window red_script)
                (steady_world [0, 0, 255, 255])).1 && results.all id && (end_paint d1 w1).1) := by
  obtain ⟨results, d1, w1, ret, final_data, final, h1, h2, h3, _, h5, _, h7, _⟩ :=
    vr_test_run_spec bgra_window red_script (steady_world [0, 0, 255, 255])
      (Or.inl bgra8_unorm_decodable)
  exact ⟨Or.inl bgra8_unorm_decodable, results, d1, w1, ret, final_data, final, h1, h2, h3, h5,
    h7⟩

end VkRunner
